import Mathlib

/-! Topology assembly of the hwloc Darwin backend.

A shallow embedding of `hwloc/topology-darwin.c` (hwloc 2.7.1): the discovery pass
`hwloc_look_darwin`, which turns sysctl values into Package, Core, NUMA node and cache
objects, each carrying a cpuset, and the enumeration of the core kinds
(`hwloc__look_darwin_cpukinds`, `hwloc_look_darwin_cpukinds`), which sorts the processors
of the device tree into a performance and an efficiency bucket.

Conventions of the embedding.

* A local variable that the C code declares `unsigned` holds its value modulo `2^32`; every
  arithmetic operation on such variables is reduced modulo `2^32`. An `int64_t` is an `Int`
  and a `uint64_t` is a `Nat` reduced modulo `2^64`. A value assigned to an attribute field
  of an object is converted to the type of the field.
* A division of two `unsigned` values whose divisor is zero has no result: the function that
  performs it returns `none`, and so does the discovery pass, which never returns then.
* A sysctl query is a field of `PlatformSnapshot`; `none` is a failed query.
* The discovery pass is a function from the topology it is given and the snapshot to an
  optional `Discovery`, the record of everything the pass builds, in the order of the C
  statements; `none` is a pass that does not return.
* The core kinds are those of a build with the Foundation and IOKit frameworks and without
  `HWLOC_DEBUG`.
* The functions the file calls but does not define (bitmaps, info pairs, the insertion by
  cpuset) are modelled from the design document and say so.
-/

namespace Darwin

/-! ## Bitmaps -/

/-- Modelled from the spec: the hwloc bitmap (`hwloc_bitmap_t`, the CpuSetBitmap of the
design) is a set of logical processor indices. Its implementation lives in `bitmap.c`. -/
abbrev hwloc_bitmap_t := Finset Nat

/-- Modelled from the spec: `alloc() -> Bitmap`, the empty set. -/
def hwloc_bitmap_alloc : hwloc_bitmap_t := ∅

/-- Modelled from the spec: `set(i)` adds one index. -/
def hwloc_bitmap_set (set : hwloc_bitmap_t) (cpu : Nat) : hwloc_bitmap_t :=
  insert cpu set

/-- Modelled from the spec: `setRange(lo, hi)` adds the indices `lo, ..., hi`, both ends
included (nothing when `hi < lo`). The C function takes an `unsigned` begin and an `int` end,
where the end `-1` asks for an unbounded range; see `cache_cpuset_range` for why the discovery
pass never passes it. -/
def hwloc_bitmap_set_range (set : hwloc_bitmap_t) (begincpu endcpu : Nat) : hwloc_bitmap_t :=
  set ∪ Finset.Icc begincpu endcpu

/-- Modelled from the spec: `duplicate`, a copy with the same content. -/
def hwloc_bitmap_dup (set : hwloc_bitmap_t) : hwloc_bitmap_t := set

/-! ## Machine integers -/

/-- One more than `UINT_MAX`: the modulus of `unsigned` arithmetic. -/
def UINT_MODULUS : Nat := 4294967296

/-- One more than `UINT64_MAX`: the modulus of `uint64_t` arithmetic. -/
def UINT64_MODULUS : Nat := 18446744073709551616

/-- Conversion of an `int64_t` to `unsigned`, as in `nprocs = _nprocs`. -/
def to_unsigned (v : Int) : Nat := (v % (UINT_MODULUS : Int)).toNat

/-- Conversion of an `int64_t` to `uint64_t`, as in `cachesize[0] = memsize`. -/
def to_uint64 (v : Int) : Nat := (v % (UINT64_MODULUS : Int)).toNat

/-- Conversion of an `int64_t` to `int`, as in
`obj->attr->cache.associativity = cacheways[i-1]`: the value modulo `2^32` that lies between
`-2^31` and `2^31 - 1` (C leaves the result to the implementation when the value is out of
range; this is what the compilers of the platform produce). -/
def to_int (v : Int) : Int := (v + 2147483648) % 4294967296 - 2147483648

/-! ## Objects -/

/-- The object types the discovery pass builds. The enumeration is declared in `hwloc.h`;
the cache type of level `i` is computed as `HWLOC_OBJ_L1CACHE+i-1`, which is kept symbolic
as `HWLOC_OBJ_L1CACHE_plus (i-1)`. -/
inductive hwloc_obj_type_t where
  | HWLOC_OBJ_PACKAGE
  | HWLOC_OBJ_CORE
  | HWLOC_OBJ_NUMANODE
  | HWLOC_OBJ_L1ICACHE
  | HWLOC_OBJ_L1CACHE_plus (k : Nat)
deriving DecidableEq

/-- The cache kinds of `hwloc_obj_cache_type_t`. -/
inductive hwloc_obj_cache_type_t where
  | HWLOC_OBJ_CACHE_UNIFIED
  | HWLOC_OBJ_CACHE_DATA
  | HWLOC_OBJ_CACHE_INSTRUCTION
deriving DecidableEq

/-- The cache attributes the pass assigns (`obj->attr->cache`). `struct hwloc_cache_attr_s`
is declared in `hwloc.h` with a `hwloc_uint64_t size`, an `unsigned depth`, an
`unsigned linesize` and an `int associativity`; the pass converts what it assigns to these
types (`to_uint64`, `to_unsigned`, `to_int`). -/
structure hwloc_cache_attr_s where
  size : Nat
  depth : Nat
  linesize : Nat
  associativity : Int
  type : hwloc_obj_cache_type_t
deriving DecidableEq

/-- The NUMA node attributes the pass assigns (`obj->attr->numanode`): the local memory
(left at zero when no size is known) and the sizes of the two page types, all of them
`hwloc_uint64_t` in `hwloc.h`. -/
structure hwloc_numanode_attr_s where
  local_memory : Nat
  page_types : List Nat
deriving DecidableEq

/-- The attribute block of an object: a union in C, here the member the pass writes. -/
inductive hwloc_obj_attr_u where
  | unset
  | cache (c : hwloc_cache_attr_s)
  | numanode (n : hwloc_numanode_attr_s)
deriving DecidableEq

/-- One info pair of an object (`struct hwloc_info_s`). -/
abbrev hwloc_info_s := String × String

/-- A topology object as the pass fills it: `os_index` is `none` for
`HWLOC_UNKNOWN_INDEX`, `nodeset` is `none` while it is `NULL`. -/
structure hwloc_obj where
  type : hwloc_obj_type_t
  os_index : Option Nat
  cpuset : hwloc_bitmap_t
  nodeset : Option hwloc_bitmap_t
  infos : List hwloc_info_s
  attr : hwloc_obj_attr_u

/-- Modelled from the spec: adding descriptive metadata appends one name/value pair to the
object's mapping (`hwloc_obj_add_info`, defined in `topology.c`). -/
def hwloc_obj_add_info (infos : List hwloc_info_s) (name value : String) : List hwloc_info_s :=
  infos ++ [(name, value)]

/-! ## The device tree -/

/-- The value of a property of a registry entry (a `CFTypeRef`), the TypedValue of the
design: a `CFNumber`, whose `value` is `none` when `CFNumberGetValue` cannot deliver it as a
`long long`; a `CFData` byte blob, each byte a number below 256; or a value of another type. -/
inductive CFProperty where
  | number (value : Option Int)
  | data (bytes : List Nat)
  | other

/-- One child of `IODeviceTree:/cpus`, with the three properties the enumeration reads;
`none` is a property that `IORegistryEntrySearchCFProperty` does not find. -/
structure cpu_entry where
  logical_cpu_id : Option CFProperty
  cluster_type : Option CFProperty
  compatible : Option CFProperty

/-! ## The platform and the topology the pass receives -/

/-- The values of the sysctl queries of the pass, the spec's PlatformSnapshot: a scalar read
by `hwloc_get_sysctlbyname` is an `int64_t` or unavailable, a string is text or unavailable.
`hw_cacheconfig` is the raw buffer the kernel returns, byte by byte; `hw_cachesize` is the
array of 64-bit sizes. `heap` is the content of the freshly allocated `cacheconfig` buffer
before the kernel writes into it, and `malloc_ok` tells whether the three allocations of the
cache block succeed. `pagesize` and `large_pagesize` are `hwloc_getpagesize()` and
`sysconf(_SC_LARGE_PAGESIZE)` (zero where the latter is not declared). `cpus` is the
sequence of children of `IODeviceTree:/cpus` in iteration order, `none` when the entry or
its iterator cannot be obtained; `cpukinds_alloc_P` and `cpukinds_alloc_E` tell whether the
two `hwloc_bitmap_alloc` calls of `hwloc_look_darwin_cpukinds` succeed. -/
structure PlatformSnapshot where
  hw_logicalcpu : Option Int
  hw_ncpu : Option Int
  machdep_cpu_vendor : Option String
  machdep_cpu_brand_string : Option String
  machdep_cpu_family : Option Int
  machdep_cpu_model : Option Int
  machdep_cpu_stepping : Option Int
  hw_packages : Option Int
  machdep_cpu_thread_count : Option Int
  machdep_cpu_logical_per_package : Option Int
  machdep_cpu_core_count : Option Int
  machdep_cpu_cores_per_package : Option Int
  hw_l1dcachesize : Option Int
  hw_l1icachesize : Option Int
  hw_l2cachesize : Option Int
  hw_l3cachesize : Option Int
  machdep_cpu_cache_L1_associativity : Option Int
  machdep_cpu_cache_L2_associativity : Option Int
  hw_cachelinesize : Option Int
  hw_memsize : Option Int
  hw_cacheconfig : Option (List Nat)
  hw_cachesize : Option (List Nat)
  heap : Nat → Nat
  malloc_ok : Bool
  pagesize : Int
  large_pagesize : Int
  cpus : Option (List cpu_entry)
  cpukinds_alloc_P : Bool
  cpukinds_alloc_E : Bool

/-- What the pass reads of the topology it is given: the cpuset of the root object
(`topology->levels[0][0]->cpuset`, `none` while nothing was discovered) and the type filter
(`hwloc_filter_check_keep_object_type`). -/
structure hwloc_topology where
  root_cpuset : Option hwloc_bitmap_t
  keep : hwloc_obj_type_t → Bool

/-! ## Processor and package counts -/

/-- Lines 353-356: `_nprocs` is `hw.logicalcpu` when that query succeeds with a positive
value, else `hw.ncpu` when that one does; `none` is the path that returns -1. -/
def _nprocs (s : PlatformSnapshot) : Option Int :=
  match s.hw_logicalcpu with
  | some v =>
    if 0 < v then some v
    else
      match s.hw_ncpu with
      | some w => if 0 < w then some w else none
      | none => none
  | none =>
    match s.hw_ncpu with
    | some w => if 0 < w then some w else none
    | none => none

/-- Line 358: `nprocs = _nprocs`, stored in an `unsigned`. -/
def nprocs (s : PlatformSnapshot) : Option Nat :=
  (_nprocs s).map to_unsigned

/-- Lines 385-386: `npackages = _npackages` when `hw.packages` succeeds with a positive
value; `none` is the `else` branch of line 475. -/
def npackages (s : PlatformSnapshot) : Option Nat :=
  match s.hw_packages with
  | some v => if 0 < v then some (to_unsigned v) else none
  | none => none

/-- The operator `/` on two `unsigned` values, as in `nprocs / npackages` (line 404). The
division has no result when the divisor is zero: the behaviour of the C program is
undefined there (on the platform the process is killed), and the result is `none`. -/
def unsigned_div (a b : Nat) : Option Nat :=
  if b = 0 then none else some (a / b)

/-- Lines 394-404: the number of logical processors of a package: the thread count when that
query succeeds with a positive value, else the legacy value when that one does, else the
quotient `nprocs / npackages` of line 404. That quotient has no result when `npackages` is
zero, which happens when `hw.packages` is a positive multiple of `2^32`. -/
def logical_per_package (s : PlatformSnapshot) (nprocs npackages : Nat) : Option Nat :=
  match s.machdep_cpu_thread_count with
  | some v =>
    if 0 < v then some (to_unsigned v)
    else
      match s.machdep_cpu_logical_per_package with
      | some w => if 0 < w then some (to_unsigned w) else unsigned_div nprocs npackages
      | none => unsigned_div nprocs npackages
  | none =>
    match s.machdep_cpu_logical_per_package with
    | some w => if 0 < w then some (to_unsigned w) else unsigned_div nprocs npackages
    | none => unsigned_div nprocs npackages

/-- Lines 445-455: the number of cores of a package, zero when unknown. -/
def cores_per_package (s : PlatformSnapshot) : Nat :=
  match s.machdep_cpu_core_count with
  | some v =>
    if 0 < v then to_unsigned v
    else
      match s.machdep_cpu_cores_per_package with
      | some w => if 0 < w then to_unsigned w else 0
      | none => 0
  | none =>
    match s.machdep_cpu_cores_per_package with
    | some w => if 0 < w then to_unsigned w else 0
    | none => 0

/-! ## Descriptive CPU metadata -/

/-- The text `snprintf(buf, size, "%lld", v)` leaves in a buffer of `size` bytes: the
decimal digits of `v`, cut to `size - 1` characters. -/
def snprintf_lld (size : Nat) (v : Int) : String :=
  (toString v).take (size - 1)

/-- Lines 363-365: `cpuvendor`, empty when the query fails. -/
def cpuvendor (s : PlatformSnapshot) : String := s.machdep_cpu_vendor.getD ""

/-- Lines 367-369: `cpumodel`, empty when the query fails. -/
def cpumodel (s : PlatformSnapshot) : String := s.machdep_cpu_brand_string.getD ""

/-- Lines 371-374: `cpufamilynumber`. -/
def cpufamilynumber (s : PlatformSnapshot) : String :=
  match s.machdep_cpu_family with
  | none => ""
  | some v => snprintf_lld 20 v

/-- Lines 375-378: `cpumodelnumber`. -/
def cpumodelnumber (s : PlatformSnapshot) : String :=
  match s.machdep_cpu_model with
  | none => ""
  | some v => snprintf_lld 20 v

/-- Lines 380-383: `cpustepping`. -/
def cpustepping (s : PlatformSnapshot) : String :=
  match s.machdep_cpu_stepping with
  | none => ""
  | some v => snprintf_lld 20 v

/-- The five conditional `hwloc_obj_add_info` calls that the pass applies to a Package
(lines 419-428) and to the root (lines 433-442 and 476-485): each pair is added only when
its string is not empty. -/
def add_cpu_infos (s : PlatformSnapshot) (infos : List hwloc_info_s) : List hwloc_info_s :=
  let infos := if cpuvendor s ≠ "" then hwloc_obj_add_info infos "CPUVendor" (cpuvendor s) else infos
  let infos := if cpumodel s ≠ "" then hwloc_obj_add_info infos "CPUModel" (cpumodel s) else infos
  let infos :=
    if cpufamilynumber s ≠ "" then hwloc_obj_add_info infos "CPUFamilyNumber" (cpufamilynumber s)
    else infos
  let infos :=
    if cpumodelnumber s ≠ "" then hwloc_obj_add_info infos "CPUModelNumber" (cpumodelnumber s)
    else infos
  if cpustepping s ≠ "" then hwloc_obj_add_info infos "CPUStepping" (cpustepping s) else infos

/-! ## Packages and cores -/

/-- The loop `for (cpu = lo; cpu < hi; cpu++) hwloc_bitmap_set(set, cpu)` of lines 413-414
and 465-468, given its first index and its number of iterations. The counter never wraps:
it stays below `hi`, which is below `2^32`. -/
def set_cpus (set : hwloc_bitmap_t) (cpu : Nat) : Nat → hwloc_bitmap_t
  | 0 => set
  | k + 1 => set_cpus (hwloc_bitmap_set set cpu) (cpu + 1) k

/-- Lines 412-414 and 464-468: the cpuset filled by the loop that runs `cpu` from
`i*width` up to, and excluding, `(i+1)*width`, both products taken in `unsigned`. -/
def cpu_block (i width : Nat) : hwloc_bitmap_t :=
  set_cpus hwloc_bitmap_alloc ((i * width) % UINT_MODULUS)
    (((i + 1) * width) % UINT_MODULUS - (i * width) % UINT_MODULUS)

/-- Line 408: the comparison `nprocs == npackages * logical_per_package`, the product
taken in `unsigned`. -/
def package_check (nprocs npackages logical_per_package : Nat) : Bool :=
  nprocs == (npackages * logical_per_package) % UINT_MODULUS

/-- Lines 411-430: the Package object of index `i`. -/
def package_obj (s : PlatformSnapshot) (logical_per_package i : Nat) : hwloc_obj :=
  { type := hwloc_obj_type_t.HWLOC_OBJ_PACKAGE
    os_index := some i
    cpuset := cpu_block i logical_per_package
    nodeset := none
    infos := add_cpu_infos s []
    attr := hwloc_obj_attr_u.unset }

/-- Lines 408-431: the Package objects handed to `hwloc__insert_object_by_cpuset`, in
order; none when the check or the filter refuses. -/
def look_packages (topology : hwloc_topology) (s : PlatformSnapshot)
    (nprocs npackages logical_per_package : Nat) : List hwloc_obj :=
  if package_check nprocs npackages logical_per_package
      && topology.keep hwloc_obj_type_t.HWLOC_OBJ_PACKAGE then
    (List.range npackages).map (package_obj s logical_per_package)
  else []

/-- Lines 408-443: the info pairs added to the root in the `hw.packages` branch, which
are those of the `else` of line 432. -/
def look_packages_root_infos (topology : hwloc_topology) (s : PlatformSnapshot)
    (nprocs npackages logical_per_package : Nat) : List hwloc_info_s :=
  if package_check nprocs npackages logical_per_package
      && topology.keep hwloc_obj_type_t.HWLOC_OBJ_PACKAGE then []
  else add_cpu_infos s []

/-- Lines 463-472: the Core object of index `i`. -/
def core_obj (logical_per_package cores_per_package i : Nat) : hwloc_obj :=
  { type := hwloc_obj_type_t.HWLOC_OBJ_CORE
    os_index := some i
    cpuset := cpu_block i (logical_per_package / cores_per_package)
    nodeset := none
    infos := []
    attr := hwloc_obj_attr_u.unset }

/-- Lines 457-474: the Core objects handed to `hwloc__insert_object_by_cpuset`, in
order. The bound `npackages * cores_per_package` is an `unsigned` product. -/
def look_cores (topology : hwloc_topology)
    (npackages logical_per_package cores_per_package : Nat) : List hwloc_obj :=
  if decide (0 < cores_per_package) && topology.keep hwloc_obj_type_t.HWLOC_OBJ_CORE then
    if logical_per_package % cores_per_package = 0 then
      (List.range ((npackages * cores_per_package) % UINT_MODULUS)).map
        (core_obj logical_per_package cores_per_package)
    else []
  else []

/-! ## Cache sizes, associativity and the share counts -/

/-- Lines 488-498, 510-514: a size that is zero when its query fails. -/
def sysctl_or_zero (q : Option Int) : Int :=
  match q with
  | none => 0
  | some v => v

/-- Line 491: `l1icachesize`. -/
def l1icachesize (s : PlatformSnapshot) : Int := sysctl_or_zero s.hw_l1icachesize

/-- Line 510: `cachelinesize`. -/
def cachelinesize (s : PlatformSnapshot) : Int := sysctl_or_zero s.hw_cachelinesize

/-- Lines 500-508: one entry of `cacheways`: zero when the query fails, -1 when the
reported value is `0xff`, the reported value otherwise. -/
def cacheways_entry (q : Option Int) : Int :=
  match q with
  | none => 0
  | some v => if v = 255 then -1 else v

/-- Lines 500-508: `cacheways[k]` for `k = 0` (L1) and `k = 1` (L2). -/
def cacheways (s : PlatformSnapshot) (k : Nat) : Int :=
  if k = 0 then cacheways_entry s.machdep_cpu_cache_L1_associativity
  else cacheways_entry s.machdep_cpu_cache_L2_associativity

/-- Byte `k` of the `cacheconfig` buffer after the kernel has written the `raw` bytes of
`hw.cacheconfig` at its start: beyond them the buffer keeps what the allocation held. -/
def cacheconfig_byte (s : PlatformSnapshot) (raw : List Nat) (k : Nat) : Nat :=
  (raw.getD k (s.heap k)) % 256

/-- The little-endian integer made of the `width` bytes that start at `offset`. -/
def le_word (byte : Nat → Nat) (offset width : Nat) : Nat :=
  ((List.range width).map (fun k => byte (offset + k) * 256 ^ k)).sum

/-- Line 517: `n = size / sizeof(uint32_t)`, stored in an `unsigned`. -/
def cacheconfig_entries (raw : List Nat) : Nat := (raw.length / 4) % UINT_MODULUS

/-- Lines 526-535: the `n` entries of `cacheconfig` once the width is settled. The buffer is
first read as 64-bit integers; when the first of them exceeds `0xFFFFFFFF` the bytes are
read again as 32-bit integers, one per entry. The buffer is taken to be shorter than `2^34`
bytes, so that the loop of line 533 runs over the same `n` entries. -/
def cacheconfig (s : PlatformSnapshot) (raw : List Nat) : List Nat :=
  if 4294967295 < le_word (cacheconfig_byte s raw) 0 8 then
    (List.range (cacheconfig_entries raw)).map
      (fun i => le_word (cacheconfig_byte s raw) (4 * i) 4)
  else
    (List.range (cacheconfig_entries raw)).map
      (fun i => le_word (cacheconfig_byte s raw) (8 * i) 8)

/-- Lines 537-548: the `n` entries of `cachesize`: zeroed, then filled by `hw.cachesize`,
or, when that query fails, by the memory size and the L1d, L2 and L3 sizes. -/
def cachesize (s : PlatformSnapshot) (n : Nat) : List Nat :=
  match s.hw_cachesize with
  | some sizes => (List.range n).map (fun k => (sizes.getD k 0) % UINT64_MODULUS)
  | none =>
    (List.range n).map (fun k =>
      if k = 0 then to_uint64 (sysctl_or_zero s.hw_memsize)
      else if k = 1 then to_uint64 (sysctl_or_zero s.hw_l1dcachesize)
      else if k = 2 then to_uint64 (sysctl_or_zero s.hw_l2cachesize)
      else if k = 3 then to_uint64 (sysctl_or_zero s.hw_l3cachesize)
      else 0)

/-- Lines 551-555: the loop `for (i = 0; i < n && cacheconfig[i]; i++)` and `n = i`: the
number of entries before the first zero one. -/
def cache_levels : List Nat → Nat
  | [] => 0
  | c :: rest => if c ≠ 0 then cache_levels rest + 1 else 0

/-! ## NUMA nodes and caches -/

/-- Lines 570-571: the cpuset of group `j` of a level whose share count is `c`. The two
arguments of `hwloc_bitmap_set_range` are 64-bit products converted to the 32-bit
parameters. Since `j < nprocs / c`, the end is at most `nprocs - 1`, never the `-1` that
would ask for an unbounded range. -/
def cache_cpuset_range (c j : Nat) : hwloc_bitmap_t :=
  hwloc_bitmap_set_range hwloc_bitmap_alloc
    (((j * c) % UINT64_MODULUS) % UINT_MODULUS)
    (((((j + 1) % UINT_MODULUS * c) % UINT64_MODULUS + (UINT64_MODULUS - 1))
      % UINT64_MODULUS) % UINT_MODULUS)

/-- What one iteration `(i, j)` of the loops of lines 559-624 builds: the object `obj` of
the group, whether it is inserted (`hwloc__insert_object_by_cpuset`) or released
(`hwloc_free_unlinked_object`), and the L1 instruction cache inserted beside it, if any. -/
structure cache_group where
  l1i : Option hwloc_obj
  obj : hwloc_obj
  inserted : Bool

/-- Lines 573-588: the L1 instruction cache synthesized for a level-1 group. The `int64_t`
values `l1icachesize` and `cachelinesize` are converted to the `hwloc_uint64_t` size and the
`unsigned` line size of the attribute block. -/
def l1i_obj (s : PlatformSnapshot) (i : Nat) (cpuset : hwloc_bitmap_t) : hwloc_obj :=
  { type := hwloc_obj_type_t.HWLOC_OBJ_L1ICACHE
    os_index := none
    cpuset := hwloc_bitmap_dup cpuset
    nodeset := none
    infos := []
    attr := hwloc_obj_attr_u.cache
      { depth := i
        size := to_uint64 (l1icachesize s)
        linesize := to_unsigned (cachelinesize s)
        associativity := 0
        type := hwloc_obj_cache_type_t.HWLOC_OBJ_CACHE_INSTRUCTION } }

/-- Lines 562-571 and 589-617: the object `obj` of group `j` of level `i`: a NUMA node at
level 0, a cache above. The size is the `uint64_t` entry `cachesize[i]`; the `int64_t`
values `cachelinesize` and `cacheways[i-1]` are converted to the `unsigned` line size and to
the `int` associativity of the attribute block, and the page sizes to `hwloc_uint64_t`. -/
def level_obj (s : PlatformSnapshot) (cacheconfig cachesize : List Nat) (i j : Nat) :
    hwloc_obj :=
  if i = 0 then
    { type := hwloc_obj_type_t.HWLOC_OBJ_NUMANODE
      os_index := some j
      cpuset := cache_cpuset_range (cacheconfig.getD i 0) j
      nodeset := some (hwloc_bitmap_set hwloc_bitmap_alloc j)
      infos := []
      attr := hwloc_obj_attr_u.numanode
        { local_memory := if cachesize.getD i 0 ≠ 0 then cachesize.getD i 0 else 0
          page_types := [to_uint64 s.pagesize, to_uint64 s.large_pagesize] } }
  else
    { type := hwloc_obj_type_t.HWLOC_OBJ_L1CACHE_plus (i - 1)
      os_index := none
      cpuset := cache_cpuset_range (cacheconfig.getD i 0) j
      nodeset := none
      infos := []
      attr := hwloc_obj_attr_u.cache
        { depth := i
          size := cachesize.getD i 0
          linesize := to_unsigned (cachelinesize s)
          associativity := if i ≤ 2 then to_int (cacheways s (i - 1)) else 0
          type :=
            if i = 1 ∧ l1icachesize s ≠ 0 then hwloc_obj_cache_type_t.HWLOC_OBJ_CACHE_DATA
            else hwloc_obj_cache_type_t.HWLOC_OBJ_CACHE_UNIFIED } }

/-- Lines 561-623: the body of the inner loop for level `i` and group `j`. -/
def look_group (topology : hwloc_topology) (s : PlatformSnapshot)
    (cacheconfig cachesize : List Nat) (i j : Nat) : cache_group :=
  { l1i :=
      if i = 1 ∧ l1icachesize s ≠ 0
          ∧ topology.keep hwloc_obj_type_t.HWLOC_OBJ_L1ICACHE = true then
        some (l1i_obj s i (cache_cpuset_range (cacheconfig.getD i 0) j))
      else none
    obj := level_obj s cacheconfig cachesize i j
    inserted := topology.keep (level_obj s cacheconfig cachesize i j).type }

/-- Line 561: the inner loop `for (j = 0; j < (nprocs / cacheconfig[i]); j++)`. -/
def look_level (topology : hwloc_topology) (s : PlatformSnapshot) (nprocs : Nat)
    (cacheconfig cachesize : List Nat) (i : Nat) : List cache_group :=
  (List.range (nprocs / cacheconfig.getD i 0)).map
    (look_group topology s cacheconfig cachesize i)

/-- Lines 551-624: the levels built from the settled share counts: one list of groups for
every level index below the first zero share count, in order. -/
def look_levels (topology : hwloc_topology) (s : PlatformSnapshot) (nprocs : Nat)
    (cacheconfig cachesize : List Nat) : List (List cache_group) :=
  (List.range (cache_levels cacheconfig)).map
    (look_level topology s nprocs cacheconfig cachesize)

/-- Lines 516-629: the cache block. Nothing is built when `hw.cacheconfig` is unavailable or
an allocation fails. -/
def look_caches (topology : hwloc_topology) (s : PlatformSnapshot) (nprocs : Nat) :
    List (List cache_group) :=
  match s.hw_cacheconfig with
  | none => []
  | some raw =>
    if s.malloc_ok then
      look_levels topology s nprocs (cacheconfig s raw)
        (cachesize s (cacheconfig_entries raw))
    else []

/-! ## Core kinds -/

/-- The two buckets of `struct hwloc_darwin_cpukinds`: a cpuset and the descriptor
`compatible`, a C string that is `none` while the pointer is `NULL`. -/
structure hwloc_darwin_cpukind where
  cpuset : hwloc_bitmap_t
  compatible : Option (List Nat)

/-- The pair `P`, `E` of `struct hwloc_darwin_cpukinds`. -/
structure hwloc_darwin_cpukinds where
  P : hwloc_darwin_cpukind
  E : hwloc_darwin_cpukind

/-- The size limit of the descriptor, `HWLOC_DARWIN_COMPATIBLE_MAX`. -/
def HWLOC_DARWIN_COMPATIBLE_MAX : Nat := 128

/-- Lines 83-107: the `logical-cpu-id` of an entry, stored in an `unsigned`; `none` on each
of the three paths that skip the entry. -/
def read_logical_cpu_id (e : cpu_entry) : Option Nat :=
  match e.logical_cpu_id with
  | some (CFProperty.number (some lld_value)) => some (to_unsigned lld_value)
  | _ => none

/-- Lines 135-169: the `cluster-type` character of an entry: the first byte of a blob of at
least two bytes whose second byte is zero; `none` on each path that skips the entry. -/
def read_cluster_type (e : cpu_entry) : Option Nat :=
  match e.cluster_type with
  | some (CFProperty.data bytes) =>
    if bytes.length < 2 then none
    else if bytes.getD 1 0 = 0 then some (bytes.getD 0 0) else none
  | _ => none

/-- Lines 193-195: the loop that turns into `;` every zero byte followed by a non-zero
byte. Step `i` reads the bytes `i` and `i+1` and writes byte `i` only, so every byte it
reads is still the original one; beyond the last byte the buffer holds the zero of line
191. -/
def join_segments : List Nat → List Nat
  | [] => []
  | c :: rest => (if c = 0 ∧ rest.headD 0 ≠ 0 then 59 else c) :: join_segments rest

/-- The C string held by a buffer that is followed by a zero byte: its bytes up to the
first zero. -/
def c_string (buffer : List Nat) : List Nat :=
  buffer.takeWhile (fun c => c ≠ 0)

/-- Lines 172-204: the descriptor `compatible` of an entry: the blob, cut to
`HWLOC_DARWIN_COMPATIBLE_MAX` bytes (its length is held in an `unsigned`), with its
segments joined, read as a C string; `none` on each path that skips the entry, the last of
which is an empty string. -/
def read_compatible (e : cpu_entry) : Option (List Nat) :=
  match e.compatible with
  | some (CFProperty.data bytes) =>
    if (join_segments
          (bytes.take (min (bytes.length % UINT_MODULUS) HWLOC_DARWIN_COMPATIBLE_MAX))).headD 0
        = 0 then none
    else
      some (c_string (join_segments
        (bytes.take (min (bytes.length % UINT_MODULUS) HWLOC_DARWIN_COMPATIBLE_MAX))))
  | _ => none

/-- Lines 213-217 and 220-224: the processor enters the bucket, which takes the descriptor
when it has none yet (`strdup`, taken to succeed) and keeps its own otherwise. -/
def cpukind_add (kind : hwloc_darwin_cpukind) (logical_cpu_id : Nat) (compatible : List Nat) :
    hwloc_darwin_cpukind :=
  { cpuset := hwloc_bitmap_set kind.cpuset logical_cpu_id
    compatible :=
      match kind.compatible with
      | none => some compatible
      | some earlier => some earlier }

/-- Lines 63-231: the body of the loop over the children of `IODeviceTree:/cpus`, for a
build without `HWLOC_DEBUG`. The character `E` is 69 and `P` is 80. -/
def cpukinds_entry (kinds : hwloc_darwin_cpukinds) (e : cpu_entry) : hwloc_darwin_cpukinds :=
  match read_logical_cpu_id e with
  | none => kinds
  | some logical_cpu_id =>
    match read_cluster_type e with
    | none => kinds
    | some cluster_type =>
      match read_compatible e with
      | none => kinds
      | some compatible =>
        if cluster_type = 69 then
          { P := kinds.P, E := cpukind_add kinds.E logical_cpu_id compatible }
        else if cluster_type = 80 then
          { P := cpukind_add kinds.P logical_cpu_id compatible, E := kinds.E }
        else kinds

/-- The enumeration `hwloc__look_darwin_cpukinds` (lines 40-237): its return value and the
buckets it leaves. It returns -1, with the buckets untouched, when `IODeviceTree:/cpus` or
its iterator cannot be obtained. -/
def hwloc__look_darwin_cpukinds (cpus : Option (List cpu_entry))
    (kinds : hwloc_darwin_cpukinds) : Int × hwloc_darwin_cpukinds :=
  match cpus with
  | none => (-1, kinds)
  | some entries => (0, entries.foldl cpukinds_entry kinds)

/-- One call of `hwloc_internal_cpukinds_register` (defined in `cpukinds.c`): the cpuset
given to the callee, the forced efficiency, the info pairs and the flags. -/
structure cpukind_registration where
  cpuset : hwloc_bitmap_t
  forced_efficiency : Int
  infos : List (String × List Nat)
  flags : Nat

/-- Modelled from the spec: `isZero() -> bool` tells whether the set is empty. -/
def hwloc_bitmap_iszero (set : hwloc_bitmap_t) : Bool := decide (set = ∅)

/-- Lines 254-270 and 273-289: the registration of one bucket, skipped when its cpuset is
empty. -/
def register_cpukind (kind : hwloc_darwin_cpukind) (efficiency : Int) :
    List cpukind_registration :=
  if !hwloc_bitmap_iszero kind.cpuset then
    [{ cpuset := kind.cpuset
       forced_efficiency := efficiency
       infos :=
         match kind.compatible with
         | some compatible => [("DarwinCompatible", compatible)]
         | none => []
       flags := 0 }]
  else []

/-- What `hwloc_look_darwin_cpukinds` produces: its return value, the registrations in
order, and whether it sets `topology->support.discovery->cpukind_efficiency`. -/
structure cpukinds_outcome where
  ret : Int
  registered : List cpukind_registration
  cpukind_efficiency : Bool

/-- The buckets as `hwloc_look_darwin_cpukinds` allocates them (lines 243-246). -/
def cpukinds_init : hwloc_darwin_cpukinds :=
  { P := { cpuset := hwloc_bitmap_alloc, compatible := none }
    E := { cpuset := hwloc_bitmap_alloc, compatible := none } }

/-- The function `hwloc_look_darwin_cpukinds` (lines 239-300) of a build with the
Foundation and IOKit frameworks. The return value of the enumeration is not looked at. -/
def hwloc_look_darwin_cpukinds (s : PlatformSnapshot) : cpukinds_outcome :=
  if !s.cpukinds_alloc_P || !s.cpukinds_alloc_E then
    { ret := -1, registered := [], cpukind_efficiency := false }
  else
    { ret := 0
      registered :=
        register_cpukind (hwloc__look_darwin_cpukinds s.cpus cpukinds_init).2.P 1
          ++ register_cpukind (hwloc__look_darwin_cpukinds s.cpus cpukinds_init).2.E 0
      cpukind_efficiency :=
        !hwloc_bitmap_iszero (hwloc__look_darwin_cpukinds s.cpus cpukinds_init).2.P.cpuset
          || !hwloc_bitmap_iszero (hwloc__look_darwin_cpukinds s.cpus cpukinds_init).2.E.cpuset }

/-! ## The discovery pass -/

/-- Everything `hwloc_look_darwin` produces: its return value; whether the root sets were
allocated; the info pairs it adds to the root; the Package and Core objects it hands to
`hwloc__insert_object_by_cpuset`; the groups of every cache level; the number of PUs of
`hwloc_setup_pu_level`; whether `hwloc_add_uname_info` ran; the discovery support flags;
the cpu kinds registered by `hwloc_look_darwin_cpukinds`. -/
structure Discovery where
  ret : Int
  root_sets : Bool
  root_infos : List hwloc_info_s
  packages : List hwloc_obj
  cores : List hwloc_obj
  levels : List (List cache_group)
  pu_level : Option Nat
  uname_info : Bool
  support_pu : Bool
  support_numa : Bool
  cpukinds : List cpukind_registration
  support_cpukind_efficiency : Bool

/-- What the package block (lines 385-486) builds: the info pairs it adds to the root, and
the Package and Core objects it hands to `hwloc__insert_object_by_cpuset`. -/
structure package_block where
  root_infos : List hwloc_info_s
  packages : List hwloc_obj
  cores : List hwloc_obj

/-- Lines 385-486: the package block. Without a positive `hw.packages` the CPU info pairs go
to the root and nothing is built. Otherwise `logical_per_package` is computed first; when
the division of line 404 has no result the block does not complete (`none`). -/
def look_package_block (topology : hwloc_topology) (s : PlatformSnapshot) (nprocs : Nat) :
    Option package_block :=
  match npackages s with
  | none => some { root_infos := add_cpu_infos s [], packages := [], cores := [] }
  | some np =>
    match logical_per_package s nprocs np with
    | none => none
    | some lpp =>
      some
        { root_infos := look_packages_root_infos topology s nprocs np lpp
          packages := look_packages topology s nprocs np lpp
          cores := look_cores topology np lpp (cores_per_package s) }

/-- Lines 566, 606-609, 631-634: `gotnuma` and `gotnumamemory` are both positive only when
a level-0 object was built. -/
def got_numa (levels : List (List cache_group)) : Bool :=
  match levels with
  | [] => false
  | level0 :: _ => !level0.isEmpty

/-- The discovery pass `hwloc_look_darwin` (lines 309-644). It returns -1 when the root
already has a cpuset or no positive processor count is obtained. Otherwise it runs the
package block, and does not return (`none`) when that block divides by zero at line 404;
when the block completes, the pass goes on with the caches, the processing units and the
cpu kinds and returns 0. The cpu kinds of line 639 are registered by
`hwloc_look_darwin_cpukinds`, whose return value the pass ignores. The assertion of line 338
on the discovery phase is a precondition. -/
def hwloc_look_darwin (topology : hwloc_topology) (s : PlatformSnapshot) : Option Discovery :=
  if topology.root_cpuset.isSome then
    some
      { ret := -1, root_sets := false, root_infos := [], packages := [], cores := [],
        levels := [], pu_level := none, uname_info := false, support_pu := false,
        support_numa := false, cpukinds := [], support_cpukind_efficiency := false }
  else
    match nprocs s with
    | none =>
      some
        { ret := -1, root_sets := true, root_infos := [], packages := [], cores := [],
          levels := [], pu_level := none, uname_info := false, support_pu := false,
          support_numa := false, cpukinds := [], support_cpukind_efficiency := false }
    | some n =>
      match look_package_block topology s n with
      | none => none
      | some block =>
        some
          { ret := 0
            root_sets := true
            root_infos := hwloc_obj_add_info block.root_infos "Backend" "Darwin"
            packages := block.packages
            cores := block.cores
            levels := look_caches topology s n
            pu_level := some n
            uname_info := true
            support_pu := true
            support_numa := got_numa (look_caches topology s n)
            cpukinds := (hwloc_look_darwin_cpukinds s).registered
            support_cpukind_efficiency := (hwloc_look_darwin_cpukinds s).cpukind_efficiency }

/-! ## Sample platforms -/

/-- A platform on which every query fails. -/
def snapshot_unavailable : PlatformSnapshot :=
  { hw_logicalcpu := none, hw_ncpu := none, machdep_cpu_vendor := none,
    machdep_cpu_brand_string := none, machdep_cpu_family := none, machdep_cpu_model := none,
    machdep_cpu_stepping := none, hw_packages := none, machdep_cpu_thread_count := none,
    machdep_cpu_logical_per_package := none, machdep_cpu_core_count := none,
    machdep_cpu_cores_per_package := none, hw_l1dcachesize := none, hw_l1icachesize := none,
    hw_l2cachesize := none, hw_l3cachesize := none,
    machdep_cpu_cache_L1_associativity := none, machdep_cpu_cache_L2_associativity := none,
    hw_cachelinesize := none, hw_memsize := none, hw_cacheconfig := none,
    hw_cachesize := none, heap := fun _ => 0, malloc_ok := true, pagesize := 4096,
    large_pagesize := 0, cpus := none, cpukinds_alloc_P := true, cpukinds_alloc_E := true }

/-- The uniform machine of the design: 8 logical processors, 2 packages, 4 logical
processors and 2 cores per package. -/
def snapshot_uniform : PlatformSnapshot :=
  { snapshot_unavailable with
    hw_logicalcpu := some 8
    hw_packages := some 2
    machdep_cpu_vendor := some "GenuineIntel"
    machdep_cpu_thread_count := some 4
    machdep_cpu_logical_per_package := some 16
    machdep_cpu_core_count := some 2 }

/-- A platform that reports 10 logical processors, 3 packages and a thread count of
2863311534 per package: `3 * 2863311534 = 2 * 2^32 + 10`. -/
def snapshot_wrap : PlatformSnapshot :=
  { snapshot_unavailable with
    hw_logicalcpu := some 10
    hw_packages := some 3
    machdep_cpu_thread_count := some 2863311534 }

/-- A platform that reports 10 logical processors and 3 packages, and nothing else. -/
def snapshot_uneven : PlatformSnapshot :=
  { snapshot_unavailable with
    hw_logicalcpu := some 10
    hw_packages := some 3
    machdep_cpu_vendor := some "GenuineIntel" }

/-- A platform that reports only the legacy `machdep.cpu.logical_per_package`. -/
def snapshot_legacy : PlatformSnapshot :=
  { snapshot_unavailable with
    hw_logicalcpu := some 8
    hw_packages := some 2
    machdep_cpu_logical_per_package := some 4 }

/-- The share counts `[4, 2, 8, 0, 3]` as the 20 bytes of five 32-bit little-endian
integers. -/
def raw_share_counts : List Nat :=
  [4, 0, 0, 0, 2, 0, 0, 0, 8, 0, 0, 0, 0, 0, 0, 0, 3, 0, 0, 0]

/-- The machine of the truncation scenario: 8 logical processors and the share counts
`[4, 2, 8, 0, 3]`, with an L1 instruction cache size and both associativities reported. -/
def snapshot_caches : PlatformSnapshot :=
  { snapshot_unavailable with
    hw_logicalcpu := some 8
    hw_l1dcachesize := some 32768
    hw_l1icachesize := some 65536
    hw_l2cachesize := some 262144
    machdep_cpu_cache_L1_associativity := some 8
    machdep_cpu_cache_L2_associativity := some 255
    hw_cachelinesize := some 64
    hw_memsize := some 1024
    hw_cacheconfig := some raw_share_counts }

/-- The share counts `[4, 0]` as the 16 bytes of two 64-bit little-endian integers. -/
def raw_remainder : List Nat :=
  [4, 0, 0, 0, 0, 0, 0, 0, 0, 0, 0, 0, 0, 0, 0, 0]

/-- A machine of 10 logical processors whose memory level is shared by 4. -/
def snapshot_remainder : PlatformSnapshot :=
  { snapshot_unavailable with
    hw_logicalcpu := some 10
    hw_cacheconfig := some raw_remainder }

/-- A fresh topology (nothing discovered yet) whose filter keeps every object type. -/
def topology_keep_all : hwloc_topology :=
  { root_cpuset := none, keep := fun _ => true }

/-- Level `i` of the truncation scenario, as the inner loop builds it. -/
def caches_level (i : Nat) : List cache_group :=
  look_level topology_keep_all snapshot_caches 8 [4, 2, 8, 0, 3]
    (cachesize snapshot_caches 5) i

/-- Group `j` of level `i` of the truncation scenario. -/
def caches_group (i j : Nat) : cache_group :=
  look_group topology_keep_all snapshot_caches [4, 2, 8, 0, 3]
    (cachesize snapshot_caches 5) i j
/-! ## Records of the device tree, as the design describes them -/

/-- A record is well formed when the enumeration reads its three properties: its
`logical-cpu-id`, its `cluster-type` character and a non-empty descriptor. -/
def well_formed (e : cpu_entry) : Bool :=
  (read_logical_cpu_id e).isSome && (read_cluster_type e).isSome
    && (read_compatible e).isSome

/-- A well-formed record whose `cluster-type` character is `tag`. -/
def tagged (tag : Nat) (e : cpu_entry) : Bool :=
  well_formed e && decide (read_cluster_type e = some tag)

/-- The `logical-cpu-id`s of the well-formed records tagged `tag`, in order. -/
def tagged_ids (tag : Nat) (entries : List cpu_entry) : List Nat :=
  (entries.filter (tagged tag)).filterMap read_logical_cpu_id

/-- The descriptors of the well-formed records tagged `tag`, in order. -/
def tagged_descriptors (tag : Nat) (entries : List cpu_entry) : List (List Nat) :=
  (entries.filter (tagged tag)).filterMap read_compatible

/-- The malformed records, in the words of the design: `logical-cpu-id` missing or not a
number; `cluster-type` missing, not a byte blob, shorter than 2 bytes or with a non-zero
second byte; `compatible` missing, not a byte blob or empty. -/
def malformed (e : cpu_entry) : Bool :=
  (match e.logical_cpu_id with
    | some (CFProperty.number _) => false
    | _ => true)
  || (match e.cluster_type with
    | some (CFProperty.data bytes) => decide (bytes.length < 2) || decide (bytes.getD 1 0 ≠ 0)
    | _ => true)
  || (match e.compatible with
    | some (CFProperty.data bytes) => bytes.isEmpty
    | _ => true)

/-- The blob made of NUL-terminated segments. -/
def segments_blob (segments : List (List Nat)) : List Nat :=
  segments.flatMap (fun segment => segment ++ [0])

/-! ## Sample device trees -/

/-- A record with a numeric `logical-cpu-id`, a one-character `cluster-type` and a
`compatible` blob. -/
def cpu_record (logical_cpu_id : Int) (tag : Nat) (compatible : List Nat) : cpu_entry :=
  { logical_cpu_id := some (CFProperty.number (some logical_cpu_id))
    cluster_type := some (CFProperty.data [tag, 0])
    compatible := some (CFProperty.data compatible) }

/-- The text `perf-core`. -/
def perf_core : List Nat := [112, 101, 114, 102, 45, 99, 111, 114, 101]

/-- The text `eff-core`. -/
def eff_core : List Nat := [101, 102, 102, 45, 99, 111, 114, 101]

/-- The text `other`. -/
def other_core : List Nat := [111, 116, 104, 101, 114]

/-- The heterogeneous machine of the design: processors 0, 1, 2 tagged `P` with the
descriptor `perf-core`, processors 3, 4 tagged `E` with the descriptor `eff-core`. -/
def cpus_hybrid : List cpu_entry :=
  [cpu_record 0 80 (perf_core ++ [0]), cpu_record 1 80 (perf_core ++ [0]),
   cpu_record 2 80 (perf_core ++ [0]), cpu_record 3 69 (eff_core ++ [0]),
   cpu_record 4 69 (eff_core ++ [0])]

/-- The heterogeneous machine followed by a record for processor 2 tagged `E` with another
descriptor. -/
def cpus_conflict : List cpu_entry :=
  cpus_hybrid ++ [cpu_record 2 69 (other_core ++ [0])]

/-- A record without `cluster-type`. -/
def cpu_record_untyped : cpu_entry :=
  { logical_cpu_id := some (CFProperty.number (some 7))
    cluster_type := none
    compatible := some (CFProperty.data (perf_core ++ [0])) }

/-- A platform of 5 logical processors with the heterogeneous device tree. -/
def snapshot_hybrid : PlatformSnapshot :=
  { snapshot_unavailable with
    hw_logicalcpu := some 5
    cpus := some cpus_hybrid }

/-- A platform of 5 logical processors whose device tree tags processor 2 twice. -/
def snapshot_conflict : PlatformSnapshot :=
  { snapshot_unavailable with
    hw_logicalcpu := some 5
    cpus := some cpus_conflict }

/-- The heterogeneous platform on which the allocation of the `P` cpuset fails. -/
def snapshot_alloc_failure : PlatformSnapshot :=
  { snapshot_hybrid with cpukinds_alloc_P := false }

/-- The truncation scenario without a cache line size. -/
def snapshot_caches_noline : PlatformSnapshot :=
  { snapshot_caches with hw_cachelinesize := none }

/-- The truncation scenario with a reported cache line size of zero. -/
def snapshot_caches_zeroline : PlatformSnapshot :=
  { snapshot_caches with hw_cachelinesize := some 0 }

/-! ## The topology tree and the insertion by cpuset -/

/-- Modelled from the spec: the TopologyTree below the root, kept the way hwloc links its
objects: every node has an object, the list of its children (`first_child`) and the rest of
its siblings (`next_sibling`). The root, whose cpuset is the union of all processing units,
is the parent of the top-level nodes and takes no part in the comparisons of the insertion.
The tree type and `hwloc__insert_object_by_cpuset` are defined in `topology.c`, which is
not among the translated files. -/
inductive hwloc_tree where
  | nil : hwloc_tree
  | node (obj : hwloc_obj) (first_child : hwloc_tree) (next_sibling : hwloc_tree) : hwloc_tree

/-- The outcomes of an insertion. -/
inductive insert_result where
  | Inserted
  | Duplicate
  | StructuralConflict
deriving DecidableEq

/-- Modelled from the spec: two cpusets overlap partially when they share a processor and
neither contains the other. -/
def partial_overlap (a b : hwloc_bitmap_t) : Bool :=
  !decide (Disjoint a b) && !decide (a ⊆ b) && !decide (b ⊆ a)

/-- The objects of the siblings of a level, in order. -/
def siblings : hwloc_tree → List hwloc_obj
  | hwloc_tree.nil => []
  | hwloc_tree.node obj _ next_sibling => obj :: siblings next_sibling

/-- All the objects of a tree: the siblings of the level and everything below them. -/
def all_objects : hwloc_tree → List hwloc_obj
  | hwloc_tree.nil => []
  | hwloc_tree.node obj first_child next_sibling =>
    obj :: (all_objects first_child ++ all_objects next_sibling)

/-- Modelled from the spec: the siblings whose cpusets are subsets of the proposed cpuset,
with everything below them; they are rehomed as children of the proposed object. -/
def rehomed (proposed : hwloc_bitmap_t) : hwloc_tree → hwloc_tree
  | hwloc_tree.nil => hwloc_tree.nil
  | hwloc_tree.node obj first_child next_sibling =>
    if obj.cpuset ⊆ proposed then hwloc_tree.node obj first_child (rehomed proposed next_sibling)
    else rehomed proposed next_sibling

/-- Modelled from the spec: the siblings that stay at the level when the proposed object is
inserted there. -/
def remaining (proposed : hwloc_bitmap_t) : hwloc_tree → hwloc_tree
  | hwloc_tree.nil => hwloc_tree.nil
  | hwloc_tree.node obj first_child next_sibling =>
    if obj.cpuset ⊆ proposed then remaining proposed next_sibling
    else hwloc_tree.node obj first_child (remaining proposed next_sibling)

/-- Modelled from the spec: whether a sibling of the level overlaps the proposed cpuset
partially. -/
def any_partial_overlap (proposed : hwloc_bitmap_t) : hwloc_tree → Bool
  | hwloc_tree.nil => false
  | hwloc_tree.node obj _ next_sibling =>
    partial_overlap proposed obj.cpuset || any_partial_overlap proposed next_sibling

/-- Modelled from the spec: the new node takes its place among the siblings, which stay
ordered by the minimum index of their cpusets (an empty cpuset counts as the largest). -/
def insert_ordered (obj : hwloc_obj) (children : hwloc_tree) : hwloc_tree → hwloc_tree
  | hwloc_tree.nil => hwloc_tree.node obj children hwloc_tree.nil
  | hwloc_tree.node sibling first_child next_sibling =>
    if obj.cpuset.min ≤ sibling.cpuset.min then
      hwloc_tree.node obj children (hwloc_tree.node sibling first_child next_sibling)
    else hwloc_tree.node sibling first_child (insert_ordered obj children next_sibling)

/-- Modelled from the spec: no sibling of the level is a superset of the proposed cpuset.
A partial overlap with a sibling is a StructuralConflict and leaves the level as it is;
otherwise the proposed object becomes a new sibling and takes as its children the siblings
whose cpusets are subsets of its own. -/
def insert_at_level (proposed : hwloc_obj) (level : hwloc_tree) :
    insert_result × hwloc_tree :=
  if any_partial_overlap proposed.cpuset level then
    (insert_result.StructuralConflict, level)
  else
    (insert_result.Inserted,
      insert_ordered proposed (rehomed proposed.cpuset level)
        (remaining proposed.cpuset level))

/-- Modelled from the spec: the walk from a level downwards. It looks for the first sibling
whose cpuset is a superset of the proposed cpuset: when that sibling has the same cpuset
and the same type the proposed object is a Duplicate; otherwise the walk descends into the
sibling, and inserts the object among its children when none of them qualifies. `none`
tells that no sibling of the level qualifies. -/
def descend (proposed : hwloc_obj) : hwloc_tree → Option (insert_result × hwloc_tree)
  | hwloc_tree.nil => none
  | hwloc_tree.node obj first_child next_sibling =>
    if proposed.cpuset ⊆ obj.cpuset then
      if proposed.cpuset = obj.cpuset ∧ proposed.type = obj.type then
        some (insert_result.Duplicate, hwloc_tree.node obj first_child next_sibling)
      else
        match descend proposed first_child with
        | some below => some (below.1, hwloc_tree.node obj below.2 next_sibling)
        | none =>
          some ((insert_at_level proposed first_child).1,
            hwloc_tree.node obj (insert_at_level proposed first_child).2 next_sibling)
    else
      match descend proposed next_sibling with
      | some beside => some (beside.1, hwloc_tree.node obj first_child beside.2)
      | none => none

/-- Modelled from the spec: `insertByCpuset` (`hwloc__insert_object_by_cpuset`), applied to
the children of the root: the outcome and the tree after the insertion. -/
def hwloc__insert_object_by_cpuset (tree : hwloc_tree) (proposed : hwloc_obj) :
    insert_result × hwloc_tree :=
  match descend proposed tree with
  | some found => found
  | none => insert_at_level proposed tree

/-- The tree after a sequence of insertions into the empty tree. -/
def insert_all (objects : List hwloc_obj) : hwloc_tree :=
  objects.foldl (fun tree obj => (hwloc__insert_object_by_cpuset tree obj).2) hwloc_tree.nil

/-- The invariant of the design, in the form of the claim: at every node, every object
below the node has its cpuset inside the node's, and the node's cpuset is disjoint from
those of its later siblings. -/
def nested_and_disjoint : hwloc_tree → Prop
  | hwloc_tree.nil => True
  | hwloc_tree.node obj first_child next_sibling =>
    (∀ below ∈ all_objects first_child, below.cpuset ⊆ obj.cpuset)
    ∧ (∀ beside ∈ siblings next_sibling, Disjoint obj.cpuset beside.cpuset)
    ∧ nested_and_disjoint first_child ∧ nested_and_disjoint next_sibling

/-- The packages and cores the pass builds for the uniform machine, in the order of the
calls of lines 430 and 472. -/
def uniform_objects : List hwloc_obj :=
  match hwloc_look_darwin topology_keep_all snapshot_uniform with
  | some d => d.packages ++ d.cores
  | none => []

/-- An object whose cpuset `{3, 4}` straddles the two packages of the uniform machine. -/
def straddling_obj : hwloc_obj :=
  { type := hwloc_obj_type_t.HWLOC_OBJ_CORE
    os_index := some 9
    cpuset := {3, 4}
    nodeset := none
    infos := []
    attr := hwloc_obj_attr_u.unset }

/-! ## Sample platforms for counts that do not fit an `unsigned` -/

/-- A platform that reports 4 logical processors and `2^32` packages, and no number of
logical processors per package: the `unsigned` number of packages is zero. -/
def snapshot_zero_packages : PlatformSnapshot :=
  { snapshot_unavailable with
    hw_logicalcpu := some 4
    hw_packages := some 4294967296 }

/-- A platform that reports `2^32` logical processors in `2^32` packages of 5 threads each,
and a vendor: the `unsigned` numbers of processors and of packages are both zero. -/
def snapshot_zero_processors : PlatformSnapshot :=
  { snapshot_unavailable with
    hw_logicalcpu := some 4294967296
    hw_packages := some 4294967296
    machdep_cpu_vendor := some "GenuineIntel"
    machdep_cpu_thread_count := some 5 }

/-- The truncation scenario on a platform that reports an L1 associativity of `2^32 + 3`,
a cache line size of `2^32 + 64` and an L1 instruction cache size of -1. -/
def snapshot_caches_wide : PlatformSnapshot :=
  { snapshot_caches with
    hw_l1icachesize := some (-1)
    machdep_cpu_cache_L1_associativity := some 4294967299
    hw_cachelinesize := some 4294967360 }

/-! ## Sample platforms for cores and share counts -/

/-- An older machine: 4 logical processors in 1 package, no `machdep.cpu.thread_count` nor
`machdep.cpu.core_count`, and the legacy values `machdep.cpu.logical_per_package = 16` and
`machdep.cpu.cores_per_package = 8`, which give the maximum of the processor family. -/
def snapshot_family_maximum : PlatformSnapshot :=
  { snapshot_unavailable with
    hw_logicalcpu := some 4
    hw_packages := some 1
    machdep_cpu_logical_per_package := some 16
    machdep_cpu_cores_per_package := some 8 }

/-- The bytes of `v`, least significant first, `width` of them. -/
def le_bytes (width v : Nat) : List Nat :=
  (List.range width).map (fun k => v / 256 ^ k % 256)

/-- A buffer that holds the integers `values`, each as `width` little-endian bytes. -/
def le_buffer (width : Nat) : List Nat → List Nat
  | [] => []
  | v :: rest => le_bytes width v ++ le_buffer width rest

/-! ## Auxiliary facts -/

theorem to_unsigned_lt (v : Int) : to_unsigned v < UINT_MODULUS := by
  unfold to_unsigned UINT_MODULUS
  have h := Int.emod_lt_of_pos v (show (0 : Int) < 4294967296 by norm_num)
  have h0 := Int.emod_nonneg v (show (4294967296 : Int) ≠ 0 by norm_num)
  omega

theorem to_unsigned_of_lt (v : Int) (h0 : 0 ≤ v) (h : v < 4294967296) :
    (to_unsigned v : Int) = v := by
  unfold to_unsigned UINT_MODULUS
  have : v % ((4294967296 : Nat) : Int) = v := Int.emod_eq_of_lt h0 (by exact_mod_cast h)
  rw [this]
  exact Int.toNat_of_nonneg h0

theorem nprocs_lt (s : PlatformSnapshot) (n : Nat) (h : nprocs s = some n) :
    n < UINT_MODULUS := by
  unfold nprocs at h
  cases hv : _nprocs s with
  | none => simp [hv] at h
  | some v =>
    simp [hv] at h
    rw [← h]
    exact to_unsigned_lt v

theorem set_cpus_eq (k : Nat) : ∀ (set : hwloc_bitmap_t) (cpu : Nat),
    set_cpus set cpu k = set ∪ Finset.Ico cpu (cpu + k) := by
  induction k with
  | zero => intro set cpu; simp [set_cpus]
  | succ k ih =>
    intro set cpu
    rw [set_cpus, ih]
    ext x
    simp only [hwloc_bitmap_set, Finset.mem_union, Finset.mem_insert, Finset.mem_Ico]
    by_cases hx : x ∈ set
    · simp [hx]
    · simp only [hx, or_false, false_or]
      omega

theorem cpu_block_eq (i width : Nat) (h : (i + 1) * width < UINT_MODULUS) :
    cpu_block i width = Finset.Ico (i * width) ((i + 1) * width) := by
  have hle : i * width ≤ (i + 1) * width := Nat.mul_le_mul_right _ (Nat.le_succ i)
  unfold cpu_block
  rw [Nat.mod_eq_of_lt h, Nat.mod_eq_of_lt (lt_of_le_of_lt hle h), set_cpus_eq]
  simp only [hwloc_bitmap_alloc, Finset.empty_union]
  congr 1
  omega

theorem to_uint64_of_lt (v : Int) (h0 : 0 ≤ v) (h : v < 18446744073709551616) :
    (to_uint64 v : Int) = v := by
  unfold to_uint64 UINT64_MODULUS
  have : v % ((18446744073709551616 : Nat) : Int) = v :=
    Int.emod_eq_of_lt h0 (by exact_mod_cast h)
  rw [this]
  exact Int.toNat_of_nonneg h0

theorem unsigned_div_eq_none (a b : Nat) : unsigned_div a b = none ↔ b = 0 := by
  unfold unsigned_div
  by_cases h : b = 0 <;> simp [h]

theorem logical_per_package_eq_none (s : PlatformSnapshot) (n np : Nat) :
    logical_per_package s n np = none ↔
      ((∀ v, s.machdep_cpu_thread_count = some v → v ≤ 0)
        ∧ (∀ w, s.machdep_cpu_logical_per_package = some w → w ≤ 0) ∧ np = 0) := by
  unfold logical_per_package
  cases h1 : s.machdep_cpu_thread_count with
  | none =>
    cases h2 : s.machdep_cpu_logical_per_package with
    | none => simp [unsigned_div_eq_none]
    | some w =>
      by_cases hw : 0 < w
      · simp [hw]
      · simp [hw, not_lt.mp hw, unsigned_div_eq_none]
  | some v =>
    by_cases hv : 0 < v
    · simp [hv]
    · cases h2 : s.machdep_cpu_logical_per_package with
      | none => simp [hv, not_lt.mp hv, unsigned_div_eq_none]
      | some w =>
        by_cases hw : 0 < w
        · simp [hv, hw]
        · simp [hv, hw, not_lt.mp hv, not_lt.mp hw, unsigned_div_eq_none]

theorem look_package_block_defined (topology : hwloc_topology) (s : PlatformSnapshot)
    (n : Nat) (hdiv : ∀ np, npackages s = some np → logical_per_package s n np ≠ none) :
    ∃ block, look_package_block topology s n = some block := by
  cases hnp : npackages s with
  | none => simp [look_package_block, hnp]
  | some np =>
    cases hlpp : logical_per_package s n np with
    | none => exact absurd hlpp (hdiv np hnp)
    | some lpp => simp [look_package_block, hnp, hlpp]

theorem pass_returns (topology : hwloc_topology) (s : PlatformSnapshot) (n : Nat)
    (hroot : topology.root_cpuset = none) (hn : nprocs s = some n)
    (hdiv : ∀ np, npackages s = some np → logical_per_package s n np ≠ none) :
    ∃ d, hwloc_look_darwin topology s = some d := by
  obtain ⟨block, hb⟩ := look_package_block_defined topology s n hdiv
  simp [hwloc_look_darwin, hroot, hn, hb]

theorem pass_block (topology : hwloc_topology) (s : PlatformSnapshot) (n : Nat)
    (d : Discovery) (hroot : topology.root_cpuset = none) (hn : nprocs s = some n)
    (hd : hwloc_look_darwin topology s = some d) :
    ∃ block, look_package_block topology s n = some block
      ∧ d.ret = 0
      ∧ d.root_infos = hwloc_obj_add_info block.root_infos "Backend" "Darwin"
      ∧ d.packages = block.packages ∧ d.cores = block.cores
      ∧ d.pu_level = some n := by
  cases hb : look_package_block topology s n with
  | none => simp [hwloc_look_darwin, hroot, hn, hb] at hd
  | some block =>
    simp [hwloc_look_darwin, hroot, hn, hb] at hd
    subst hd
    exact ⟨block, rfl, rfl, rfl, rfl, rfl, rfl⟩

theorem pass_packages (topology : hwloc_topology) (s : PlatformSnapshot) (n np lpp : Nat)
    (d : Discovery) (hroot : topology.root_cpuset = none) (hn : nprocs s = some n)
    (hnp : npackages s = some np) (hlpp : logical_per_package s n np = some lpp)
    (hd : hwloc_look_darwin topology s = some d) :
    d.packages = look_packages topology s n np lpp := by
  obtain ⟨block, hb, _, _, hp, _, _⟩ := pass_block topology s n d hroot hn hd
  simp [look_package_block, hnp, hlpp] at hb
  rw [hp, ← hb]

theorem pass_cores (topology : hwloc_topology) (s : PlatformSnapshot) (n np lpp : Nat)
    (d : Discovery) (hroot : topology.root_cpuset = none) (hn : nprocs s = some n)
    (hnp : npackages s = some np) (hlpp : logical_per_package s n np = some lpp)
    (hd : hwloc_look_darwin topology s = some d) :
    d.cores = look_cores topology np lpp (cores_per_package s) := by
  obtain ⟨block, hb, _, _, _, hc, _⟩ := pass_block topology s n d hroot hn hd
  simp [look_package_block, hnp, hlpp] at hb
  rw [hc, ← hb]

theorem pass_levels (topology : hwloc_topology) (s : PlatformSnapshot) (n : Nat)
    (d : Discovery) (hroot : topology.root_cpuset = none) (hn : nprocs s = some n)
    (hd : hwloc_look_darwin topology s = some d) :
    d.levels = look_caches topology s n := by
  cases hb : look_package_block topology s n with
  | none => simp [hwloc_look_darwin, hroot, hn, hb] at hd
  | some block =>
    simp [hwloc_look_darwin, hroot, hn, hb] at hd
    subst hd
    rfl

theorem pass_with_packages (topology : hwloc_topology) (s : PlatformSnapshot)
    (n np lpp : Nat) (hroot : topology.root_cpuset = none) (hn : nprocs s = some n)
    (hnp : npackages s = some np) (hlpp : logical_per_package s n np = some lpp) :
    ∃ d, hwloc_look_darwin topology s = some d := by
  apply pass_returns topology s n hroot hn
  intro np2 hnp2
  rw [hnp] at hnp2
  cases hnp2
  rw [hlpp]
  simp

theorem package_check_exact (n np lpp : Nat) (hlt : n < UINT_MODULUS) (h : n = np * lpp) :
    package_check n np lpp = true := by
  unfold package_check
  rw [← h, Nat.mod_eq_of_lt hlt]
  simp

theorem look_packages_kept (topology : hwloc_topology) (s : PlatformSnapshot) (n np lpp : Nat)
    (hc : package_check n np lpp = true)
    (hkeep : topology.keep hwloc_obj_type_t.HWLOC_OBJ_PACKAGE = true) :
    look_packages topology s n np lpp = (List.range np).map (package_obj s lpp) := by
  simp [look_packages, hc, hkeep]

theorem block_lt_of_product (np lpp i : Nat) (hi : i < np) (hlt : np * lpp < UINT_MODULUS) :
    (i + 1) * lpp < UINT_MODULUS :=
  lt_of_le_of_lt (Nat.mul_le_mul_right lpp hi) hlt

/-! ## Packages -/

/-- C1: when the processor count is positive and equals `npackages * logical_per_package`
(a product below `2^32`, as the count is an `unsigned`) and Package objects are kept, the
pass returns and builds exactly `npackages` Package objects, the `i`-th with index `i` and cpuset
`{i*logical_per_package, ..., (i+1)*logical_per_package - 1}`; these cpusets are pairwise
disjoint and a processor belongs to one of them exactly when it is below `nprocs`. -/
theorem packages_partition (topology : hwloc_topology) (s : PlatformSnapshot) (n np lpp : Nat)
    (hroot : topology.root_cpuset = none) (hn : nprocs s = some n)
    (hnp : npackages s = some np) (hlpp : logical_per_package s n np = some lpp)
    (hn0 : 0 < n) (hprod : n = np * lpp)
    (hkeep : topology.keep hwloc_obj_type_t.HWLOC_OBJ_PACKAGE = true) :
    ∃ d, hwloc_look_darwin topology s = some d
      ∧ d.packages.length = np
      ∧ d.packages.map (fun o => (o.type, o.os_index, o.cpuset))
          = (List.range np).map (fun i =>
              (hwloc_obj_type_t.HWLOC_OBJ_PACKAGE, some i,
                Finset.Ico (i * lpp) ((i + 1) * lpp)))
      ∧ d.packages.Pairwise (fun a b => Disjoint a.cpuset b.cpuset)
      ∧ ∀ cpu, (∃ p ∈ d.packages, cpu ∈ p.cpuset) ↔ cpu < n := by
  obtain ⟨d, hd⟩ := pass_with_packages topology s n np lpp hroot hn hnp hlpp
  refine ⟨d, hd, ?_⟩
  have hlt : n < UINT_MODULUS := nprocs_lt s n hn
  have hplt : np * lpp < UINT_MODULUS := hprod ▸ hlt
  have hp : d.packages = (List.range np).map (package_obj s lpp) := by
    rw [pass_packages topology s n np lpp d hroot hn hnp hlpp hd]
    exact look_packages_kept topology s n np lpp (package_check_exact n np lpp hlt hprod) hkeep
  have hcpu : ∀ i, i < np → (package_obj s lpp i).cpuset
      = Finset.Ico (i * lpp) ((i + 1) * lpp) := fun i hi =>
    cpu_block_eq i lpp (block_lt_of_product np lpp i hi hplt)
  rw [hp]
  refine ⟨by simp, ?_, ?_, ?_⟩
  · rw [List.map_map]
    apply List.map_congr_left
    intro i hi
    have hi' : i < np := List.mem_range.mp hi
    simp only [Function.comp, Prod.mk.injEq]
    exact ⟨rfl, rfl, hcpu i hi'⟩
  · rw [List.pairwise_map]
    refine List.Pairwise.imp_of_mem ?_ (List.pairwise_lt_range np)
    intro a b ha hb hab
    rw [hcpu a (List.mem_range.mp ha), hcpu b (List.mem_range.mp hb)]
    rw [Finset.disjoint_left]
    intro x hx hx'
    rw [Finset.mem_Ico] at hx hx'
    have : (a + 1) * lpp ≤ b * lpp := Nat.mul_le_mul_right lpp hab
    omega
  · intro cpu
    constructor
    · rintro ⟨p, hp', hmem⟩
      rw [List.mem_map] at hp'
      obtain ⟨i, hi, rfl⟩ := hp'
      have hi' : i < np := List.mem_range.mp hi
      rw [hcpu i hi', Finset.mem_Ico] at hmem
      have : (i + 1) * lpp ≤ np * lpp := Nat.mul_le_mul_right lpp hi'
      omega
    · intro hc
      have hlpp0 : 0 < lpp := by
        rcases Nat.eq_zero_or_pos lpp with h | h
        · rw [h] at hprod; omega
        · exact h
      have hdiv : cpu / lpp < np := by
        rw [Nat.div_lt_iff_lt_mul hlpp0]; omega
      refine ⟨package_obj s lpp (cpu / lpp), List.mem_map.mpr ⟨cpu / lpp, List.mem_range.mpr hdiv, rfl⟩, ?_⟩
      rw [hcpu _ hdiv, Finset.mem_Ico]
      constructor
      · exact Nat.div_mul_le_self cpu lpp
      · have e : (cpu / lpp + 1) * lpp = lpp * (cpu / lpp) + lpp := by ring
        have h1 := Nat.div_add_mod cpu lpp
        have h2 := Nat.mod_lt cpu hlpp0
        rw [e]
        omega

theorem look_cores_kept (topology : hwloc_topology) (np lpp cpp : Nat)
    (hcpp : 0 < cpp) (hdvd : cpp ∣ lpp) (hlt : np * cpp < UINT_MODULUS)
    (hkeep : topology.keep hwloc_obj_type_t.HWLOC_OBJ_CORE = true) :
    look_cores topology np lpp cpp = (List.range (np * cpp)).map (core_obj lpp cpp) := by
  have hmod : lpp % cpp = 0 := Nat.mod_eq_zero_of_dvd hdvd
  simp [look_cores, hcpp, hkeep, hmod, Nat.mod_eq_of_lt hlt]

theorem getElem?_map_range {α : Type} (f : Nat → α) (m i : Nat) (a : α)
    (h : ((List.range m).map f)[i]? = some a) : i < m ∧ a = f i := by
  rw [List.getElem?_map] at h
  by_cases hi : i < m
  · rw [List.getElem?_range hi] at h
    simp at h
    exact ⟨hi, h.symm⟩
  · have : (List.range m)[i]? = none := by
      apply List.getElem?_eq_none
      simp; omega
    rw [this] at h
    simp at h

/-! ## Cores -/

/-- C2: when the positive processor count equals `npackages * logical_per_package`,
`cores_per_package > 0` divides `logical_per_package`, and Package and Core objects are
both kept, the pass returns and builds exactly `npackages * cores_per_package` Core objects, core `i`
with index `i` and cpuset `{i*k, ..., (i+1)*k - 1}` for
`k = logical_per_package / cores_per_package`; the cpuset of core `i` is a subset of the
cpuset of package `i / cores_per_package`, and of no other package. -/
theorem cores_nested (topology : hwloc_topology) (s : PlatformSnapshot) (n np lpp cpp : Nat)
    (hroot : topology.root_cpuset = none) (hn : nprocs s = some n)
    (hnp : npackages s = some np) (hlpp : logical_per_package s n np = some lpp)
    (hcores : cores_per_package s = cpp)
    (hn0 : 0 < n) (hprod : n = np * lpp) (hcpp : 0 < cpp) (hdvd : cpp ∣ lpp)
    (hkeepp : topology.keep hwloc_obj_type_t.HWLOC_OBJ_PACKAGE = true)
    (hkeepc : topology.keep hwloc_obj_type_t.HWLOC_OBJ_CORE = true) :
    ∃ d, hwloc_look_darwin topology s = some d
      ∧ d.cores.length = np * cpp
      ∧ d.cores.map (fun o => (o.type, o.os_index, o.cpuset))
          = (List.range (np * cpp)).map (fun i =>
              (hwloc_obj_type_t.HWLOC_OBJ_CORE, some i,
                Finset.Ico (i * (lpp / cpp)) ((i + 1) * (lpp / cpp))))
      ∧ (∀ i c, d.cores[i]? = some c →
          ∃ p, d.packages[i / cpp]? = some p
            ∧ p.os_index = some (i / cpp) ∧ c.cpuset ⊆ p.cpuset)
      ∧ (∀ i c j p, d.cores[i]? = some c → d.packages[j]? = some p →
          c.cpuset ⊆ p.cpuset → j = i / cpp) := by
  obtain ⟨d, hd⟩ := pass_with_packages topology s n np lpp hroot hn hnp hlpp
  refine ⟨d, hd, ?_⟩
  have hlt : n < UINT_MODULUS := nprocs_lt s n hn
  have hplt : np * lpp < UINT_MODULUS := hprod ▸ hlt
  obtain ⟨k, hk⟩ := hdvd
  have hk0 : 0 < k := by
    rcases Nat.eq_zero_or_pos k with h | h
    · rw [hk, h] at hprod; simp at hprod; omega
    · exact h
  have hdiv : lpp / cpp = k := by rw [hk]; exact Nat.mul_div_cancel_left k hcpp
  have hcle : np * cpp ≤ np * lpp := by
    rw [hk]; exact Nat.mul_le_mul_left np (Nat.le_mul_of_pos_right cpp hk0)
  have hp : d.packages = (List.range np).map (package_obj s lpp) := by
    rw [pass_packages topology s n np lpp d hroot hn hnp hlpp hd]
    exact look_packages_kept topology s n np lpp (package_check_exact n np lpp hlt hprod) hkeepp
  have hc : d.cores = (List.range (np * cpp)).map (core_obj lpp cpp) := by
    rw [pass_cores topology s n np lpp d hroot hn hnp hlpp hd, hcores]
    exact look_cores_kept topology np lpp cpp hcpp ⟨k, hk⟩ (lt_of_le_of_lt hcle hplt) hkeepc
  have hpcpu : ∀ i, i < np → (package_obj s lpp i).cpuset
      = Finset.Ico (i * lpp) ((i + 1) * lpp) := fun i hi =>
    cpu_block_eq i lpp (block_lt_of_product np lpp i hi hplt)
  have hprodk : np * cpp * k = np * lpp := by rw [hk, Nat.mul_assoc]
  have hccpu : ∀ i, i < np * cpp → (core_obj lpp cpp i).cpuset
      = Finset.Ico (i * k) ((i + 1) * k) := by
    intro i hi
    have h1 : (i + 1) * k ≤ np * cpp * k := Nat.mul_le_mul_right k hi
    have h2 : (core_obj lpp cpp i).cpuset = cpu_block i (lpp / cpp) := rfl
    rw [h2, hdiv]
    exact cpu_block_eq i k (by omega)
  rw [hp, hc, hdiv]
  refine ⟨by simp, ?_, ?_, ?_⟩
  · rw [List.map_map]
    apply List.map_congr_left
    intro i hi
    simp only [Function.comp, Prod.mk.injEq]
    exact ⟨rfl, rfl, hccpu i (List.mem_range.mp hi)⟩
  · intro i c hci
    obtain ⟨hi, rfl⟩ := getElem?_map_range _ _ _ _ hci
    have hj : i / cpp < np := by
      rw [Nat.div_lt_iff_lt_mul hcpp]; exact hi
    refine ⟨package_obj s lpp (i / cpp), ?_, rfl, ?_⟩
    · rw [List.getElem?_map, List.getElem?_range hj]; rfl
    · rw [hccpu i hi, hpcpu _ hj]
      intro x hx
      rw [Finset.mem_Ico] at hx ⊢
      have h1 : i / cpp * cpp ≤ i := Nat.div_mul_le_self i cpp
      have h2 : i + 1 ≤ (i / cpp + 1) * cpp := by
        have e : (i / cpp + 1) * cpp = cpp * (i / cpp) + cpp := by ring
        have h3 := Nat.div_add_mod i cpp
        have h4 := Nat.mod_lt i hcpp
        rw [e]; omega
      have h5 : i / cpp * cpp * k ≤ i * k := Nat.mul_le_mul_right k h1
      have h6 : (i + 1) * k ≤ (i / cpp + 1) * cpp * k := Nat.mul_le_mul_right k h2
      have e1 : i / cpp * lpp = i / cpp * cpp * k := by rw [hk, Nat.mul_assoc]
      have e2 : (i / cpp + 1) * lpp = (i / cpp + 1) * cpp * k := by rw [hk, Nat.mul_assoc]
      rw [e1, e2]
      omega
  · intro i c j p hci hpj hsub
    obtain ⟨hi, rfl⟩ := getElem?_map_range _ _ _ _ hci
    obtain ⟨hj, rfl⟩ := getElem?_map_range _ _ _ _ hpj
    rw [hccpu i hi, hpcpu j hj] at hsub
    have hmem : i * k ∈ Finset.Ico (i * k) ((i + 1) * k) := by
      rw [Finset.mem_Ico]
      exact ⟨le_refl _, Nat.mul_lt_mul_of_pos_right (Nat.lt_succ_self i) hk0⟩
    have h := hsub hmem
    rw [Finset.mem_Ico, hk] at h
    obtain ⟨h1, h2⟩ := h
    rw [← Nat.mul_assoc] at h1 h2
    have h3 : j * cpp ≤ i := Nat.le_of_mul_le_mul_right h1 hk0
    have h4 : i < (j + 1) * cpp := Nat.lt_of_mul_lt_mul_right h2
    symm
    apply Nat.div_eq_of_lt_le
    · exact h3
    · exact h4

/-- Witness of C1: 8 processors, 2 packages of 4 give the cpusets `{0..3}` and `{4..7}`. -/
theorem packages_partition_witness :
    nprocs snapshot_uniform = some 8 ∧ npackages snapshot_uniform = some 2
    ∧ logical_per_package snapshot_uniform 8 2 = some 4
    ∧ ∃ d, hwloc_look_darwin topology_keep_all snapshot_uniform = some d
      ∧ d.packages.map (fun o => (o.type, o.os_index, o.cpuset))
        = [(hwloc_obj_type_t.HWLOC_OBJ_PACKAGE, some 0, Finset.Ico 0 4),
           (hwloc_obj_type_t.HWLOC_OBJ_PACKAGE, some 1, Finset.Ico 4 8)] :=
  ⟨by decide, by decide, by decide,
    Exists.imp (fun _ h => ⟨h.1, h.2.2.1⟩)
      (packages_partition topology_keep_all snapshot_uniform 8 2 4 rfl (by decide) (by decide)
        (by decide) (by decide) (by decide) rfl)⟩

/-- Witness of C2: with 2 cores per package the cores are `{0,1}`, `{2,3}`, `{4,5}`, `{6,7}`. -/
theorem cores_nested_witness :
    cores_per_package snapshot_uniform = 2
    ∧ ∃ d, hwloc_look_darwin topology_keep_all snapshot_uniform = some d
      ∧ d.cores.map (fun o => (o.type, o.os_index, o.cpuset))
        = [(hwloc_obj_type_t.HWLOC_OBJ_CORE, some 0, Finset.Ico 0 2),
           (hwloc_obj_type_t.HWLOC_OBJ_CORE, some 1, Finset.Ico 2 4),
           (hwloc_obj_type_t.HWLOC_OBJ_CORE, some 2, Finset.Ico 4 6),
           (hwloc_obj_type_t.HWLOC_OBJ_CORE, some 3, Finset.Ico 6 8)] :=
  ⟨by decide,
    Exists.imp (fun _ h => ⟨h.1, h.2.2.1⟩)
      (cores_nested topology_keep_all snapshot_uniform 8 2 4 2 rfl (by decide) (by decide)
        (by decide) (by decide) (by decide) (by decide) (by decide) (by decide) rfl rfl)⟩

/-- C3, evaluated at the failing input: with 10 logical processors, 3 packages and a
reported thread count of 2863311534, the `unsigned` product `3 * 2863311534` wraps to 10,
the check of line 408 passes although the exact product is not 10, and three Package
objects are built, the first with cpuset `{0, ..., 2863311533}`. -/
theorem package_check_wraps :
    nprocs snapshot_wrap = some 10
    ∧ npackages snapshot_wrap = some 3
    ∧ logical_per_package snapshot_wrap 10 3 = some 2863311534
    ∧ (10 : Nat) ≠ 3 * 2863311534
    ∧ ∃ d, hwloc_look_darwin topology_keep_all snapshot_wrap = some d
      ∧ (d.packages.map (fun o => (o.type, o.os_index)))
        = [(hwloc_obj_type_t.HWLOC_OBJ_PACKAGE, some 0),
           (hwloc_obj_type_t.HWLOC_OBJ_PACKAGE, some 1),
           (hwloc_obj_type_t.HWLOC_OBJ_PACKAGE, some 2)]
      ∧ (∀ p, d.packages[0]? = some p → p.cpuset = Finset.Ico 0 2863311534) := by
  have h1 : nprocs snapshot_wrap = some 10 := by decide
  have h2 : npackages snapshot_wrap = some 3 := by decide
  have h3 : logical_per_package snapshot_wrap 10 3 = some 2863311534 := by decide
  obtain ⟨d, hd⟩ := pass_with_packages topology_keep_all snapshot_wrap 10 3 2863311534 rfl
    h1 h2 h3
  have hp : d.packages = (List.range 3).map (package_obj snapshot_wrap 2863311534) := by
    rw [pass_packages topology_keep_all snapshot_wrap 10 3 2863311534 d rfl h1 h2 h3 hd]
    exact look_packages_kept topology_keep_all snapshot_wrap 10 3 2863311534 (by decide) rfl
  refine ⟨h1, h2, h3, by decide, d, hd, ?_, ?_⟩
  · rw [hp]; rfl
  · intro p h
    rw [hp] at h
    obtain ⟨_, rfl⟩ := getElem?_map_range _ _ _ _ h
    have hb := cpu_block_eq 0 2863311534 (by decide)
    rw [Nat.zero_mul, Nat.zero_add, Nat.one_mul] at hb
    simp only [package_obj]
    exact hb

theorem add_cpu_infos_eq (s : PlatformSnapshot) (infos : List hwloc_info_s) :
    add_cpu_infos s infos = infos ++
      ([("CPUVendor", cpuvendor s), ("CPUModel", cpumodel s),
        ("CPUFamilyNumber", cpufamilynumber s), ("CPUModelNumber", cpumodelnumber s),
        ("CPUStepping", cpustepping s)].filter (fun p => decide (p.2 ≠ ""))) := by
  unfold add_cpu_infos hwloc_obj_add_info
  by_cases h1 : cpuvendor s = "" <;> by_cases h2 : cpumodel s = ""
    <;> by_cases h3 : cpufamilynumber s = "" <;> by_cases h4 : cpumodelnumber s = ""
    <;> by_cases h5 : cpustepping s = ""
    <;> simp [h1, h2, h3, h4, h5, List.filter]

theorem mem_add_cpu_infos (s : PlatformSnapshot) (name value : String) :
    (name, value) ∈ add_cpu_infos s [] ↔
      value ≠ "" ∧ (name, value) ∈
        [("CPUVendor", cpuvendor s), ("CPUModel", cpumodel s),
         ("CPUFamilyNumber", cpufamilynumber s), ("CPUModelNumber", cpumodelnumber s),
         ("CPUStepping", cpustepping s)] := by
  rw [add_cpu_infos_eq, List.nil_append, List.mem_filter]
  simp only [decide_eq_true_eq]
  exact And.comm

theorem backend_not_cpu_info (s : PlatformSnapshot) :
    ("Backend", "Darwin") ∉ add_cpu_infos s [] := by
  intro h
  rw [mem_add_cpu_infos] at h
  have := h.2
  simp at this

/-! ## Descriptive metadata -/

/-- The descriptive metadata on a pass that returns and whose `unsigned` numbers of
processors and of packages are not both zero: the pairs `CPUVendor`, `CPUModel`,
`CPUFamilyNumber`, `CPUModelNumber`, `CPUStepping` whose string is not empty are attached
to the root if and only if no Package object is created, which happens exactly when
`hw.packages` is unavailable or not positive, the check of line 408 fails, or Package
objects are filtered out; every Package that is created carries exactly this metadata. -/
theorem cpu_infos_root_or_packages (topology : hwloc_topology) (s : PlatformSnapshot)
    (n : Nat) (d : Discovery) (hroot : topology.root_cpuset = none) (hn : nprocs s = some n)
    (hn0 : 0 < n ∨ npackages s ≠ some 0) (hd : hwloc_look_darwin topology s = some d) :
    (∀ name value, (name, value) ∈ add_cpu_infos s [] ↔
        value ≠ "" ∧ (name, value) ∈
          [("CPUVendor", cpuvendor s), ("CPUModel", cpumodel s),
           ("CPUFamilyNumber", cpufamilynumber s), ("CPUModelNumber", cpumodelnumber s),
           ("CPUStepping", cpustepping s)])
    ∧ (d.packages = [] ↔
        ((∀ v, s.hw_packages = some v → v ≤ 0)
          ∨ (∃ np lpp, npackages s = some np ∧ logical_per_package s n np = some lpp
              ∧ package_check n np lpp = false)
          ∨ topology.keep hwloc_obj_type_t.HWLOC_OBJ_PACKAGE = false))
    ∧ (∀ info ∈ add_cpu_infos s [], (info ∈ d.root_infos ↔ d.packages = []))
    ∧ (∀ p ∈ d.packages, p.infos = add_cpu_infos s []) := by
  obtain ⟨block, hb, _, hri, hp, _, _⟩ := pass_block topology s n d hroot hn hd
  rw [hri, hp]
  refine ⟨mem_add_cpu_infos s, ?_⟩
  unfold hwloc_obj_add_info
  cases hnp : npackages s with
  | none =>
    have hv : ∀ v, s.hw_packages = some v → v ≤ 0 := by
      intro v hv
      unfold npackages at hnp
      rw [hv] at hnp
      by_contra hlt
      simp [not_le.mp hlt] at hnp
    simp only [look_package_block, hnp, Option.some.injEq] at hb
    subst hb
    simp only [true_iff]
    refine ⟨Or.inl hv, ?_, ?_⟩
    · intro info hinfo
      simp [hinfo]
    · intro p hp
      simp at hp
  | some np =>
    have hv : ¬ ∀ v, s.hw_packages = some v → v ≤ 0 := by
      intro hall
      unfold npackages at hnp
      cases hq : s.hw_packages with
      | none => simp [hq] at hnp
      | some v =>
        have := hall v hq
        simp [hq, not_lt.mpr this] at hnp
    cases hlpp : logical_per_package s n np with
    | none => simp [look_package_block, hnp, hlpp] at hb
    | some lpp =>
      simp only [look_package_block, hnp, hlpp, Option.some.injEq] at hb
      subst hb
      simp only [look_packages, look_packages_root_infos]
      by_cases hc : package_check n np lpp = true
      · by_cases hk : topology.keep hwloc_obj_type_t.HWLOC_OBJ_PACKAGE = true
        · have hnp0 : np ≠ 0 := by
            intro h0
            rcases hn0 with hpos | hne
            · unfold package_check at hc
              simp [h0] at hc
              omega
            · exact hne (by rw [hnp, h0])
          simp only [hc, hk, Bool.and_self, if_true]
          have hne : List.map (package_obj s lpp) (List.range np) ≠ [] := by
            simp [hnp0]
          refine ⟨?_, ?_, ?_⟩
          · simp only [hne, false_iff]
            rintro (h | ⟨np2, lpp2, h1, h2, h3⟩ | h)
            · exact hv h
            · simp only [Option.some.injEq] at h1
              subst h1
              rw [hlpp] at h2
              simp only [Option.some.injEq] at h2
              subst h2
              rw [hc] at h3
              exact absurd h3 (by simp)
            · exact absurd h (by simp)
          · intro info hinfo
            simp only [hne, iff_false, List.nil_append, List.mem_singleton]
            intro h
            exact backend_not_cpu_info s (h ▸ hinfo)
          · intro p hp
            rw [List.mem_map] at hp
            obtain ⟨i, _, rfl⟩ := hp
            rfl
        · have hk' : topology.keep hwloc_obj_type_t.HWLOC_OBJ_PACKAGE = false := by
            simpa using hk
          simp only [hc, hk', Bool.and_false, if_false, Bool.false_eq_true]
          refine ⟨by simp, ?_, ?_⟩
          · intro info hinfo
            simp [hinfo]
          · intro p hp
            simp at hp
      · have hc' : package_check n np lpp = false := by
          simpa using hc
        simp only [hc', Bool.false_and, if_false, Bool.false_eq_true]
        refine ⟨?_, ?_, ?_⟩
        · simp only [true_iff]
          exact Or.inr (Or.inl ⟨np, lpp, rfl, hlpp, hc'⟩)
        · intro info hinfo
          simp [hinfo]
        · intro p hp
          simp at hp

/-- On 10 processors in 3 packages the check fails, no Package is built and the vendor is
attached to the root. -/
theorem cpu_infos_root_or_packages_witness :
    nprocs snapshot_uneven = some 10
    ∧ ∃ d, hwloc_look_darwin topology_keep_all snapshot_uneven = some d
      ∧ d.packages = []
      ∧ (∀ info ∈ add_cpu_infos snapshot_uneven [],
          (info ∈ d.root_infos ↔ d.packages = [])) :=
  ⟨by decide, _, rfl, rfl,
    (cpu_infos_root_or_packages topology_keep_all snapshot_uneven 10 _ rfl (by decide)
      (Or.inl (by decide)) rfl).2.2.1⟩

/-- C4, evaluated at the failing input: a platform that reports `2^32` logical processors
in `2^32` packages of 5 threads each, and a vendor. Both counts are stored as zero in an
`unsigned`, the check of line 408 passes (`0 == 0 * 5`) and Package objects are kept, so the
loop of line 410 runs zero times and the `else` of line 432 is skipped: the pass returns 0
with no Package created, and yet the vendor is not attached to the root, whose only pair is
the backend name. -/
theorem cpu_infos_attached_nowhere :
    nprocs snapshot_zero_processors = some 0
    ∧ npackages snapshot_zero_processors = some 0
    ∧ logical_per_package snapshot_zero_processors 0 0 = some 5
    ∧ package_check 0 0 5 = true
    ∧ add_cpu_infos snapshot_zero_processors [] = [("CPUVendor", "GenuineIntel")]
    ∧ ∃ d, hwloc_look_darwin topology_keep_all snapshot_zero_processors = some d
      ∧ d.ret = 0
      ∧ d.packages = []
      ∧ d.root_infos = [("Backend", "Darwin")]
      ∧ ¬ (∀ info ∈ add_cpu_infos snapshot_zero_processors [],
            (info ∈ d.root_infos ↔ d.packages = [])) := by
  have hinfos : add_cpu_infos snapshot_zero_processors [] = [("CPUVendor", "GenuineIntel")] := by
    decide
  refine ⟨by decide, by decide, by decide, by decide, hinfos, _, rfl, rfl, rfl, rfl, ?_⟩
  intro hall
  have h := (hall ("CPUVendor", "GenuineIntel") (by rw [hinfos]; simp)).mpr rfl
  have hroot : ("CPUVendor", "GenuineIntel") ∈ [(("Backend", "Darwin") : hwloc_info_s)] := h
  simp at hroot

/-! ## The number of logical processors of a package -/

/-- C5: `logical_per_package` is chosen by strict priority. It is the value of
`machdep.cpu.thread_count` (as stored in an `unsigned`) if that query succeeds with a
positive value, whatever `machdep.cpu.logical_per_package` reports; otherwise the value of
`machdep.cpu.logical_per_package` if that one succeeds with a positive value; otherwise the
quotient `nprocs / npackages`, which has no result when the `unsigned` `npackages` is zero.
A value below `2^32` is stored unchanged. -/
theorem logical_per_package_priority (s : PlatformSnapshot) (n np : Nat) :
    (∀ v, s.machdep_cpu_thread_count = some v → 0 < v →
        logical_per_package s n np = some (to_unsigned v))
    ∧ (∀ w, (∀ v, s.machdep_cpu_thread_count = some v → v ≤ 0) →
        s.machdep_cpu_logical_per_package = some w → 0 < w →
        logical_per_package s n np = some (to_unsigned w))
    ∧ ((∀ v, s.machdep_cpu_thread_count = some v → v ≤ 0) →
        (∀ w, s.machdep_cpu_logical_per_package = some w → w ≤ 0) →
        logical_per_package s n np = if np = 0 then none else some (n / np))
    ∧ (∀ v : Int, 0 < v → v < 4294967296 → (to_unsigned v : Int) = v) := by
  refine ⟨?_, ?_, ?_, ?_⟩
  · intro v hv hpos
    simp [logical_per_package, hv, hpos]
  · intro w htc hw hpos
    unfold logical_per_package
    cases h : s.machdep_cpu_thread_count with
    | none => simp [hw, hpos]
    | some v =>
      have := htc v h
      simp [not_lt.mpr this, hw, hpos]
  · intro htc hlp
    unfold logical_per_package unsigned_div
    cases h : s.machdep_cpu_thread_count with
    | none =>
      cases h2 : s.machdep_cpu_logical_per_package with
      | none => simp
      | some w => simp [not_lt.mpr (hlp w h2)]
    | some v =>
      cases h2 : s.machdep_cpu_logical_per_package with
      | none => simp [not_lt.mpr (htc v h)]
      | some w => simp [not_lt.mpr (htc v h), not_lt.mpr (hlp w h2)]
  · intro v h0 hlt
    exact to_unsigned_of_lt v (le_of_lt h0) hlt

/-- Witness of C5: the uniform machine reports a thread count of 4 and a legacy
`logical_per_package` of 16, and the thread count wins; a machine that reports only the
legacy value uses it; a machine that reports neither divides 10 processors by 3 packages. -/
theorem logical_per_package_priority_witness :
    (snapshot_uniform.machdep_cpu_thread_count = some 4
      ∧ snapshot_uniform.machdep_cpu_logical_per_package = some 16
      ∧ logical_per_package snapshot_uniform 8 2 = some (to_unsigned 4))
    ∧ (snapshot_legacy.machdep_cpu_thread_count = none
      ∧ snapshot_legacy.machdep_cpu_logical_per_package = some 4
      ∧ logical_per_package snapshot_legacy 8 2 = some (to_unsigned 4))
    ∧ (snapshot_uneven.machdep_cpu_thread_count = none
      ∧ snapshot_uneven.machdep_cpu_logical_per_package = none
      ∧ logical_per_package snapshot_uneven 10 3
          = if (3 : Nat) = 0 then none else some (10 / 3)) :=
  ⟨⟨rfl, rfl, (logical_per_package_priority snapshot_uniform 8 2).1 4 rfl (by decide)⟩,
    ⟨rfl, rfl, (logical_per_package_priority snapshot_legacy 8 2).2.1 4
      (fun v h => by cases h) rfl (by decide)⟩,
    ⟨rfl, rfl, (logical_per_package_priority snapshot_uneven 10 3).2.2.1
      (fun v h => by cases h) (fun w h => by cases h)⟩⟩

theorem look_caches_eq (topology : hwloc_topology) (s : PlatformSnapshot) (n : Nat)
    (raw : List Nat) (hraw : s.hw_cacheconfig = some raw) (hmalloc : s.malloc_ok = true) :
    look_caches topology s n
      = look_levels topology s n (cacheconfig s raw) (cachesize s (cacheconfig_entries raw)) := by
  simp [look_caches, hraw, hmalloc]

theorem cache_levels_eq_findIdx (cfg : List Nat) :
    cache_levels cfg = cfg.findIdx (fun c => c == 0) := by
  induction cfg with
  | nil => rfl
  | cons c rest ih =>
    rw [cache_levels, List.findIdx_cons, ih]
    by_cases h : c = 0
    · simp [h]
    · have hb : (c == 0) = false := by simpa using h
      simp [h, hb]

theorem cache_levels_nonzero (cfg : List Nat) :
    ∀ i, i < cache_levels cfg → cfg.getD i 0 ≠ 0 := by
  induction cfg with
  | nil => intro i hi; simp [cache_levels] at hi
  | cons c rest ih =>
    intro i hi
    rw [cache_levels] at hi
    by_cases h : c = 0
    · simp [h] at hi
    · simp only [h, ne_eq, not_false_eq_true, if_true] at hi
      cases i with
      | zero => simpa using h
      | succ i =>
        have := ih i (by omega)
        simpa using this

theorem mem_look_levels (topology : hwloc_topology) (s : PlatformSnapshot) (n : Nat)
    (cfg csz : List Nat) (i : Nat) (gs : List cache_group)
    (h : (look_levels topology s n cfg csz)[i]? = some gs) :
    i < cache_levels cfg ∧ cfg.getD i 0 ≠ 0
      ∧ gs = (List.range (n / cfg.getD i 0)).map (look_group topology s cfg csz i) := by
  obtain ⟨hi, rfl⟩ := getElem?_map_range _ _ _ _ h
  exact ⟨hi, cache_levels_nonzero cfg i hi, rfl⟩

theorem cache_cpuset_range_eq (n c j : Nat) (hn : n < UINT_MODULUS) (hc : c ≠ 0)
    (hj : j < n / c) :
    cache_cpuset_range c j = Finset.Ico (j * c) ((j + 1) * c) := by
  have hc0 : 0 < c := Nat.pos_of_ne_zero hc
  have h1 : (j + 1) * c ≤ n := by
    have := Nat.mul_le_mul_right c (Nat.succ_le_of_lt hj)
    exact le_trans this (Nat.div_mul_le_self n c)
  have h2 : j * c ≤ (j + 1) * c := Nat.mul_le_mul_right c (Nat.le_succ j)
  have h3 : 1 ≤ (j + 1) * c := Nat.mul_pos (Nat.succ_pos j) hc0
  have h4 : j + 1 ≤ (j + 1) * c := Nat.le_mul_of_pos_right (j + 1) hc0
  unfold cache_cpuset_range hwloc_bitmap_set_range hwloc_bitmap_alloc
  unfold UINT_MODULUS at hn
  simp only [UINT_MODULUS, UINT64_MODULUS]
  have e1 : j * c % 18446744073709551616 % 4294967296 = j * c := by
    rw [Nat.mod_eq_of_lt (by omega), Nat.mod_eq_of_lt (by omega)]
  have e2 : (j + 1) % 4294967296 = j + 1 := Nat.mod_eq_of_lt (by omega)
  have e3 : ((j + 1) * c % 18446744073709551616 + (18446744073709551616 - 1))
      % 18446744073709551616 % 4294967296 = (j + 1) * c - 1 := by
    rw [Nat.mod_eq_of_lt (show (j + 1) * c < 18446744073709551616 by omega)]
    have : (j + 1) * c + (18446744073709551616 - 1)
        = ((j + 1) * c - 1) + 18446744073709551616 := by omega
    rw [this, Nat.add_mod_right, Nat.mod_eq_of_lt (by omega), Nat.mod_eq_of_lt (by omega)]
  rw [e1, e2, e3, Finset.empty_union]
  ext x
  rw [Finset.mem_Icc, Finset.mem_Ico]
  omega

theorem ico_blocks_disjoint (w a b : Nat) (hab : a < b) :
    Disjoint (Finset.Ico (a * w) ((a + 1) * w)) (Finset.Ico (b * w) ((b + 1) * w)) := by
  rw [Finset.disjoint_left]
  intro x hx hx'
  rw [Finset.mem_Ico] at hx hx'
  have : (a + 1) * w ≤ b * w := Nat.mul_le_mul_right w hab
  omega

theorem mem_ico_blocks (w k cpu : Nat) (hw : 0 < w) :
    (∃ j, j < k ∧ cpu ∈ Finset.Ico (j * w) ((j + 1) * w)) ↔ cpu < k * w := by
  constructor
  · rintro ⟨j, hj, hmem⟩
    rw [Finset.mem_Ico] at hmem
    have : (j + 1) * w ≤ k * w := Nat.mul_le_mul_right w hj
    omega
  · intro hc
    have hdiv : cpu / w < k := by
      rw [Nat.div_lt_iff_lt_mul hw]; exact hc
    refine ⟨cpu / w, hdiv, ?_⟩
    rw [Finset.mem_Ico]
    constructor
    · exact Nat.div_mul_le_self cpu w
    · have e : (cpu / w + 1) * w = w * (cpu / w) + w := by ring
      have h1 := Nat.div_add_mod cpu w
      have h2 := Nat.mod_lt cpu hw
      rw [e]
      omega

theorem look_level_cpusets (topology : hwloc_topology) (s : PlatformSnapshot) (n : Nat)
    (cfg csz : List Nat) (i : Nat) (hn : n < UINT_MODULUS) (hc : cfg.getD i 0 ≠ 0) :
    ((List.range (n / cfg.getD i 0)).map (look_group topology s cfg csz i)).map
        (fun g => g.obj.cpuset)
      = (List.range (n / cfg.getD i 0)).map
          (fun j => Finset.Ico (j * cfg.getD i 0) ((j + 1) * cfg.getD i 0)) := by
  rw [List.map_map]
  apply List.map_congr_left
  intro j hj
  have hj' := List.mem_range.mp hj
  have e : (look_group topology s cfg csz i j).obj.cpuset
      = cache_cpuset_range (cfg.getD i 0) j := by
    simp only [look_group, level_obj]
    split <;> rfl
  simp only [Function.comp, e]
  exact cache_cpuset_range_eq n _ j hn hc hj'

theorem pass_level_groups (topology : hwloc_topology) (s : PlatformSnapshot) (n : Nat)
    (raw : List Nat) (i : Nat) (gs : List cache_group) (d : Discovery)
    (hroot : topology.root_cpuset = none) (hn : nprocs s = some n)
    (hraw : s.hw_cacheconfig = some raw) (hmalloc : s.malloc_ok = true)
    (hd : hwloc_look_darwin topology s = some d)
    (h : d.levels[i]? = some gs) :
    i < cache_levels (cacheconfig s raw) ∧ (cacheconfig s raw).getD i 0 ≠ 0
      ∧ gs = (List.range (n / (cacheconfig s raw).getD i 0)).map
          (look_group topology s (cacheconfig s raw)
            (cachesize s (cacheconfig_entries raw)) i) := by
  rw [pass_levels topology s n d hroot hn hd,
    look_caches_eq topology s n raw hraw hmalloc] at h
  exact mem_look_levels topology s n _ _ i gs h

theorem pass_level_inv (topology : hwloc_topology) (s : PlatformSnapshot) (i : Nat)
    (gs : List cache_group) (d : Discovery)
    (hd : hwloc_look_darwin topology s = some d) (h : d.levels[i]? = some gs) :
    ∃ n raw, topology.root_cpuset = none ∧ nprocs s = some n
      ∧ s.hw_cacheconfig = some raw ∧ s.malloc_ok = true := by
  cases hroot : topology.root_cpuset with
  | some b =>
    simp [hwloc_look_darwin, hroot] at hd
    subst hd
    simp at h
  | none =>
    cases hn : nprocs s with
    | none =>
      simp [hwloc_look_darwin, hroot, hn] at hd
      subst hd
      simp at h
    | some n =>
      rw [pass_levels topology s n d hroot hn hd] at h
      cases hraw : s.hw_cacheconfig with
      | none => simp [look_caches, hraw] at h
      | some raw =>
        cases hmalloc : s.malloc_ok with
        | false => simp [look_caches, hraw, hmalloc] at h
        | true => exact ⟨n, raw, rfl, rfl, rfl, rfl⟩

theorem pass_levels_lengths (topology : hwloc_topology) (s : PlatformSnapshot) (n : Nat)
    (raw : List Nat) (d : Discovery)
    (hroot : topology.root_cpuset = none) (hn : nprocs s = some n)
    (hraw : s.hw_cacheconfig = some raw) (hmalloc : s.malloc_ok = true)
    (hd : hwloc_look_darwin topology s = some d) :
    d.levels.map List.length
      = (List.range (cache_levels (cacheconfig s raw))).map
          (fun i => n / (cacheconfig s raw).getD i 0) := by
  rw [pass_levels topology s n d hroot hn hd, look_caches_eq topology s n raw hraw hmalloc]
  simp [look_levels, look_level, Function.comp_def]

/-! ## Cache levels -/

/-- C6: with `z` the index of the first zero entry of the settled share counts (their
number when none is zero), the pass (on which line 404 does not divide by zero) returns
and builds exactly the levels `i < z`, level `i` with
exactly `nprocs / cacheconfig[i]` group objects; every object the cache block builds
belongs to such a level: the object of a group of level 0 is a NUMA node, that of a level
`i >= 1` is a cache of depth `i`, and an L1 instruction cache sits only in level 1. -/
theorem levels_stop_at_first_zero (topology : hwloc_topology) (s : PlatformSnapshot)
    (n : Nat) (raw : List Nat)
    (hroot : topology.root_cpuset = none) (hn : nprocs s = some n)
    (hdiv : ∀ np, npackages s = some np → logical_per_package s n np ≠ none)
    (hraw : s.hw_cacheconfig = some raw) (hmalloc : s.malloc_ok = true) :
    ∃ d, hwloc_look_darwin topology s = some d
      ∧ d.levels.length = (cacheconfig s raw).findIdx (fun c => c == 0)
      ∧ (∀ i, i < (cacheconfig s raw).findIdx (fun c => c == 0) →
          ∃ gs, d.levels[i]? = some gs
            ∧ gs.length = n / (cacheconfig s raw).getD i 0)
      ∧ (∀ i gs g, d.levels[i]? = some gs → g ∈ gs →
          i < (cacheconfig s raw).findIdx (fun c => c == 0)
          ∧ (i = 0 → g.obj.type = hwloc_obj_type_t.HWLOC_OBJ_NUMANODE ∧ g.l1i = none)
          ∧ (0 < i → g.obj.type = hwloc_obj_type_t.HWLOC_OBJ_L1CACHE_plus (i - 1)
              ∧ ∃ c, g.obj.attr = hwloc_obj_attr_u.cache c ∧ c.depth = i)
          ∧ (∀ o, g.l1i = some o → i = 1
              ∧ ∃ c, o.attr = hwloc_obj_attr_u.cache c ∧ c.depth = 1)) := by
  obtain ⟨d, hd⟩ := pass_returns topology s n hroot hn hdiv
  refine ⟨d, hd, ?_⟩
  have hlen : d.levels.length = (cacheconfig s raw).findIdx (fun c => c == 0) := by
    rw [← cache_levels_eq_findIdx, pass_levels topology s n d hroot hn hd,
      look_caches_eq topology s n raw hraw hmalloc]
    simp [look_levels]
  refine ⟨hlen, ?_, ?_⟩
  · intro i hi
    have hi' : i < d.levels.length := by rw [hlen]; exact hi
    refine ⟨d.levels[i], List.getElem?_eq_getElem hi', ?_⟩
    obtain ⟨_, _, hgs⟩ := pass_level_groups topology s n raw i _ d hroot hn hraw hmalloc hd
      (List.getElem?_eq_getElem hi')
    rw [hgs]
    simp
  · intro i gs g hgs hg
    obtain ⟨hi, _, rfl⟩ :=
      pass_level_groups topology s n raw i gs d hroot hn hraw hmalloc hd hgs
    rw [List.mem_map] at hg
    obtain ⟨j, _, rfl⟩ := hg
    rw [← cache_levels_eq_findIdx]
    refine ⟨hi, ?_, ?_, ?_⟩
    · intro h0
      subst h0
      simp [look_group, level_obj]
    · intro h0
      have hne : i ≠ 0 := by omega
      simp [look_group, level_obj, hne]
    · intro o ho
      simp only [look_group] at ho
      split at ho
      · rename_i hcond
        simp only [Option.some.injEq] at ho
        subst ho
        exact ⟨hcond.1, _, rfl, hcond.1⟩
      · simp at ho

/-- Witness of C6: the share counts `[4, 2, 8, 0, 3]` have their first zero at index 3, and
three levels are built. -/
theorem levels_stop_at_first_zero_witness :
    nprocs snapshot_caches = some 8
    ∧ cacheconfig snapshot_caches raw_share_counts = [4, 2, 8, 0, 3]
    ∧ ∃ d, hwloc_look_darwin topology_keep_all snapshot_caches = some d
      ∧ d.levels.length
        = (cacheconfig snapshot_caches raw_share_counts).findIdx (fun c => c == 0) :=
  ⟨by decide, by decide,
    Exists.imp (fun _ h => ⟨h.1, h.2.1⟩)
      (levels_stop_at_first_zero topology_keep_all snapshot_caches 8 raw_share_counts rfl
        (by decide) (fun _ h => by cases h) rfl rfl)⟩

/-- C7, refuted as stated: for the share counts `[4, 2, 8, 0, 3]` and 8 logical
processors the pass does not build three levels of which level 1 has 2 groups and level 2
has 1 group: level 1, shared by 2 processors, has 4 groups. -/
theorem truncation_scenario_counts_refuted :
    cacheconfig snapshot_caches raw_share_counts = [4, 2, 8, 0, 3]
    ∧ nprocs snapshot_caches = some 8
    ∧ ∃ d, hwloc_look_darwin topology_keep_all snapshot_caches = some d
      ∧ ¬ (∃ l0 l1 l2, d.levels = [l0, l1, l2] ∧ l1.length = 2 ∧ l2.length = 1) := by
  have hcfg : cacheconfig snapshot_caches raw_share_counts = [4, 2, 8, 0, 3] := by decide
  have hn : nprocs snapshot_caches = some 8 := by decide
  refine ⟨hcfg, hn, _, rfl, ?_⟩
  rintro ⟨l0, l1, l2, hl, h1, _⟩
  have h := pass_levels_lengths topology_keep_all snapshot_caches 8 raw_share_counts _ rfl hn
    rfl rfl rfl
  rw [hl, hcfg] at h
  have h2 : (List.range (cache_levels [4, 2, 8, 0, 3])).map
      (fun i => 8 / [4, 2, 8, 0, 3].getD i 0) = [2, 4, 1] := by decide
  rw [h2] at h
  simp only [List.map_cons, List.map_nil, List.cons.injEq] at h
  omega

/-- C7, amended: for the share counts `[4, 2, 8, 0, 3]` and 8 logical processors the pass
(on which line 404 does not divide by zero) returns and builds only the levels 0 to 2 (the zero at index 3 stops the construction, the entry at
index 4 is never used), with 2 groups at level 0, 4 groups at level 1 and 1 group at
level 2. -/
theorem truncation_scenario_counts (topology : hwloc_topology) (s : PlatformSnapshot)
    (raw : List Nat)
    (hroot : topology.root_cpuset = none) (hn : nprocs s = some 8)
    (hdiv : ∀ np, npackages s = some np → logical_per_package s 8 np ≠ none)
    (hraw : s.hw_cacheconfig = some raw) (hmalloc : s.malloc_ok = true)
    (hcfg : cacheconfig s raw = [4, 2, 8, 0, 3]) :
    ∃ d, hwloc_look_darwin topology s = some d
      ∧ d.levels.map List.length = [2, 4, 1] := by
  obtain ⟨d, hd⟩ := pass_returns topology s 8 hroot hn hdiv
  refine ⟨d, hd, ?_⟩
  rw [pass_levels_lengths topology s 8 raw d hroot hn hraw hmalloc hd, hcfg]
  decide

/-- Witness of C7 as amended: the machine of the truncation scenario. -/
theorem truncation_scenario_counts_witness :
    nprocs snapshot_caches = some 8
    ∧ cacheconfig snapshot_caches raw_share_counts = [4, 2, 8, 0, 3]
    ∧ ∃ d, hwloc_look_darwin topology_keep_all snapshot_caches = some d
      ∧ d.levels.map List.length = [2, 4, 1] :=
  ⟨by decide, by decide,
    truncation_scenario_counts topology_keep_all snapshot_caches raw_share_counts rfl
      (by decide) (fun _ h => by cases h) rfl rfl (by decide)⟩

/-- C8, refuted as stated: on a machine of 10 logical processors whose level 0 is shared
by 4, the level-0 objects are `{0..3}` and `{4..7}`; processors 8 and 9 belong to no object
of the level, so the cpusets of the level do not cover `{0..9}`. -/
theorem level_cover_refuted :
    nprocs snapshot_remainder = some 10
    ∧ cacheconfig snapshot_remainder raw_remainder = [4, 0, 0, 0]
    ∧ ∃ d, hwloc_look_darwin topology_keep_all snapshot_remainder = some d
      ∧ d.levels.map (fun gs => gs.map (fun g => g.obj.cpuset))
          = [[Finset.Ico 0 4, Finset.Ico 4 8]]
      ∧ ¬ (∀ gs ∈ d.levels, ∀ cpu, cpu < 10 → ∃ g ∈ gs, cpu ∈ g.obj.cpuset) := by
  have hn : nprocs snapshot_remainder = some 10 := by decide
  have hcfg : cacheconfig snapshot_remainder raw_remainder = [4, 0, 0, 0] := by decide
  obtain ⟨d, hd⟩ := pass_returns topology_keep_all snapshot_remainder 10 rfl hn
    (fun _ h => by cases h)
  have hl : d.levels.map (fun gs => gs.map (fun g => g.obj.cpuset))
      = [[Finset.Ico 0 4, Finset.Ico 4 8]] := by
    rw [pass_levels topology_keep_all snapshot_remainder 10 d rfl hn hd,
      look_caches_eq topology_keep_all snapshot_remainder 10 _ rfl rfl, hcfg]
    have hz : cache_levels [4, 0, 0, 0] = 1 := by decide
    have hr : List.range 1 = [0] := rfl
    simp only [look_levels, hz, hr, List.map_cons, List.map_nil, look_level]
    rw [look_level_cpusets topology_keep_all snapshot_remainder 10 [4, 0, 0, 0] _ 0 (by decide)
      (by decide)]
    decide
  refine ⟨hn, hcfg, d, hd, hl, ?_⟩
  intro hall
  cases hlv : d.levels with
  | nil => rw [hlv] at hl; simp at hl
  | cons gs rest =>
    rw [hlv] at hl
    simp only [List.map_cons, List.cons.injEq] at hl
    obtain ⟨g, hg, hmem⟩ := hall gs (by rw [hlv]; simp) 8 (by decide)
    have hin : g.obj.cpuset ∈ gs.map (fun g => g.obj.cpuset) := List.mem_map.mpr ⟨g, hg, rfl⟩
    rw [hl.1] at hin
    simp only [List.mem_cons, List.mem_singleton, List.not_mem_nil, or_false] at hin
    rcases hin with h | h <;> rw [h, Finset.mem_Ico] at hmem <;> omega

/-- C8, amended: for every level `i` constructed by a pass that returns, with share count
`c = cacheconfig[i] > 0`, the cpusets of the level's group objects (NUMA nodes at level 0,
caches above) are the contiguous ranges `{j*c, ..., (j+1)*c - 1}` for `j < nprocs / c`,
each of `c` processors and pairwise disjoint; their union is `{0, ..., (nprocs / c)*c - 1}`,
which is `{0, ..., nprocs - 1}` when `c` divides `nprocs`. -/
theorem level_cpusets_partition (topology : hwloc_topology) (s : PlatformSnapshot)
    (n : Nat) (raw : List Nat) (i c : Nat) (gs : List cache_group) (d : Discovery)
    (hn : nprocs s = some n) (hraw : s.hw_cacheconfig = some raw)
    (hd : hwloc_look_darwin topology s = some d)
    (hgs : d.levels[i]? = some gs)
    (hc : (cacheconfig s raw).getD i 0 = c) :
    0 < c
    ∧ gs.map (fun g => g.obj.cpuset)
        = (List.range (n / c)).map (fun j => Finset.Ico (j * c) ((j + 1) * c))
    ∧ (∀ g ∈ gs, g.obj.cpuset.card = c)
    ∧ gs.Pairwise (fun a b => Disjoint a.obj.cpuset b.obj.cpuset)
    ∧ (∀ cpu, (∃ g ∈ gs, cpu ∈ g.obj.cpuset) ↔ cpu < n / c * c)
    ∧ (c ∣ n → ∀ cpu, (∃ g ∈ gs, cpu ∈ g.obj.cpuset) ↔ cpu < n) := by
  obtain ⟨_, _, hroot, _, _, hmalloc⟩ := pass_level_inv topology s i gs d hd hgs
  obtain ⟨_, hne, hgroups⟩ :=
    pass_level_groups topology s n raw i gs d hroot hn hraw hmalloc hd hgs
  have hlt : n < UINT_MODULUS := nprocs_lt s n hn
  have hc0 : 0 < c := by rw [← hc]; exact Nat.pos_of_ne_zero hne
  have hmap : gs.map (fun g => g.obj.cpuset)
      = (List.range (n / c)).map (fun j => Finset.Ico (j * c) ((j + 1) * c)) := by
    rw [hgroups, look_level_cpusets topology s n _ _ i hlt hne, hc]
  have hmem : ∀ cpu, (∃ g ∈ gs, cpu ∈ g.obj.cpuset)
      ↔ ∃ j, j < n / c ∧ cpu ∈ Finset.Ico (j * c) ((j + 1) * c) := by
    intro cpu
    constructor
    · rintro ⟨g, hg, hcpu⟩
      have hin : g.obj.cpuset ∈ gs.map (fun g => g.obj.cpuset) :=
        List.mem_map.mpr ⟨g, hg, rfl⟩
      rw [hmap, List.mem_map] at hin
      obtain ⟨j, hj, hjeq⟩ := hin
      exact ⟨j, List.mem_range.mp hj, hjeq ▸ hcpu⟩
    · rintro ⟨j, hj, hcpu⟩
      have hin : Finset.Ico (j * c) ((j + 1) * c) ∈ gs.map (fun g => g.obj.cpuset) := by
        rw [hmap]
        exact List.mem_map.mpr ⟨j, List.mem_range.mpr hj, rfl⟩
      rw [List.mem_map] at hin
      obtain ⟨g, hg, hgeq⟩ := hin
      exact ⟨g, hg, by rw [hgeq]; exact hcpu⟩
  have hunion : ∀ cpu, (∃ g ∈ gs, cpu ∈ g.obj.cpuset) ↔ cpu < n / c * c := fun cpu =>
    (hmem cpu).trans (mem_ico_blocks c (n / c) cpu hc0)
  refine ⟨hc0, hmap, ?_, ?_, hunion, ?_⟩
  · intro g hg
    have hin : g.obj.cpuset ∈ gs.map (fun g => g.obj.cpuset) :=
      List.mem_map.mpr ⟨g, hg, rfl⟩
    rw [hmap, List.mem_map] at hin
    obtain ⟨j, _, hjeq⟩ := hin
    rw [← hjeq, Nat.card_Ico, Nat.succ_mul]
    omega
  · have hp : (gs.map (fun g => g.obj.cpuset)).Pairwise Disjoint := by
      rw [hmap, List.pairwise_map]
      refine List.Pairwise.imp ?_ (List.pairwise_lt_range (n / c))
      intro a b hab
      exact ico_blocks_disjoint c a b hab
    exact List.pairwise_map.mp hp
  · intro hdvd cpu
    rw [hunion cpu, Nat.div_mul_cancel hdvd]

/-- Witness of C8 as amended: level 1 of the truncation scenario, shared by 2 of the 8
processors, is made of `{0,1}`, `{2,3}`, `{4,5}` and `{6,7}`. -/
theorem level_cpusets_partition_witness :
    nprocs snapshot_caches = some 8
    ∧ (∃ d, hwloc_look_darwin topology_keep_all snapshot_caches = some d
        ∧ d.levels[1]? = some (caches_level 1))
    ∧ (cacheconfig snapshot_caches raw_share_counts).getD 1 0 = 2
    ∧ (caches_level 1).map (fun g => g.obj.cpuset)
        = [Finset.Ico 0 2, Finset.Ico 2 4, Finset.Ico 4 6, Finset.Ico 6 8] :=
  ⟨by decide, ⟨_, rfl, rfl⟩, by decide,
    (level_cpusets_partition topology_keep_all snapshot_caches 8 raw_share_counts 1 2
      (caches_level 1) _ (by decide) rfl rfl rfl (by decide)).2.1⟩

theorem l1icachesize_ne_zero_iff (s : PlatformSnapshot) :
    l1icachesize s ≠ 0 ↔ ∃ v, s.hw_l1icachesize = some v ∧ v ≠ 0 := by
  unfold l1icachesize sysctl_or_zero
  cases s.hw_l1icachesize with
  | none => simp
  | some v => simp

theorem length_filterMap_some {α β : Type} (f : α → β) (l : List α) :
    (l.filterMap (fun a => some (f a))).length = l.length := by
  induction l with
  | nil => rfl
  | cons a l ih => simp [List.filterMap_cons, ih]

/-! ## Cache kinds and associativity -/

/-- C9: on a pass that returns, the cache object of a group of level `i >= 1` is typed Data
exactly when `i = 1` and a non-zero `hw.l1icachesize` was reported, and Unified in every
other case. When `i = 1`, the reported size is non-zero and L1i objects are kept, the group
also gets one Instruction cache with the same cpuset, depth 1 and size `l1icachesize` (as
stored in the `hwloc_uint64_t` field: the value itself when it is not negative), so that the
level has as many instruction caches as groups; in every other case the group gets none. -/
theorem cache_kind_and_l1i (topology : hwloc_topology) (s : PlatformSnapshot)
    (i : Nat) (gs : List cache_group) (g : cache_group) (d : Discovery)
    (hd : hwloc_look_darwin topology s = some d)
    (hgs : d.levels[i]? = some gs) (hg : g ∈ gs)
    (hi : 0 < i) :
    (l1icachesize s ≠ 0 ↔ ∃ v, s.hw_l1icachesize = some v ∧ v ≠ 0)
    ∧ (∃ c, g.obj.attr = hwloc_obj_attr_u.cache c ∧ c.depth = i
        ∧ (c.type = hwloc_obj_cache_type_t.HWLOC_OBJ_CACHE_DATA
            ↔ (i = 1 ∧ l1icachesize s ≠ 0))
        ∧ (c.type = hwloc_obj_cache_type_t.HWLOC_OBJ_CACHE_UNIFIED
            ↔ ¬ (i = 1 ∧ l1icachesize s ≠ 0)))
    ∧ ((i = 1 ∧ l1icachesize s ≠ 0
          ∧ topology.keep hwloc_obj_type_t.HWLOC_OBJ_L1ICACHE = true) →
        (∃ o, g.l1i = some o ∧ o.type = hwloc_obj_type_t.HWLOC_OBJ_L1ICACHE
          ∧ o.cpuset = g.obj.cpuset
          ∧ o.attr = hwloc_obj_attr_u.cache
              { size := to_uint64 (l1icachesize s), depth := 1,
                linesize := to_unsigned (cachelinesize s),
                associativity := 0,
                type := hwloc_obj_cache_type_t.HWLOC_OBJ_CACHE_INSTRUCTION })
        ∧ (gs.filterMap (fun g => g.l1i)).length = gs.length)
    ∧ (¬ (i = 1 ∧ l1icachesize s ≠ 0
          ∧ topology.keep hwloc_obj_type_t.HWLOC_OBJ_L1ICACHE = true) → g.l1i = none)
    ∧ (0 ≤ l1icachesize s → l1icachesize s < 18446744073709551616 →
        (to_uint64 (l1icachesize s) : Int) = l1icachesize s)
    ∧ (0 ≤ cachelinesize s → cachelinesize s < 4294967296 →
        (to_unsigned (cachelinesize s) : Int) = cachelinesize s) := by
  obtain ⟨n, raw, hroot, hn, hraw, hmalloc⟩ := pass_level_inv topology s i gs d hd hgs
  obtain ⟨_, _, hgroups⟩ :=
    pass_level_groups topology s n raw i gs d hroot hn hraw hmalloc hd hgs
  have hne : i ≠ 0 := by omega
  have hg' := hg
  rw [hgroups, List.mem_map] at hg'
  obtain ⟨j, _, rfl⟩ := hg'
  refine ⟨l1icachesize_ne_zero_iff s, ?_, ?_, ?_,
    to_uint64_of_lt (l1icachesize s), to_unsigned_of_lt (cachelinesize s)⟩
  · simp only [look_group, level_obj, hne, if_false]
    refine ⟨_, rfl, rfl, ?_, ?_⟩
    · by_cases hcond : i = 1 ∧ l1icachesize s ≠ 0
      · simp [hcond]
      · simp only [hcond, if_false]
        simp
    · by_cases hcond : i = 1 ∧ l1icachesize s ≠ 0
      · simp only [hcond]
        simp
      · simp [hcond]
  · intro hcond
    constructor
    · refine ⟨l1i_obj s i (cache_cpuset_range ((cacheconfig s raw).getD i 0) j), ?_, rfl, ?_, ?_⟩
      · simp only [look_group]
        rw [if_pos hcond]
      · simp only [look_group, level_obj, hne, if_false, l1i_obj, hwloc_bitmap_dup]
      · simp only [l1i_obj, hcond.1]
    · rw [hgroups, List.filterMap_map]
      have : ∀ j, ((fun g : cache_group => g.l1i)
          ∘ look_group topology s (cacheconfig s raw) (cachesize s (cacheconfig_entries raw)) i) j
          = some (l1i_obj s i (cache_cpuset_range ((cacheconfig s raw).getD i 0) j)) := by
        intro j
        simp only [Function.comp, look_group]
        rw [if_pos hcond]
      have hfm : List.filterMap ((fun g : cache_group => g.l1i)
            ∘ look_group topology s (cacheconfig s raw) (cachesize s (cacheconfig_entries raw)) i)
            (List.range (n / (cacheconfig s raw).getD i 0))
          = List.filterMap (fun j => some (l1i_obj s i
              (cache_cpuset_range ((cacheconfig s raw).getD i 0) j)))
            (List.range (n / (cacheconfig s raw).getD i 0)) :=
        List.filterMap_congr (fun j _ => this j)
      rw [hfm, length_filterMap_some]
      simp
  · intro hcond
    simp only [look_group]
    rw [if_neg hcond]

/-- Witness of C9: the last group of level 1 of the truncation scenario, where an L1
instruction cache size of 65536 is reported and every type is kept, gets an instruction
cache on the cpuset of its data cache, of size 65536 and line size 64. -/
theorem cache_kind_and_l1i_witness :
    (∃ d, hwloc_look_darwin topology_keep_all snapshot_caches = some d
      ∧ d.levels[1]? = some (caches_level 1))
    ∧ caches_group 1 3 ∈ caches_level 1
    ∧ l1icachesize snapshot_caches = 65536
    ∧ (∃ o, (caches_group 1 3).l1i = some o
        ∧ o.type = hwloc_obj_type_t.HWLOC_OBJ_L1ICACHE
        ∧ o.cpuset = (caches_group 1 3).obj.cpuset
        ∧ o.attr = hwloc_obj_attr_u.cache
            { size := to_uint64 (l1icachesize snapshot_caches), depth := 1,
              linesize := to_unsigned (cachelinesize snapshot_caches), associativity := 0,
              type := hwloc_obj_cache_type_t.HWLOC_OBJ_CACHE_INSTRUCTION })
    ∧ to_uint64 (l1icachesize snapshot_caches) = 65536
    ∧ to_unsigned (cachelinesize snapshot_caches) = 64 :=
  ⟨⟨_, rfl, rfl⟩, List.mem_map.mpr ⟨3, by decide, rfl⟩, by decide,
    ((cache_kind_and_l1i topology_keep_all snapshot_caches 1
      (caches_level 1) (caches_group 1 3) _ rfl rfl
      (List.mem_map.mpr ⟨3, by decide, rfl⟩) (by decide)).2.2.1
        ⟨rfl, by decide, rfl⟩).1,
    by decide, by decide⟩

/-- The conversions to the attribute fields on a platform that reports values out of their
range: an L1 associativity of `2^32 + 3` is stored as 3, a cache line size of `2^32 + 64` as
64, and an L1 instruction cache size of -1 as `2^64 - 1`. -/
theorem attributes_out_of_range :
    snapshot_caches_wide.machdep_cpu_cache_L1_associativity = some 4294967299
    ∧ snapshot_caches_wide.hw_cachelinesize = some 4294967360
    ∧ snapshot_caches_wide.hw_l1icachesize = some (-1)
    ∧ (∃ d gs, hwloc_look_darwin topology_keep_all snapshot_caches_wide = some d
        ∧ d.levels[1]? = some gs
        ∧ gs.map (fun g => g.obj.attr)
          = List.replicate 4 (hwloc_obj_attr_u.cache
              { size := 32768, depth := 1, linesize := 64, associativity := 3,
                type := hwloc_obj_cache_type_t.HWLOC_OBJ_CACHE_DATA })
        ∧ gs.map (fun g => g.l1i.map (fun o => o.attr))
          = List.replicate 4 (some (hwloc_obj_attr_u.cache
              { size := 18446744073709551615, depth := 1, linesize := 64,
                associativity := 0,
                type := hwloc_obj_cache_type_t.HWLOC_OBJ_CACHE_INSTRUCTION }))) :=
  ⟨rfl, rfl, rfl, _, _, rfl, rfl, by decide, by decide⟩

/-! ## Auxiliary facts on core kinds -/

theorem cpukinds_entry_skip (kinds : hwloc_darwin_cpukinds) (e : cpu_entry)
    (h : well_formed e = false) : cpukinds_entry kinds e = kinds := by
  unfold well_formed at h
  unfold cpukinds_entry
  cases h1 : read_logical_cpu_id e with
  | none => rfl
  | some id =>
    cases h2 : read_cluster_type e with
    | none => rfl
    | some t =>
      cases h3 : read_compatible e with
      | none => rfl
      | some d => simp [h1, h2, h3] at h

theorem cpukinds_entry_tagged (kinds : hwloc_darwin_cpukinds) (e : cpu_entry)
    (id : Nat) (d : List Nat)
    (h1 : read_logical_cpu_id e = some id) (h3 : read_compatible e = some d) :
    (tagged 69 e = true →
        cpukinds_entry kinds e = { P := kinds.P, E := cpukind_add kinds.E id d })
    ∧ (tagged 80 e = true →
        cpukinds_entry kinds e = { P := cpukind_add kinds.P id d, E := kinds.E }) := by
  unfold tagged cpukinds_entry
  cases h2 : read_cluster_type e with
  | none => simp
  | some t =>
    simp only [h1, h3, Bool.and_eq_true, decide_eq_true_eq, Option.some.injEq]
    constructor
    · rintro ⟨_, rfl⟩
      simp
    · rintro ⟨_, rfl⟩
      simp

theorem cpukinds_entry_other (kinds : hwloc_darwin_cpukinds) (e : cpu_entry)
    (hE : tagged 69 e = false) (hP : tagged 80 e = false) :
    cpukinds_entry kinds e = kinds := by
  cases hw : well_formed e with
  | false => exact cpukinds_entry_skip kinds e hw
  | true =>
    unfold tagged at hE hP
    simp only [hw, Bool.true_and, decide_eq_false_iff_not] at hE hP
    unfold cpukinds_entry
    cases h1 : read_logical_cpu_id e with
    | none => rfl
    | some id =>
      cases h2 : read_cluster_type e with
      | none => rfl
      | some t =>
        cases h3 : read_compatible e with
        | none => rfl
        | some d =>
          rw [h2] at hE hP
          have h69 : t ≠ 69 := fun h => hE (by rw [h])
          have h80 : t ≠ 80 := fun h => hP (by rw [h])
          simp [h69, h80]

theorem tagged_reads (tag : Nat) (e : cpu_entry) (h : tagged tag e = true) :
    ∃ id d, read_logical_cpu_id e = some id ∧ read_compatible e = some d := by
  unfold tagged well_formed at h
  cases h1 : read_logical_cpu_id e with
  | none => simp [h1] at h
  | some id =>
    cases h3 : read_compatible e with
    | none => simp [h3] at h
    | some d => exact ⟨id, d, rfl, rfl⟩

theorem tagged_exclusive (e : cpu_entry) (h : tagged 80 e = true) : tagged 69 e = false := by
  unfold tagged at h ⊢
  simp only [Bool.and_eq_true, decide_eq_true_eq] at h
  simp [h.2]

theorem tagged_ids_cons (tag : Nat) (e : cpu_entry) (rest : List cpu_entry) :
    tagged_ids tag (e :: rest)
      = (if tagged tag e = true then (read_logical_cpu_id e).toList else [])
        ++ tagged_ids tag rest := by
  unfold tagged_ids
  by_cases h : tagged tag e = true
  · obtain ⟨id, d, h1, _⟩ := tagged_reads tag e h
    simp [List.filter_cons, h, h1]
  · simp [List.filter_cons, h]

theorem tagged_descriptors_cons (tag : Nat) (e : cpu_entry) (rest : List cpu_entry) :
    tagged_descriptors tag (e :: rest)
      = (if tagged tag e = true then (read_compatible e).toList else [])
        ++ tagged_descriptors tag rest := by
  unfold tagged_descriptors
  by_cases h : tagged tag e = true
  · obtain ⟨id, d, _, h3⟩ := tagged_reads tag e h
    simp [List.filter_cons, h, h3]
  · simp [List.filter_cons, h]

theorem cpukinds_fold (entries : List cpu_entry) :
    ∀ kinds : hwloc_darwin_cpukinds,
      (entries.foldl cpukinds_entry kinds).P.cpuset
          = kinds.P.cpuset ∪ (tagged_ids 80 entries).toFinset
      ∧ (entries.foldl cpukinds_entry kinds).E.cpuset
          = kinds.E.cpuset ∪ (tagged_ids 69 entries).toFinset
      ∧ (entries.foldl cpukinds_entry kinds).P.compatible
          = (kinds.P.compatible.toList ++ tagged_descriptors 80 entries).head?
      ∧ (entries.foldl cpukinds_entry kinds).E.compatible
          = (kinds.E.compatible.toList ++ tagged_descriptors 69 entries).head? := by
  induction entries with
  | nil =>
    intro kinds
    simp only [List.foldl_nil, tagged_ids, tagged_descriptors, List.filter_nil,
      List.filterMap_nil, List.toFinset_nil, Finset.union_empty, List.append_nil, true_and]
    constructor
    · cases kinds.P.compatible <;> rfl
    · cases kinds.E.compatible <;> rfl
  | cons e rest ih =>
    intro kinds
    rw [List.foldl_cons]
    obtain ⟨ihP, ihE, ihPc, ihEc⟩ := ih (cpukinds_entry kinds e)
    rw [ihP, ihE, ihPc, ihEc]
    simp only [tagged_ids_cons, tagged_descriptors_cons]
    by_cases hP : tagged 80 e = true
    · have hE : tagged 69 e = false := tagged_exclusive e hP
      obtain ⟨id, d, h1, h3⟩ := tagged_reads 80 e hP
      rw [((cpukinds_entry_tagged kinds e id d h1 h3).2 hP)]
      simp only [hP, hE, if_true, h1, h3, Option.toList, cpukind_add, hwloc_bitmap_set,
        Bool.false_eq_true, if_false, List.nil_append]
      refine ⟨?_, trivial, ?_, trivial⟩
      · ext x
        simp only [Finset.mem_union, Finset.mem_insert, List.mem_toFinset, List.mem_append,
          List.mem_singleton]
        tauto
      · cases kinds.P.compatible <;> simp
    · have hP' : tagged 80 e = false := by simpa using hP
      by_cases hE : tagged 69 e = true
      · obtain ⟨id, d, h1, h3⟩ := tagged_reads 69 e hE
        rw [((cpukinds_entry_tagged kinds e id d h1 h3).1 hE)]
        simp only [hP', hE, if_true, h1, h3, Option.toList, cpukind_add, hwloc_bitmap_set,
          Bool.false_eq_true, if_false, List.nil_append]
        refine ⟨trivial, ?_, trivial, ?_⟩
        · ext x
          simp only [Finset.mem_union, Finset.mem_insert, List.mem_toFinset, List.mem_append,
            List.mem_singleton]
          tauto
        · cases kinds.E.compatible <;> simp
      · have hE' : tagged 69 e = false := by simpa using hE
        rw [cpukinds_entry_other kinds e hE' hP']
        simp [hP', hE']

theorem tagged_ids_append (tag : Nat) (a b : List cpu_entry) :
    tagged_ids tag (a ++ b) = tagged_ids tag a ++ tagged_ids tag b := by
  simp [tagged_ids, List.filter_append, List.filterMap_append]

theorem tagged_descriptors_append (tag : Nat) (a b : List cpu_entry) :
    tagged_descriptors tag (a ++ b)
      = tagged_descriptors tag a ++ tagged_descriptors tag b := by
  simp [tagged_descriptors, List.filter_append, List.filterMap_append]

theorem cpukinds_enumerated (entries : List cpu_entry) :
    (hwloc__look_darwin_cpukinds (some entries) cpukinds_init).2.P.cpuset
        = (tagged_ids 80 entries).toFinset
    ∧ (hwloc__look_darwin_cpukinds (some entries) cpukinds_init).2.E.cpuset
        = (tagged_ids 69 entries).toFinset
    ∧ (hwloc__look_darwin_cpukinds (some entries) cpukinds_init).2.P.compatible
        = (tagged_descriptors 80 entries).head?
    ∧ (hwloc__look_darwin_cpukinds (some entries) cpukinds_init).2.E.compatible
        = (tagged_descriptors 69 entries).head? := by
  obtain ⟨h1, h2, h3, h4⟩ := cpukinds_fold entries cpukinds_init
  simp only [hwloc__look_darwin_cpukinds]
  rw [h1, h2, h3, h4]
  simp [cpukinds_init, hwloc_bitmap_alloc]

theorem mem_tagged_ids_middle (tag : Nat) (before after : List cpu_entry) (e : cpu_entry)
    (id : Nat) (ht : tagged tag e = true) (hid : read_logical_cpu_id e = some id) :
    id ∈ tagged_ids tag (before ++ e :: after) := by
  rw [tagged_ids_append, tagged_ids_cons]
  simp [ht, hid]

/-! ## Core kinds -/

/-- C13, refuted as stated: processor 2, tagged `P` by an earlier record and `E` by a later
one, is in both cpusets, which are therefore not disjoint. -/
theorem cpukinds_disjoint_refuted :
    2 ∈ (hwloc__look_darwin_cpukinds (some cpus_hybrid) cpukinds_init).2.P.cpuset
    ∧ 2 ∈ (hwloc__look_darwin_cpukinds (some cpus_conflict) cpukinds_init).2.P.cpuset
    ∧ 2 ∈ (hwloc__look_darwin_cpukinds (some cpus_conflict) cpukinds_init).2.E.cpuset
    ∧ ¬ Disjoint (hwloc__look_darwin_cpukinds (some cpus_conflict) cpukinds_init).2.P.cpuset
        (hwloc__look_darwin_cpukinds (some cpus_conflict) cpukinds_init).2.E.cpuset
    ∧ (hwloc_look_darwin_cpukinds snapshot_conflict).registered.map (fun r => r.cpuset)
        = [{0, 1, 2}, {2, 3, 4}] := by
  refine ⟨by decide, by decide, by decide, by decide, by decide⟩

/-- C13, amended: the `P` and `E` cpusets produced by `hwloc__look_darwin_cpukinds`, which
`hwloc_look_darwin_cpukinds` registers unchanged when they are not empty, are disjoint
exactly when no `logical-cpu-id` is carried both by a well-formed record tagged `P` and by
one tagged `E`; a processor already in `P` that appears in a later record tagged `E`
remains in `P` and is added to `E` as well. -/
theorem cpukinds_overlap (entries : List cpu_entry) :
    (Disjoint (hwloc__look_darwin_cpukinds (some entries) cpukinds_init).2.P.cpuset
        (hwloc__look_darwin_cpukinds (some entries) cpukinds_init).2.E.cpuset
      ↔ ∀ id, id ∈ tagged_ids 80 entries → id ∉ tagged_ids 69 entries)
    ∧ (∀ before e after id, entries = before ++ e :: after → tagged 69 e = true →
        read_logical_cpu_id e = some id →
        id ∈ (hwloc__look_darwin_cpukinds (some before) cpukinds_init).2.P.cpuset →
        id ∈ (hwloc__look_darwin_cpukinds (some entries) cpukinds_init).2.P.cpuset
          ∧ id ∈ (hwloc__look_darwin_cpukinds (some entries) cpukinds_init).2.E.cpuset)
    ∧ (∀ s : PlatformSnapshot, s.cpus = some entries → s.cpukinds_alloc_P = true →
        s.cpukinds_alloc_E = true →
        (hwloc_look_darwin_cpukinds s).registered.map (fun r => r.cpuset)
          = [(hwloc__look_darwin_cpukinds (some entries) cpukinds_init).2.P.cpuset,
             (hwloc__look_darwin_cpukinds (some entries) cpukinds_init).2.E.cpuset].filter
              (fun set => !hwloc_bitmap_iszero set)) := by
  refine ⟨?_, ?_, ?_⟩
  · rw [(cpukinds_enumerated entries).1, (cpukinds_enumerated entries).2.1,
      Finset.disjoint_left]
    simp only [List.mem_toFinset]
  · intro before e after id hent ht hid hmem
    rw [(cpukinds_enumerated before).1, List.mem_toFinset] at hmem
    rw [(cpukinds_enumerated entries).1, (cpukinds_enumerated entries).2.1, hent,
      List.mem_toFinset, List.mem_toFinset]
    constructor
    · rw [tagged_ids_append]
      exact List.mem_append_left _ hmem
    · exact mem_tagged_ids_middle 69 before after e id ht hid
  · intro s hcpus hP hE
    simp only [hwloc_look_darwin_cpukinds, hP, hE, hcpus, register_cpukind]
    by_cases h1 : hwloc_bitmap_iszero
        (hwloc__look_darwin_cpukinds (some entries) cpukinds_init).2.P.cpuset = true
      <;> by_cases h2 : hwloc_bitmap_iszero
        (hwloc__look_darwin_cpukinds (some entries) cpukinds_init).2.E.cpuset = true
      <;> simp [h1, h2, List.filter]

/-- Witness of C13 as amended: on the machine of the design followed by the record that
tags processor 2 as `E`, processor 2 is in both cpusets. -/
theorem cpukinds_overlap_witness :
    cpus_conflict = cpus_hybrid ++ cpu_record 2 69 (other_core ++ [0]) :: []
    ∧ tagged 69 (cpu_record 2 69 (other_core ++ [0])) = true
    ∧ read_logical_cpu_id (cpu_record 2 69 (other_core ++ [0])) = some 2
    ∧ 2 ∈ (hwloc__look_darwin_cpukinds (some cpus_hybrid) cpukinds_init).2.P.cpuset
    ∧ 2 ∈ (hwloc__look_darwin_cpukinds (some cpus_conflict) cpukinds_init).2.P.cpuset
    ∧ 2 ∈ (hwloc__look_darwin_cpukinds (some cpus_conflict) cpukinds_init).2.E.cpuset :=
  ⟨rfl, by decide, by decide, by decide,
    (cpukinds_overlap cpus_conflict).2.1 cpus_hybrid (cpu_record 2 69 (other_core ++ [0])) []
      2 rfl (by decide) (by decide) (by decide)⟩

/-- C14: for every sequence of per-processor records and each bucket, the descriptor after
the enumeration is the descriptor of the first well-formed record carrying the bucket's
tag (none when there is no such record), whatever the later records of the tag carry: once
a bucket has a descriptor, no later record changes it, and a well-formed record of the tag
has its processor added to the cpuset whatever its own descriptor is. -/
theorem cpukinds_descriptor (entries : List cpu_entry) :
    (hwloc__look_darwin_cpukinds (some entries) cpukinds_init).2.P.compatible
        = (tagged_descriptors 80 entries).head?
    ∧ (hwloc__look_darwin_cpukinds (some entries) cpukinds_init).2.E.compatible
        = (tagged_descriptors 69 entries).head?
    ∧ (∀ before e after d, entries = before ++ e :: after →
        ((hwloc__look_darwin_cpukinds (some before) cpukinds_init).2.P.compatible = some d →
          (hwloc__look_darwin_cpukinds (some entries) cpukinds_init).2.P.compatible = some d)
        ∧ ((hwloc__look_darwin_cpukinds (some before) cpukinds_init).2.E.compatible = some d →
          (hwloc__look_darwin_cpukinds (some entries) cpukinds_init).2.E.compatible = some d))
    ∧ (∀ before e after id, entries = before ++ e :: after →
        read_logical_cpu_id e = some id →
        (tagged 80 e = true →
          id ∈ (hwloc__look_darwin_cpukinds (some entries) cpukinds_init).2.P.cpuset)
        ∧ (tagged 69 e = true →
          id ∈ (hwloc__look_darwin_cpukinds (some entries) cpukinds_init).2.E.cpuset)) := by
  refine ⟨(cpukinds_enumerated entries).2.2.1, (cpukinds_enumerated entries).2.2.2, ?_, ?_⟩
  · intro before e after d hent
    rw [(cpukinds_enumerated before).2.2.1, (cpukinds_enumerated before).2.2.2,
      (cpukinds_enumerated entries).2.2.1, (cpukinds_enumerated entries).2.2.2, hent,
      tagged_descriptors_append, tagged_descriptors_append]
    constructor
    · intro h
      cases hl : tagged_descriptors 80 before with
      | nil => rw [hl] at h; simp at h
      | cons a l => rw [hl] at h; simpa using h
    · intro h
      cases hl : tagged_descriptors 69 before with
      | nil => rw [hl] at h; simp at h
      | cons a l => rw [hl] at h; simpa using h
  · intro before e after id hent hid
    rw [(cpukinds_enumerated entries).1, (cpukinds_enumerated entries).2.1, hent,
      List.mem_toFinset, List.mem_toFinset]
    exact ⟨fun ht => mem_tagged_ids_middle 80 before after e id ht hid,
      fun ht => mem_tagged_ids_middle 69 before after e id ht hid⟩

/-- Witness of C14: after the five records of the design the `E` bucket holds `eff-core`;
the later record for processor 2, tagged `E` with the descriptor `other`, leaves
`eff-core` in place and has processor 2 added to the `E` cpuset. -/
theorem cpukinds_descriptor_witness :
    (hwloc__look_darwin_cpukinds (some cpus_hybrid) cpukinds_init).2.E.compatible
        = some eff_core
    ∧ read_compatible (cpu_record 2 69 (other_core ++ [0])) = some other_core
    ∧ (hwloc__look_darwin_cpukinds (some cpus_conflict) cpukinds_init).2.E.compatible
        = some eff_core
    ∧ 2 ∈ (hwloc__look_darwin_cpukinds (some cpus_conflict) cpukinds_init).2.E.cpuset :=
  ⟨by decide, by decide,
    ((cpukinds_descriptor cpus_conflict).2.2.1 cpus_hybrid
      (cpu_record 2 69 (other_core ++ [0])) [] eff_core rfl).2 (by decide),
    ((cpukinds_descriptor cpus_conflict).2.2.2 cpus_hybrid
      (cpu_record 2 69 (other_core ++ [0])) [] 2 rfl (by decide)).2 (by decide)⟩

theorem cpukinds_fold_descriptor_exists (entries : List cpu_entry) :
    ∀ kinds : hwloc_darwin_cpukinds,
      (kinds.P.cpuset ≠ ∅ → kinds.P.compatible ≠ none) →
      (kinds.E.cpuset ≠ ∅ → kinds.E.compatible ≠ none) →
      ((entries.foldl cpukinds_entry kinds).P.cpuset ≠ ∅ →
          (entries.foldl cpukinds_entry kinds).P.compatible ≠ none)
      ∧ ((entries.foldl cpukinds_entry kinds).E.cpuset ≠ ∅ →
          (entries.foldl cpukinds_entry kinds).E.compatible ≠ none) := by
  induction entries with
  | nil => intro kinds hP hE; exact ⟨hP, hE⟩
  | cons e rest ih =>
    intro kinds hP hE
    rw [List.foldl_cons]
    apply ih
    · by_cases ht : tagged 80 e = true
      · obtain ⟨id, d, h1, h3⟩ := tagged_reads 80 e ht
        rw [(cpukinds_entry_tagged kinds e id d h1 h3).2 ht]
        intro _
        simp only [cpukind_add]
        cases kinds.P.compatible <;> simp
      · by_cases ht2 : tagged 69 e = true
        · obtain ⟨id, d, h1, h3⟩ := tagged_reads 69 e ht2
          rw [(cpukinds_entry_tagged kinds e id d h1 h3).1 ht2]
          exact hP
        · rw [cpukinds_entry_other kinds e (by simpa using ht2) (by simpa using ht)]
          exact hP
    · by_cases ht : tagged 69 e = true
      · obtain ⟨id, d, h1, h3⟩ := tagged_reads 69 e ht
        rw [(cpukinds_entry_tagged kinds e id d h1 h3).1 ht]
        intro _
        simp only [cpukind_add]
        cases kinds.E.compatible <;> simp
      · by_cases ht2 : tagged 80 e = true
        · obtain ⟨id, d, h1, h3⟩ := tagged_reads 80 e ht2
          rw [(cpukinds_entry_tagged kinds e id d h1 h3).2 ht2]
          exact hE
        · rw [cpukinds_entry_other kinds e (by simpa using ht) (by simpa using ht2)]
          exact hE

theorem cpukinds_outcome_eq (s : PlatformSnapshot)
    (hP : s.cpukinds_alloc_P = true) (hE : s.cpukinds_alloc_E = true) :
    hwloc_look_darwin_cpukinds s =
      { ret := 0
        registered :=
          register_cpukind (hwloc__look_darwin_cpukinds s.cpus cpukinds_init).2.P 1
            ++ register_cpukind (hwloc__look_darwin_cpukinds s.cpus cpukinds_init).2.E 0
        cpukind_efficiency :=
          !hwloc_bitmap_iszero (hwloc__look_darwin_cpukinds s.cpus cpukinds_init).2.P.cpuset
            || !hwloc_bitmap_iszero
                (hwloc__look_darwin_cpukinds s.cpus cpukinds_init).2.E.cpuset } := by
  simp [hwloc_look_darwin_cpukinds, hP, hE]

/-- C15: in `hwloc_look_darwin_cpukinds`, once both cpusets are allocated, a kind is
registered if and only if its cpuset is not empty after the enumeration: `P` with
efficiency 1 and `E` with efficiency 0, each at most once, with the cpuset of its bucket
and, as its only info pair, `DarwinCompatible` with the bucket's descriptor (which exists
whenever the cpuset is not empty); and the `cpukind_efficiency` flag is set if and only if
at least one kind is registered. -/
theorem cpukinds_registration (s : PlatformSnapshot)
    (hP : s.cpukinds_alloc_P = true) (hE : s.cpukinds_alloc_E = true) :
    (hwloc_look_darwin_cpukinds s).ret = 0
    ∧ ((∃ r ∈ (hwloc_look_darwin_cpukinds s).registered, r.forced_efficiency = 1)
        ↔ (hwloc__look_darwin_cpukinds s.cpus cpukinds_init).2.P.cpuset ≠ ∅)
    ∧ ((∃ r ∈ (hwloc_look_darwin_cpukinds s).registered, r.forced_efficiency = 0)
        ↔ (hwloc__look_darwin_cpukinds s.cpus cpukinds_init).2.E.cpuset ≠ ∅)
    ∧ (∀ r ∈ (hwloc_look_darwin_cpukinds s).registered,
        (r.forced_efficiency = 1
          ∧ r.cpuset = (hwloc__look_darwin_cpukinds s.cpus cpukinds_init).2.P.cpuset
          ∧ ∃ d, (hwloc__look_darwin_cpukinds s.cpus cpukinds_init).2.P.compatible = some d
              ∧ r.infos = [("DarwinCompatible", d)])
        ∨ (r.forced_efficiency = 0
          ∧ r.cpuset = (hwloc__look_darwin_cpukinds s.cpus cpukinds_init).2.E.cpuset
          ∧ ∃ d, (hwloc__look_darwin_cpukinds s.cpus cpukinds_init).2.E.compatible = some d
              ∧ r.infos = [("DarwinCompatible", d)]))
    ∧ ((hwloc_look_darwin_cpukinds s).registered.map
          (fun r => r.forced_efficiency)).Pairwise (fun a b => b < a)
    ∧ ((hwloc_look_darwin_cpukinds s).cpukind_efficiency = true
        ↔ (hwloc_look_darwin_cpukinds s).registered ≠ []) := by
  have hex : ((hwloc__look_darwin_cpukinds s.cpus cpukinds_init).2.P.cpuset ≠ ∅ →
        (hwloc__look_darwin_cpukinds s.cpus cpukinds_init).2.P.compatible ≠ none)
      ∧ ((hwloc__look_darwin_cpukinds s.cpus cpukinds_init).2.E.cpuset ≠ ∅ →
        (hwloc__look_darwin_cpukinds s.cpus cpukinds_init).2.E.compatible ≠ none) := by
    cases hc : s.cpus with
    | none => simp [hwloc__look_darwin_cpukinds, cpukinds_init, hwloc_bitmap_alloc]
    | some entries =>
      exact cpukinds_fold_descriptor_exists entries cpukinds_init
        (by simp [cpukinds_init, hwloc_bitmap_alloc])
        (by simp [cpukinds_init, hwloc_bitmap_alloc])
  rw [cpukinds_outcome_eq s hP hE]
  generalize (hwloc__look_darwin_cpukinds s.cpus cpukinds_init).2 = kinds at hex ⊢
  obtain ⟨hexP, hexE⟩ := hex
  simp only [register_cpukind, hwloc_bitmap_iszero]
  by_cases h1 : kinds.P.cpuset = ∅ <;> by_cases h2 : kinds.E.cpuset = ∅
  · simp [h1, h2]
  · obtain ⟨d, hd⟩ := Option.ne_none_iff_exists'.mp (hexE h2)
    simp [h1, h2, hd]
  · obtain ⟨d, hd⟩ := Option.ne_none_iff_exists'.mp (hexP h1)
    simp [h1, h2, hd]
  · obtain ⟨d, hd⟩ := Option.ne_none_iff_exists'.mp (hexP h1)
    obtain ⟨d2, hd2⟩ := Option.ne_none_iff_exists'.mp (hexE h2)
    simp [h1, h2, hd, hd2]

/-- Witness of C15: the heterogeneous machine registers `P` with efficiency 1 and the
descriptor `perf-core`, then `E` with efficiency 0 and `eff-core`, and sets the flag. -/
theorem cpukinds_registration_witness :
    snapshot_hybrid.cpukinds_alloc_P = true ∧ snapshot_hybrid.cpukinds_alloc_E = true
    ∧ (hwloc_look_darwin_cpukinds snapshot_hybrid).registered.map (fun r => r.cpuset)
        = [{0, 1, 2}, {3, 4}]
    ∧ (hwloc_look_darwin_cpukinds snapshot_hybrid).registered.map
          (fun r => (r.forced_efficiency, r.infos))
        = [(1, [("DarwinCompatible", perf_core)]), (0, [("DarwinCompatible", eff_core)])]
    ∧ ((hwloc_look_darwin_cpukinds snapshot_hybrid).cpukind_efficiency = true
        ↔ (hwloc_look_darwin_cpukinds snapshot_hybrid).registered ≠ []) :=
  ⟨rfl, rfl, by decide, by decide,
    (cpukinds_registration snapshot_hybrid rfl rfl).2.2.2.2.2⟩

theorem malformed_not_well_formed (e : cpu_entry) (h : malformed e = true) :
    well_formed e = false := by
  unfold malformed at h
  unfold well_formed
  simp only [Bool.or_eq_true] at h
  rcases h with (h | h) | h
  · have : read_logical_cpu_id e = none := by
      unfold read_logical_cpu_id
      cases hq : e.logical_cpu_id with
      | none => rfl
      | some p =>
        cases p with
        | number v => simp [hq] at h
        | data b => rfl
        | other => rfl
    simp [this]
  · have : read_cluster_type e = none := by
      unfold read_cluster_type
      cases hq : e.cluster_type with
      | none => rfl
      | some p =>
        cases p with
        | number v => rfl
        | other => rfl
        | data b =>
          simp only [hq, Bool.or_eq_true, decide_eq_true_eq] at h
          rcases h with h | h
          · simp [h]
          · show (if b.length < 2 then none
                else if b.getD 1 0 = 0 then some (b.getD 0 0) else none) = none
            rw [if_neg h]
            split <;> rfl
    simp [this]
  · have : read_compatible e = none := by
      unfold read_compatible
      cases hq : e.compatible with
      | none => rfl
      | some p =>
        cases p with
        | number v => rfl
        | other => rfl
        | data b =>
          simp only [hq, List.isEmpty_iff] at h
          subst h
          simp [join_segments]
    simp [this]

theorem foldl_filter_skip (keep : cpu_entry → Bool)
    (hskip : ∀ kinds e, keep e = false → cpukinds_entry kinds e = kinds)
    (entries : List cpu_entry) :
    ∀ kinds, (entries.filter keep).foldl cpukinds_entry kinds
      = entries.foldl cpukinds_entry kinds := by
  induction entries with
  | nil => intro kinds; rfl
  | cons e rest ih =>
    intro kinds
    cases hk : keep e with
    | true => rw [List.filter_cons_of_pos hk, List.foldl_cons, List.foldl_cons, ih]
    | false =>
      rw [List.filter_cons_of_neg (by simp [hk]), List.foldl_cons, hskip kinds e hk, ih]

/-- C16: for every sequence of per-processor records, `hwloc__look_darwin_cpukinds` yields
the same cpusets and descriptors as on the sequence with every malformed record removed
(malformed in the words of the design, and also in the wider sense of any record that is
not well formed). A malformed record leaves both buckets as they are, so that removing it
from any place of the sequence changes nothing for the records that follow. -/
theorem cpukinds_malformed_skipped (entries : List cpu_entry) (kinds : hwloc_darwin_cpukinds) :
    hwloc__look_darwin_cpukinds (some (entries.filter (fun e => !malformed e))) kinds
        = hwloc__look_darwin_cpukinds (some entries) kinds
    ∧ hwloc__look_darwin_cpukinds (some (entries.filter well_formed)) kinds
        = hwloc__look_darwin_cpukinds (some entries) kinds
    ∧ (∀ e, malformed e = true → cpukinds_entry kinds e = kinds)
    ∧ (∀ e, well_formed e = false → cpukinds_entry kinds e = kinds)
    ∧ (∀ before e after, entries = before ++ e :: after → malformed e = true →
        hwloc__look_darwin_cpukinds (some entries) kinds
          = hwloc__look_darwin_cpukinds (some (before ++ after)) kinds) := by
  refine ⟨?_, ?_, ?_, ?_, ?_⟩
  · simp only [hwloc__look_darwin_cpukinds]
    rw [foldl_filter_skip (fun e => !malformed e) ?_ entries kinds]
    intro k e he
    exact cpukinds_entry_skip k e (malformed_not_well_formed e (by simpa using he))
  · simp only [hwloc__look_darwin_cpukinds]
    rw [foldl_filter_skip well_formed (fun k e he => cpukinds_entry_skip k e he) entries kinds]
  · intro e he
    exact cpukinds_entry_skip kinds e (malformed_not_well_formed e he)
  · intro e he
    exact cpukinds_entry_skip kinds e he
  · intro before e after hent he
    simp only [hwloc__look_darwin_cpukinds, hent, List.foldl_append, List.foldl_cons]
    rw [cpukinds_entry_skip _ e (malformed_not_well_formed e he)]

/-- Witness of C16: a record without `cluster-type` placed before the last record of the
machine of the design is skipped, and the records after it are processed. -/
theorem cpukinds_malformed_skipped_witness :
    malformed cpu_record_untyped = true
    ∧ hwloc__look_darwin_cpukinds
        (some ([cpu_record 0 80 (perf_core ++ [0]), cpu_record_untyped,
          cpu_record 3 69 (eff_core ++ [0])])) cpukinds_init
      = hwloc__look_darwin_cpukinds
        (some ([cpu_record 0 80 (perf_core ++ [0])] ++ [cpu_record 3 69 (eff_core ++ [0])]))
        cpukinds_init :=
  ⟨by decide,
    (cpukinds_malformed_skipped
      [cpu_record 0 80 (perf_core ++ [0]), cpu_record_untyped,
        cpu_record 3 69 (eff_core ++ [0])] cpukinds_init).2.2.2.2
      [cpu_record 0 80 (perf_core ++ [0])] cpu_record_untyped
      [cpu_record 3 69 (eff_core ++ [0])] rfl (by decide)⟩

theorem join_segments_nonzero (t : List Nat) :
    ∀ s : List Nat, (∀ c ∈ s, c ≠ 0) → join_segments (s ++ t) = s ++ join_segments t := by
  intro s
  induction s with
  | nil => intro _; rfl
  | cons c s ih =>
    intro h
    have hc : c ≠ 0 := h c (List.mem_cons_self c s)
    have hs : ∀ x ∈ s, x ≠ 0 := fun x hx => h x (List.mem_cons_of_mem c hx)
    rw [List.cons_append, join_segments, ih hs]
    simp [hc]

theorem segments_blob_cons (seg : List Nat) (rest : List (List Nat)) :
    segments_blob (seg :: rest) = seg ++ 0 :: segments_blob rest := by
  simp [segments_blob, List.flatMap_cons]

theorem intercalate_cons_cons (sep a b : List Nat) (rest : List (List Nat)) :
    List.intercalate sep (a :: b :: rest) = a ++ sep ++ List.intercalate sep (b :: rest) := by
  simp [List.intercalate, List.intersperse]

theorem intercalate_singleton (sep a : List Nat) : List.intercalate sep [a] = a := by
  simp [List.intercalate, List.intersperse]

theorem join_segments_blob (segments : List (List Nat)) :
    segments ≠ [] → (∀ seg ∈ segments, seg ≠ [] ∧ ∀ c ∈ seg, c ≠ 0) →
    join_segments (segments_blob segments) = List.intercalate [59] segments ++ [0] := by
  induction segments with
  | nil => intro h; exact absurd rfl h
  | cons seg rest ih =>
    intro _ hall
    have hseg := hall seg (List.mem_cons_self seg rest)
    rw [segments_blob_cons, join_segments_nonzero _ seg hseg.2]
    cases rest with
    | nil =>
      rw [intercalate_singleton]
      simp [segments_blob, join_segments]
    | cons seg2 rest2 =>
      have hrest : ∀ x ∈ seg2 :: rest2, x ≠ [] ∧ ∀ c ∈ x, c ≠ 0 :=
        fun x hx => hall x (List.mem_cons_of_mem seg hx)
      have ih2 := ih (by simp) hrest
      have hseg2 := hrest seg2 (List.mem_cons_self seg2 rest2)
      have hhead : (segments_blob (seg2 :: rest2)).headD 0 ≠ 0 := by
        rw [segments_blob_cons]
        cases hs : seg2 with
        | nil => exact absurd hs hseg2.1
        | cons c cs =>
          rw [hs] at hseg2
          simpa using hseg2.2 c (List.mem_cons_self c cs)
      rw [join_segments, ih2, intercalate_cons_cons]
      rw [if_pos ⟨rfl, hhead⟩]
      simp

theorem intercalate_nonzero (segments : List (List Nat)) :
    (∀ seg ∈ segments, seg ≠ [] ∧ ∀ c ∈ seg, c ≠ 0) →
    ∀ c ∈ List.intercalate [59] segments, c ≠ 0 := by
  induction segments with
  | nil => intro _ c hc; simp [List.intercalate, List.intersperse] at hc
  | cons seg rest ih =>
    intro hall c hc
    have hseg := hall seg (List.mem_cons_self seg rest)
    cases rest with
    | nil =>
      rw [intercalate_singleton] at hc
      exact hseg.2 c hc
    | cons seg2 rest2 =>
      rw [intercalate_cons_cons, List.mem_append, List.mem_append] at hc
      rcases hc with (hc | hc) | hc
      · exact hseg.2 c hc
      · simp at hc; omega
      · exact ih (fun x hx => hall x (List.mem_cons_of_mem seg hx)) c hc

theorem c_string_terminated (text : List Nat) (h : ∀ c ∈ text, c ≠ 0) :
    c_string (text ++ [0]) = text := by
  unfold c_string
  induction text with
  | nil => simp
  | cons c rest ih =>
    have hc : c ≠ 0 := h c (List.mem_cons_self c rest)
    rw [List.cons_append, List.takeWhile_cons]
    simp only [hc, ne_eq, not_false_eq_true, decide_True, if_true]
    rw [ih (fun x hx => h x (List.mem_cons_of_mem c hx))]

/-- C17: for every `compatible` blob made of `k >= 1` non-empty NUL-terminated segments
`s1, ..., sk`, none of which holds a NUL byte, of total length at most 128 bytes, the
descriptor computed by the enumeration is `s1;s2;...;sk`: the segments in order, joined by
single semicolons (the byte 59), with no leading or trailing separator; for `k = 1` it is
`s1` itself. -/
theorem compatible_joined (segments : List (List Nat)) (e : cpu_entry)
    (hk : segments ≠ [])
    (hseg : ∀ seg ∈ segments, seg ≠ [] ∧ ∀ c ∈ seg, c ≠ 0)
    (hlen : (segments_blob segments).length ≤ 128)
    (he : e.compatible = some (CFProperty.data (segments_blob segments))) :
    read_compatible e = some (List.intercalate [59] segments)
    ∧ (∀ seg, segments = [seg] → read_compatible e = some seg) := by
  have hmod : (segments_blob segments).length % UINT_MODULUS
      = (segments_blob segments).length :=
    Nat.mod_eq_of_lt (by unfold UINT_MODULUS; omega)
  have htake : (segments_blob segments).take
      (min ((segments_blob segments).length % UINT_MODULUS) HWLOC_DARWIN_COMPATIBLE_MAX)
      = segments_blob segments := by
    rw [hmod, Nat.min_eq_left (by unfold HWLOC_DARWIN_COMPATIBLE_MAX; exact hlen)]
    exact List.take_length _
  have hjoin := join_segments_blob segments hk hseg
  have hnz := intercalate_nonzero segments hseg
  have hne : List.intercalate [59] segments ≠ [] := by
    cases segments with
    | nil => exact absurd rfl hk
    | cons seg rest =>
      have h1 := (hseg seg (List.mem_cons_self seg rest)).1
      cases rest with
      | nil => rw [intercalate_singleton]; exact h1
      | cons seg2 rest2 =>
        rw [intercalate_cons_cons]
        simp [h1]
  have hmain : read_compatible e = some (List.intercalate [59] segments) := by
    unfold read_compatible
    simp only [he, htake, hjoin]
    cases hi : List.intercalate [59] segments with
    | nil => exact absurd hi hne
    | cons c cs =>
      have hc : c ≠ 0 := hnz c (by rw [hi]; exact List.mem_cons_self c cs)
      have hcs := c_string_terminated (c :: cs) (by rw [← hi]; exact hnz)
      simp only [List.cons_append, List.headD_cons, hc, if_false]
      rw [← List.cons_append, hcs]
  refine ⟨hmain, ?_⟩
  intro seg hs
  rw [hmain, hs, intercalate_singleton]

/-- Witness of C17: the blob `perf-core\0eff-core\0` gives the descriptor
`perf-core;eff-core`. -/
theorem compatible_joined_witness :
    (cpu_record 0 80 (segments_blob [perf_core, eff_core])).compatible
        = some (CFProperty.data (segments_blob [perf_core, eff_core]))
    ∧ (segments_blob [perf_core, eff_core]).length ≤ 128
    ∧ read_compatible (cpu_record 0 80 (segments_blob [perf_core, eff_core]))
        = some (perf_core ++ [59] ++ eff_core) :=
  ⟨rfl, by decide,
    (compatible_joined [perf_core, eff_core]
      (cpu_record 0 80 (segments_blob [perf_core, eff_core])) (by decide) (by decide)
      (by decide) rfl).1⟩

theorem levels_without_linesize (topology : hwloc_topology) (s : PlatformSnapshot)
    (h : s.hw_cachelinesize = none) :
    (hwloc_look_darwin topology s).map Discovery.levels
      = (hwloc_look_darwin topology { s with hw_cachelinesize := some 0 }).map
          Discovery.levels := by
  cases s
  simp only at h
  subst h
  rfl

theorem cachelinesize_unavailable (s : PlatformSnapshot) (h : s.hw_cachelinesize = none) :
    cachelinesize s = 0 := by
  simp [cachelinesize, sysctl_or_zero, h]

/-! ## Cache line size -/

/-- C11, refuted as stated: in the truncation scenario without `hw.cachelinesize` the cache
of the first level-1 group has the line size 0, and the pass builds exactly the levels it
builds when the platform reports a line size of zero. -/
theorem linesize_marker_refuted :
    snapshot_caches_noline.hw_cachelinesize = none
    ∧ snapshot_caches_zeroline.hw_cachelinesize = some 0
    ∧ ∃ d d0, hwloc_look_darwin topology_keep_all snapshot_caches_noline = some d
      ∧ hwloc_look_darwin topology_keep_all snapshot_caches_zeroline = some d0
      ∧ (∃ gs g c, d.levels[1]? = some gs ∧ g ∈ gs
          ∧ g.obj.attr = hwloc_obj_attr_u.cache c ∧ c.linesize = 0)
      ∧ d.levels = d0.levels :=
  ⟨rfl, rfl, _, _, rfl, rfl,
    ⟨look_level topology_keep_all snapshot_caches_noline 8 [4, 2, 8, 0, 3]
        (cachesize snapshot_caches_noline 5) 1,
      look_group topology_keep_all snapshot_caches_noline [4, 2, 8, 0, 3]
        (cachesize snapshot_caches_noline 5) 1 0,
      _, rfl, List.mem_map.mpr ⟨0, by decide, rfl⟩, rfl, rfl⟩,
    rfl⟩

/-- C11, amended: when `hw.cachelinesize` is unavailable, every cache object that a pass
which returns builds (data, unified and instruction) has the line size 0, and the pass
does as when the platform reports a line size of zero: it returns in the same cases, with
the same levels. -/
theorem linesize_unavailable_is_zero (topology : hwloc_topology) (s : PlatformSnapshot)
    (h : s.hw_cachelinesize = none) :
    (∀ (d : Discovery) (i : Nat) (gs : List cache_group) (g : cache_group),
        hwloc_look_darwin topology s = some d → d.levels[i]? = some gs → g ∈ gs →
        (∀ c, g.obj.attr = hwloc_obj_attr_u.cache c → c.linesize = 0)
        ∧ (∀ (o : hwloc_obj) (c : hwloc_cache_attr_s), g.l1i = some o →
            o.attr = hwloc_obj_attr_u.cache c → c.linesize = 0))
    ∧ (hwloc_look_darwin topology s).map Discovery.levels
        = (hwloc_look_darwin topology { s with hw_cachelinesize := some 0 }).map
            Discovery.levels := by
  refine ⟨?_, levels_without_linesize topology s h⟩
  intro d i gs g hd hgs hg
  obtain ⟨n, raw, hroot, hn, hraw, hmalloc⟩ := pass_level_inv topology s i gs d hd hgs
  obtain ⟨_, _, hgroups⟩ :=
    pass_level_groups topology s n raw i gs d hroot hn hraw hmalloc hd hgs
  rw [hgroups, List.mem_map] at hg
  obtain ⟨j, _, rfl⟩ := hg
  have hz : to_unsigned (cachelinesize s) = 0 := by
    rw [cachelinesize_unavailable s h]
    decide
  constructor
  · intro c hc
    simp only [look_group, level_obj] at hc
    split at hc
    · simp at hc
    · simp only [hwloc_obj_attr_u.cache.injEq] at hc
      rw [← hc]
      exact hz
  · intro o c ho hc
    simp only [look_group] at ho
    split at ho
    · simp only [Option.some.injEq] at ho
      subst ho
      simp only [l1i_obj, hwloc_obj_attr_u.cache.injEq] at hc
      rw [← hc]
      exact hz
    · simp at ho

/-- Witness of C11 as amended: the truncation scenario without `hw.cachelinesize`. -/
theorem linesize_unavailable_is_zero_witness :
    snapshot_caches_noline.hw_cachelinesize = none
    ∧ (∃ d, hwloc_look_darwin topology_keep_all snapshot_caches_noline = some d)
    ∧ (hwloc_look_darwin topology_keep_all snapshot_caches_noline).map Discovery.levels
        = (hwloc_look_darwin topology_keep_all
            { snapshot_caches_noline with hw_cachelinesize := some 0 }).map
              Discovery.levels :=
  ⟨rfl, ⟨_, rfl⟩, (linesize_unavailable_is_zero topology_keep_all snapshot_caches_noline rfl).2⟩

/-! ## The return value of the pass -/

/-- The return value of `hwloc_look_darwin`. The pass does not return exactly when the root
has no cpuset, a processor count is obtained, the `unsigned` number of packages is zero and
neither `machdep.cpu.thread_count` nor `machdep.cpu.logical_per_package` is positive: the
division of line 404 is by zero. A pass that returns gives -1 if and only if the root
already has a cpuset or no positive processor count is obtainable (`hw.logicalcpu` is
unavailable or not positive and so is `hw.ncpu`), and 0 in every other case, whatever else
is unavailable; the processor count it uses is `hw.logicalcpu` when that is positive, else
`hw.ncpu` (stored in an `unsigned`). -/
theorem pass_return (topology : hwloc_topology) (s : PlatformSnapshot) :
    (hwloc_look_darwin topology s = none ↔
        (topology.root_cpuset = none ∧ (∃ n, nprocs s = some n) ∧ npackages s = some 0
          ∧ (∀ v, s.machdep_cpu_thread_count = some v → v ≤ 0)
          ∧ (∀ w, s.machdep_cpu_logical_per_package = some w → w ≤ 0)))
    ∧ (∀ d, hwloc_look_darwin topology s = some d →
        (d.ret = -1 ↔
          (topology.root_cpuset ≠ none
            ∨ ((∀ v, s.hw_logicalcpu = some v → v ≤ 0) ∧ (∀ w, s.hw_ncpu = some w → w ≤ 0))))
        ∧ (d.ret = 0 ↔
          ¬ (topology.root_cpuset ≠ none
            ∨ ((∀ v, s.hw_logicalcpu = some v → v ≤ 0)
                ∧ (∀ w, s.hw_ncpu = some w → w ≤ 0)))))
    ∧ (topology.root_cpuset = none → ∀ v, s.hw_logicalcpu = some v → 0 < v →
        nprocs s = some (to_unsigned v)
          ∧ ∀ d, hwloc_look_darwin topology s = some d → d.pu_level = some (to_unsigned v))
    ∧ (topology.root_cpuset = none → (∀ v, s.hw_logicalcpu = some v → v ≤ 0) →
        ∀ w, s.hw_ncpu = some w → 0 < w →
        nprocs s = some (to_unsigned w)
          ∧ ∀ d, hwloc_look_darwin topology s = some d →
              d.pu_level = some (to_unsigned w)) := by
  have hnone : nprocs s = none ↔
      ((∀ v, s.hw_logicalcpu = some v → v ≤ 0) ∧ (∀ w, s.hw_ncpu = some w → w ≤ 0)) := by
    unfold nprocs _nprocs
    cases h1 : s.hw_logicalcpu with
    | none =>
      cases h2 : s.hw_ncpu with
      | none => simp
      | some w =>
        by_cases hw : 0 < w
        · simp [hw]
        · simp [hw, not_lt.mp hw]
    | some v =>
      by_cases hv : 0 < v
      · simp [hv]
      · cases h2 : s.hw_ncpu with
        | none => simp [hv, not_lt.mp hv]
        | some w =>
          by_cases hw : 0 < w
          · simp [hv, hw]
          · simp [hv, hw, not_lt.mp hv, not_lt.mp hw]
  have hblock : ∀ n, look_package_block topology s n = none ↔
      (npackages s = some 0
        ∧ (∀ v, s.machdep_cpu_thread_count = some v → v ≤ 0)
        ∧ (∀ w, s.machdep_cpu_logical_per_package = some w → w ≤ 0)) := by
    intro n
    cases hnp : npackages s with
    | none => simp [look_package_block, hnp]
    | some np =>
      have hiff := logical_per_package_eq_none s n np
      cases hlpp : logical_per_package s n np with
      | none =>
        obtain ⟨h1, h2, h0⟩ := hiff.mp hlpp
        subst h0
        constructor
        · intro _
          exact ⟨rfl, h1, h2⟩
        · intro _
          simp [look_package_block, hnp, hlpp]
      | some lpp =>
        rw [hlpp] at hiff
        constructor
        · intro h
          simp [look_package_block, hnp, hlpp] at h
        · rintro ⟨h0, h1, h2⟩
          simp only [Option.some.injEq] at h0
          exact absurd (hiff.mpr ⟨h1, h2, h0⟩) (by simp)
  refine ⟨?_, ?_, ?_, ?_⟩
  · cases hroot : topology.root_cpuset with
    | some b => simp [hwloc_look_darwin, hroot]
    | none =>
      cases hn : nprocs s with
      | none => simp [hwloc_look_darwin, hroot, hn]
      | some n =>
        have hb := hblock n
        cases hlb : look_package_block topology s n with
        | none =>
          rw [hlb] at hb
          obtain ⟨h0, h1, h2⟩ := hb.mp rfl
          constructor
          · intro _
            exact ⟨rfl, ⟨n, rfl⟩, h0, h1, h2⟩
          · intro _
            simp [hwloc_look_darwin, hroot, hn, hlb]
        | some block =>
          rw [hlb] at hb
          constructor
          · intro h
            simp [hwloc_look_darwin, hroot, hn, hlb] at h
          · rintro ⟨_, _, h⟩
            exact absurd (hb.mpr h) (by simp)
  · intro d hd
    rw [← hnone]
    cases hroot : topology.root_cpuset with
    | some b =>
      simp [hwloc_look_darwin, hroot] at hd
      subst hd
      simp
    | none =>
      cases hn : nprocs s with
      | none =>
        simp [hwloc_look_darwin, hroot, hn] at hd
        subst hd
        simp
      | some n =>
        obtain ⟨_, _, hret, _⟩ := pass_block topology s n d hroot hn hd
        simp [hret]
  · intro hroot v hv hpos
    have hn : nprocs s = some (to_unsigned v) := by
      simp [nprocs, _nprocs, hv, hpos]
    refine ⟨hn, ?_⟩
    intro d hd
    exact (pass_block topology s _ d hroot hn hd).choose_spec.2.2.2.2.2
  · intro hroot hlog w hw hpos
    have hn : nprocs s = some (to_unsigned w) := by
      unfold nprocs _nprocs
      cases h1 : s.hw_logicalcpu with
      | none => simp [hw, hpos]
      | some v => simp [not_lt.mpr (hlog v h1), hw, hpos]
    refine ⟨hn, ?_⟩
    intro d hd
    exact (pass_block topology s _ d hroot hn hd).choose_spec.2.2.2.2.2

/-- The heterogeneous platform reports 5 logical processors and nothing about packages,
cores, caches or memory; the pass returns 0 and builds 5 processing units. -/
theorem pass_return_witness :
    topology_keep_all.root_cpuset = none
    ∧ snapshot_hybrid.hw_logicalcpu = some 5
    ∧ ∃ d, hwloc_look_darwin topology_keep_all snapshot_hybrid = some d
      ∧ d.ret = 0
      ∧ d.pu_level = some (to_unsigned 5) :=
  ⟨rfl, rfl, _, rfl,
    ((pass_return topology_keep_all snapshot_hybrid).2.1 _ rfl).2.mpr (by
      intro h
      rcases h with h | h
      · exact h rfl
      · exact absurd (h.1 5 rfl) (by decide)),
    ((pass_return topology_keep_all snapshot_hybrid).2.2.1 rfl 5 rfl (by decide)).2 _ rfl⟩

/-- C18, evaluated at the failing input: a platform that reports 4 logical processors and
`2^32` packages, and neither `machdep.cpu.thread_count` nor
`machdep.cpu.logical_per_package`. The root has no cpuset and the processor count 4 is
positive, so the claim has the pass report success. The number of packages is stored as 0
in an `unsigned`, the two queries of lines 394 and 397 fail, and line 404 divides 4 by 0:
the pass does not return, neither with 0 nor with -1. -/
theorem pass_divides_by_zero :
    topology_keep_all.root_cpuset = none
    ∧ snapshot_zero_packages.hw_logicalcpu = some 4
    ∧ nprocs snapshot_zero_packages = some 4
    ∧ snapshot_zero_packages.hw_packages = some 4294967296
    ∧ npackages snapshot_zero_packages = some 0
    ∧ snapshot_zero_packages.machdep_cpu_thread_count = none
    ∧ snapshot_zero_packages.machdep_cpu_logical_per_package = none
    ∧ logical_per_package snapshot_zero_packages 4 0 = none
    ∧ hwloc_look_darwin topology_keep_all snapshot_zero_packages = none
    ∧ ¬ (∃ d, hwloc_look_darwin topology_keep_all snapshot_zero_packages = some d
          ∧ d.ret = 0) := by
  have hnone : hwloc_look_darwin topology_keep_all snapshot_zero_packages = none := rfl
  refine ⟨rfl, rfl, by decide, rfl, by decide, rfl, rfl, by decide, hnone, ?_⟩
  rintro ⟨d, hd, _⟩
  rw [hnone] at hd
  exact absurd hd (by simp)

/-! ## Allocation failure in the core kinds -/

/-- C19, refuted as stated: when the allocation of the `P` cpuset fails,
`hwloc_look_darwin_cpukinds` returns -1 with nothing registered, yet `hwloc_look_darwin`
returns 0, not a failure. -/
theorem alloc_failure_pass_refuted :
    snapshot_alloc_failure.cpukinds_alloc_P = false
    ∧ (hwloc_look_darwin_cpukinds snapshot_alloc_failure).ret = -1
    ∧ ∃ d, hwloc_look_darwin topology_keep_all snapshot_alloc_failure = some d
      ∧ d.ret = 0
      ∧ d.ret ≠ -1 := by
  refine ⟨rfl, by decide, _, rfl, by decide, by decide⟩

/-- C19, amended: if allocating the `P` or the `E` cpuset fails,
`hwloc_look_darwin_cpukinds` returns -1 with nothing registered and the flag not set;
`hwloc_look_darwin` ignores that value: a pass that returns has registered no kind and left
the flag unset, and the pass still returns 0 whenever the root had no cpuset, a processor
count was obtained and line 404 does not divide by zero. -/
theorem alloc_failure_ignored (topology : hwloc_topology) (s : PlatformSnapshot)
    (h : s.cpukinds_alloc_P = false ∨ s.cpukinds_alloc_E = false) :
    (hwloc_look_darwin_cpukinds s).ret = -1
    ∧ (hwloc_look_darwin_cpukinds s).registered = []
    ∧ (hwloc_look_darwin_cpukinds s).cpukind_efficiency = false
    ∧ (∀ d, hwloc_look_darwin topology s = some d →
        d.cpukinds = [] ∧ d.support_cpukind_efficiency = false)
    ∧ (topology.root_cpuset = none → ∀ n, nprocs s = some n →
        (∀ np, npackages s = some np → logical_per_package s n np ≠ none) →
        ∃ d, hwloc_look_darwin topology s = some d ∧ d.ret = 0) := by
  have hcond : (!s.cpukinds_alloc_P || !s.cpukinds_alloc_E) = true := by
    rcases h with h | h <;> simp [h]
  have hout : hwloc_look_darwin_cpukinds s
      = { ret := -1, registered := [], cpukind_efficiency := false } := by
    unfold hwloc_look_darwin_cpukinds
    rw [if_pos hcond]
  refine ⟨by rw [hout], by rw [hout], by rw [hout], ?_, ?_⟩
  · intro d hd
    cases hroot : topology.root_cpuset with
    | some b =>
      simp [hwloc_look_darwin, hroot] at hd
      subst hd
      exact ⟨rfl, rfl⟩
    | none =>
      cases hn : nprocs s with
      | none =>
        simp [hwloc_look_darwin, hroot, hn] at hd
        subst hd
        exact ⟨rfl, rfl⟩
      | some n =>
        cases hb : look_package_block topology s n with
        | none => simp [hwloc_look_darwin, hroot, hn, hb] at hd
        | some block =>
          simp [hwloc_look_darwin, hroot, hn, hb] at hd
          subst hd
          simp [hout]
  · intro hroot n hn hdiv
    obtain ⟨d, hd⟩ := pass_returns topology s n hroot hn hdiv
    exact ⟨d, hd, (pass_block topology s n d hroot hn hd).choose_spec.2.1⟩

/-- Witness of C19 as amended: the heterogeneous platform on which the allocation of the
`P` cpuset fails. -/
theorem alloc_failure_ignored_witness :
    snapshot_alloc_failure.cpukinds_alloc_P = false
    ∧ (hwloc_look_darwin_cpukinds snapshot_alloc_failure).registered = []
    ∧ ∃ d, hwloc_look_darwin topology_keep_all snapshot_alloc_failure = some d
      ∧ d.ret = 0 :=
  ⟨rfl, (alloc_failure_ignored topology_keep_all snapshot_alloc_failure (Or.inl rfl)).2.1,
    (alloc_failure_ignored topology_keep_all snapshot_alloc_failure
      (Or.inl rfl)).2.2.2.2 rfl 5 (by decide) (fun _ h => by cases h)⟩

/-! ## Auxiliary facts on the insertion by cpuset -/

theorem partial_overlap_iff (a b : hwloc_bitmap_t) :
    partial_overlap a b = true ↔ ¬ Disjoint a b ∧ ¬ a ⊆ b ∧ ¬ b ⊆ a := by
  simp [partial_overlap, and_assoc]

theorem any_partial_overlap_iff (proposed : hwloc_bitmap_t) (tree : hwloc_tree) :
    any_partial_overlap proposed tree = true
      ↔ ∃ s ∈ siblings tree, partial_overlap proposed s.cpuset = true := by
  induction tree with
  | nil => simp [any_partial_overlap, siblings]
  | node obj first_child next_sibling _ ih =>
    simp [any_partial_overlap, siblings, ih]

theorem siblings_rehomed (proposed : hwloc_bitmap_t) (tree : hwloc_tree) (x : hwloc_obj) :
    x ∈ siblings (rehomed proposed tree) ↔ x ∈ siblings tree ∧ x.cpuset ⊆ proposed := by
  induction tree with
  | nil => simp [rehomed, siblings]
  | node obj first_child next_sibling _ ih =>
    rw [rehomed]
    by_cases h : obj.cpuset ⊆ proposed
    · rw [if_pos h]
      simp only [siblings, List.mem_cons, ih]
      constructor
      · rintro (rfl | ⟨h1, h2⟩)
        · exact ⟨Or.inl rfl, h⟩
        · exact ⟨Or.inr h1, h2⟩
      · rintro ⟨rfl | h1, h2⟩
        · exact Or.inl rfl
        · exact Or.inr ⟨h1, h2⟩
    · rw [if_neg h, ih]
      simp only [siblings, List.mem_cons]
      constructor
      · rintro ⟨h1, h2⟩
        exact ⟨Or.inr h1, h2⟩
      · rintro ⟨rfl | h1, h2⟩
        · exact absurd h2 h
        · exact ⟨h1, h2⟩

theorem siblings_remaining (proposed : hwloc_bitmap_t) (tree : hwloc_tree) (x : hwloc_obj) :
    x ∈ siblings (remaining proposed tree) ↔ x ∈ siblings tree ∧ ¬ x.cpuset ⊆ proposed := by
  induction tree with
  | nil => simp [remaining, siblings]
  | node obj first_child next_sibling _ ih =>
    rw [remaining]
    by_cases h : obj.cpuset ⊆ proposed
    · rw [if_pos h, ih]
      simp only [siblings, List.mem_cons]
      constructor
      · rintro ⟨h1, h2⟩
        exact ⟨Or.inr h1, h2⟩
      · rintro ⟨rfl | h1, h2⟩
        · exact absurd h h2
        · exact ⟨h1, h2⟩
    · rw [if_neg h]
      simp only [siblings, List.mem_cons, ih]
      constructor
      · rintro (rfl | ⟨h1, h2⟩)
        · exact ⟨Or.inl rfl, h⟩
        · exact ⟨Or.inr h1, h2⟩
      · rintro ⟨rfl | h1, h2⟩
        · exact Or.inl rfl
        · exact Or.inr ⟨h1, h2⟩

theorem all_objects_rehomed (proposed : hwloc_bitmap_t) (tree : hwloc_tree) (x : hwloc_obj)
    (h : x ∈ all_objects (rehomed proposed tree)) : x ∈ all_objects tree := by
  induction tree with
  | nil => simpa [rehomed] using h
  | node obj first_child next_sibling _ ih =>
    rw [rehomed] at h
    by_cases hs : obj.cpuset ⊆ proposed
    · rw [if_pos hs] at h
      simp only [all_objects, List.mem_cons, List.mem_append] at h ⊢
      rcases h with h | h | h
      · exact Or.inl h
      · exact Or.inr (Or.inl h)
      · exact Or.inr (Or.inr (ih h))
    · rw [if_neg hs] at h
      simp only [all_objects, List.mem_cons, List.mem_append]
      exact Or.inr (Or.inr (ih h))

theorem all_objects_remaining (proposed : hwloc_bitmap_t) (tree : hwloc_tree) (x : hwloc_obj)
    (h : x ∈ all_objects (remaining proposed tree)) : x ∈ all_objects tree := by
  induction tree with
  | nil => simpa [remaining] using h
  | node obj first_child next_sibling _ ih =>
    rw [remaining] at h
    by_cases hs : obj.cpuset ⊆ proposed
    · rw [if_pos hs] at h
      simp only [all_objects, List.mem_cons, List.mem_append]
      exact Or.inr (Or.inr (ih h))
    · rw [if_neg hs] at h
      simp only [all_objects, List.mem_cons, List.mem_append] at h ⊢
      rcases h with h | h | h
      · exact Or.inl h
      · exact Or.inr (Or.inl h)
      · exact Or.inr (Or.inr (ih h))

theorem nested_rehomed (proposed : hwloc_bitmap_t) (tree : hwloc_tree)
    (h : nested_and_disjoint tree) : nested_and_disjoint (rehomed proposed tree) := by
  induction tree with
  | nil => simpa [rehomed] using h
  | node obj first_child next_sibling _ ih =>
    obtain ⟨h1, h2, h3, h4⟩ := h
    rw [rehomed]
    by_cases hs : obj.cpuset ⊆ proposed
    · rw [if_pos hs]
      refine ⟨h1, ?_, h3, ih h4⟩
      intro beside hb
      exact h2 beside ((siblings_rehomed proposed next_sibling beside).mp hb).1
    · rw [if_neg hs]
      exact ih h4

theorem nested_remaining (proposed : hwloc_bitmap_t) (tree : hwloc_tree)
    (h : nested_and_disjoint tree) : nested_and_disjoint (remaining proposed tree) := by
  induction tree with
  | nil => simpa [remaining] using h
  | node obj first_child next_sibling _ ih =>
    obtain ⟨h1, h2, h3, h4⟩ := h
    rw [remaining]
    by_cases hs : obj.cpuset ⊆ proposed
    · rw [if_pos hs]
      exact ih h4
    · rw [if_neg hs]
      refine ⟨h1, ?_, h3, ih h4⟩
      intro beside hb
      exact h2 beside ((siblings_remaining proposed next_sibling beside).mp hb).1

theorem below_rehomed (proposed : hwloc_bitmap_t) (tree : hwloc_tree)
    (h : nested_and_disjoint tree) (x : hwloc_obj)
    (hx : x ∈ all_objects (rehomed proposed tree)) : x.cpuset ⊆ proposed := by
  induction tree with
  | nil => simp [rehomed, all_objects] at hx
  | node obj first_child next_sibling _ ih =>
    obtain ⟨h1, _, _, h4⟩ := h
    rw [rehomed] at hx
    by_cases hs : obj.cpuset ⊆ proposed
    · rw [if_pos hs] at hx
      simp only [all_objects, List.mem_cons, List.mem_append] at hx
      rcases hx with hx | hx | hx
      · rw [hx]; exact hs
      · exact (h1 x hx).trans hs
      · exact ih h4 hx
    · rw [if_neg hs] at hx
      exact ih h4 hx

theorem siblings_insert_ordered (obj : hwloc_obj) (children tree : hwloc_tree)
    (x : hwloc_obj) :
    x ∈ siblings (insert_ordered obj children tree) ↔ x = obj ∨ x ∈ siblings tree := by
  induction tree with
  | nil => simp [insert_ordered, siblings]
  | node sibling first_child next_sibling _ ih =>
    rw [insert_ordered]
    split
    · simp [siblings]
    · simp only [siblings, List.mem_cons, ih]
      tauto

theorem all_objects_insert_ordered (obj : hwloc_obj) (children tree : hwloc_tree)
    (x : hwloc_obj) :
    x ∈ all_objects (insert_ordered obj children tree)
      ↔ x = obj ∨ x ∈ all_objects children ∨ x ∈ all_objects tree := by
  induction tree with
  | nil => simp [insert_ordered, all_objects]
  | node sibling first_child next_sibling _ ih =>
    rw [insert_ordered]
    split
    · simp [all_objects]
    · simp only [all_objects, List.mem_cons, List.mem_append, ih]
      tauto

theorem nested_insert_ordered (obj : hwloc_obj) (children tree : hwloc_tree)
    (hbelow : ∀ below ∈ all_objects children, below.cpuset ⊆ obj.cpuset)
    (hchildren : nested_and_disjoint children)
    (hbeside : ∀ beside ∈ siblings tree, Disjoint obj.cpuset beside.cpuset)
    (htree : nested_and_disjoint tree) :
    nested_and_disjoint (insert_ordered obj children tree) := by
  induction tree with
  | nil => exact ⟨hbelow, by simp [siblings], hchildren, trivial⟩
  | node sibling first_child next_sibling _ ih =>
    obtain ⟨h1, h2, h3, h4⟩ := htree
    rw [insert_ordered]
    split
    · exact ⟨hbelow, hbeside, hchildren, h1, h2, h3, h4⟩
    · refine ⟨h1, ?_, h3, ih (fun b hb => hbeside b ?_) h4⟩
      · intro beside hb
        rcases (siblings_insert_ordered obj children next_sibling beside).mp hb with hb | hb
        · rw [hb]
          exact (hbeside sibling (by simp [siblings])).symm
        · exact h2 beside hb
      · simp only [siblings, List.mem_cons]
        exact Or.inr hb

theorem descend_none_iff (proposed : hwloc_obj) (tree : hwloc_tree) :
    descend proposed tree = none
      ↔ ∀ s ∈ siblings tree, ¬ proposed.cpuset ⊆ s.cpuset := by
  induction tree with
  | nil => simp [descend, siblings]
  | node obj first_child next_sibling _ ih =>
    rw [descend]
    by_cases h : proposed.cpuset ⊆ obj.cpuset
    · rw [if_pos h]
      constructor
      · intro hd
        exfalso
        split at hd
        · simp at hd
        · split at hd <;> simp at hd
      · intro hall
        exact absurd h (hall obj (by simp [siblings]))
    · rw [if_neg h]
      constructor
      · intro hd s hs
        simp only [siblings, List.mem_cons] at hs
        rcases hs with rfl | hs
        · exact h
        · cases hds : descend proposed next_sibling with
          | none => exact (ih.mp hds) s hs
          | some r => rw [hds] at hd; simp at hd
      · intro hall
        have : descend proposed next_sibling = none :=
          ih.mpr (fun s hs => hall s (by simp only [siblings, List.mem_cons]; exact Or.inr hs))
        rw [this]

theorem nested_insert_at_level (proposed : hwloc_obj) (level : hwloc_tree)
    (h : nested_and_disjoint level)
    (hnone : ∀ s ∈ siblings level, ¬ proposed.cpuset ⊆ s.cpuset) :
    nested_and_disjoint (insert_at_level proposed level).2
    ∧ (∀ x ∈ all_objects (insert_at_level proposed level).2,
        x = proposed ∨ x ∈ all_objects level) := by
  unfold insert_at_level
  by_cases hp : any_partial_overlap proposed.cpuset level = true
  · rw [if_pos hp]
    exact ⟨h, fun x hx => Or.inr hx⟩
  · rw [if_neg hp]
    constructor
    · apply nested_insert_ordered
      · exact fun b hb => below_rehomed proposed.cpuset level h b hb
      · exact nested_rehomed proposed.cpuset level h
      · intro beside hb
        obtain ⟨hb1, hb2⟩ := (siblings_remaining proposed.cpuset level beside).mp hb
        by_contra hdis
        apply hp
        rw [any_partial_overlap_iff]
        exact ⟨beside, hb1, (partial_overlap_iff _ _).mpr ⟨hdis, hnone beside hb1, hb2⟩⟩
      · exact nested_remaining proposed.cpuset level h
    · intro x hx
      rcases (all_objects_insert_ordered _ _ _ x).mp hx with hx | hx | hx
      · exact Or.inl hx
      · exact Or.inr (all_objects_rehomed _ _ x hx)
      · exact Or.inr (all_objects_remaining _ _ x hx)

theorem nested_descend (proposed : hwloc_obj) (tree : hwloc_tree) :
    nested_and_disjoint tree → ∀ r, descend proposed tree = some r →
      nested_and_disjoint r.2 ∧ siblings r.2 = siblings tree
        ∧ (∀ x ∈ all_objects r.2, x = proposed ∨ x ∈ all_objects tree) := by
  induction tree with
  | nil => intro _ r hr; simp [descend] at hr
  | node obj first_child next_sibling ihc ihs =>
    intro h r hr
    obtain ⟨h1, h2, h3, h4⟩ := h
    rw [descend] at hr
    by_cases hsub : proposed.cpuset ⊆ obj.cpuset
    · rw [if_pos hsub] at hr
      by_cases hdup : proposed.cpuset = obj.cpuset ∧ proposed.type = obj.type
      · rw [if_pos hdup] at hr
        simp only [Option.some.injEq] at hr
        subst hr
        exact ⟨⟨h1, h2, h3, h4⟩, rfl, fun x hx => Or.inr hx⟩
      · rw [if_neg hdup] at hr
        cases hd : descend proposed first_child with
        | some below =>
          rw [hd] at hr
          simp only [Option.some.injEq] at hr
          subst hr
          obtain ⟨hb1, _, hb3⟩ := ihc h3 below hd
          refine ⟨⟨?_, h2, hb1, h4⟩, rfl, ?_⟩
          · intro b hb
            rcases hb3 b hb with hb | hb
            · rw [hb]; exact hsub
            · exact h1 b hb
          · intro x hx
            simp only [all_objects, List.mem_cons, List.mem_append] at hx ⊢
            rcases hx with hx | hx | hx
            · exact Or.inr (Or.inl hx)
            · rcases hb3 x hx with hx | hx
              · exact Or.inl hx
              · exact Or.inr (Or.inr (Or.inl hx))
            · exact Or.inr (Or.inr (Or.inr hx))
        | none =>
          rw [hd] at hr
          simp only [Option.some.injEq] at hr
          subst hr
          obtain ⟨hb1, hb3⟩ := nested_insert_at_level proposed first_child h3
            ((descend_none_iff proposed first_child).mp hd)
          refine ⟨⟨?_, h2, hb1, h4⟩, rfl, ?_⟩
          · intro b hb
            rcases hb3 b hb with hb | hb
            · rw [hb]; exact hsub
            · exact h1 b hb
          · intro x hx
            simp only [all_objects, List.mem_cons, List.mem_append] at hx ⊢
            rcases hx with hx | hx | hx
            · exact Or.inr (Or.inl hx)
            · rcases hb3 x hx with hx | hx
              · exact Or.inl hx
              · exact Or.inr (Or.inr (Or.inl hx))
            · exact Or.inr (Or.inr (Or.inr hx))
    · rw [if_neg hsub] at hr
      cases hd : descend proposed next_sibling with
      | none => rw [hd] at hr; simp at hr
      | some beside =>
        rw [hd] at hr
        simp only [Option.some.injEq] at hr
        subst hr
        obtain ⟨hb1, hb2, hb3⟩ := ihs h4 beside hd
        refine ⟨⟨h1, ?_, h3, hb1⟩, ?_, ?_⟩
        · intro b hb
          rw [hb2] at hb
          exact h2 b hb
        · simp only [siblings, hb2]
        · intro x hx
          simp only [all_objects, List.mem_cons, List.mem_append] at hx ⊢
          rcases hx with hx | hx | hx
          · exact Or.inr (Or.inl hx)
          · exact Or.inr (Or.inr (Or.inl hx))
          · rcases hb3 x hx with hx | hx
            · exact Or.inl hx
            · exact Or.inr (Or.inr (Or.inr hx))

theorem nested_insert (tree : hwloc_tree) (proposed : hwloc_obj)
    (h : nested_and_disjoint tree) :
    nested_and_disjoint (hwloc__insert_object_by_cpuset tree proposed).2 := by
  unfold hwloc__insert_object_by_cpuset
  cases hd : descend proposed tree with
  | some found => exact (nested_descend proposed tree h found hd).1
  | none =>
    exact (nested_insert_at_level proposed tree h
      ((descend_none_iff proposed tree).mp hd)).1

theorem under_a_sibling (tree : hwloc_tree) (h : nested_and_disjoint tree) (x : hwloc_obj)
    (hx : x ∈ all_objects tree) : ∃ s ∈ siblings tree, x.cpuset ⊆ s.cpuset := by
  induction tree with
  | nil => simp [all_objects] at hx
  | node obj first_child next_sibling _ ihs =>
    obtain ⟨h1, _, _, h4⟩ := h
    simp only [all_objects, List.mem_cons, List.mem_append] at hx
    rcases hx with hx | hx | hx
    · exact ⟨obj, by simp [siblings], by rw [hx]⟩
    · exact ⟨obj, by simp [siblings], h1 x hx⟩
    · obtain ⟨s, hs, hsub⟩ := ihs h4 hx
      exact ⟨s, by simp only [siblings, List.mem_cons]; exact Or.inr hs, hsub⟩

theorem insert_at_level_conflict (proposed : hwloc_obj) (level : hwloc_tree)
    (h : any_partial_overlap proposed.cpuset level = true) :
    insert_at_level proposed level = (insert_result.StructuralConflict, level) := by
  unfold insert_at_level
  rw [if_pos h]

theorem insert_at_level_conflict_inv (proposed : hwloc_obj) (level : hwloc_tree)
    (h : insert_at_level proposed level = (insert_result.StructuralConflict, level)) :
    any_partial_overlap proposed.cpuset level = true := by
  unfold insert_at_level at h
  by_contra hp
  rw [if_neg hp] at h
  simp at h

theorem conflict_detected (proposed : hwloc_obj) (tree : hwloc_tree) :
    nested_and_disjoint tree →
    (∃ x ∈ all_objects tree, partial_overlap proposed.cpuset x.cpuset = true) →
    hwloc__insert_object_by_cpuset tree proposed
      = (insert_result.StructuralConflict, tree) := by
  induction tree with
  | nil => rintro _ ⟨x, hx, _⟩; simp [all_objects] at hx
  | node obj first_child next_sibling ihc ihs =>
    intro h hex
    obtain ⟨x, hx, hov⟩ := hex
    obtain ⟨hdis, hnsub, hnsup⟩ := (partial_overlap_iff _ _).mp hov
    obtain ⟨h1, h2, h3, h4⟩ := h
    simp only [all_objects, List.mem_cons, List.mem_append] at hx
    by_cases hsub : proposed.cpuset ⊆ obj.cpuset
    · -- the walk descends into this node
      rcases hx with hx | hx | hx
      · rw [hx] at hnsub; exact absurd hsub hnsub
      · have hndup : ¬ (proposed.cpuset = obj.cpuset ∧ proposed.type = obj.type) := by
          rintro ⟨heq, _⟩
          apply hnsup
          rw [heq]
          exact h1 x hx
        have hc := ihc h3 ⟨x, hx, hov⟩
        unfold hwloc__insert_object_by_cpuset at hc ⊢
        rw [descend, if_pos hsub, if_neg hndup]
        cases hd : descend proposed first_child with
        | some below =>
          rw [hd] at hc
          simp only at hc
          simp only [hc]
        | none =>
          rw [hd] at hc
          simp only at hc
          simp only [hc]
      · exfalso
        obtain ⟨s, hs, hxs⟩ := under_a_sibling next_sibling h4 x hx
        apply hdis
        exact Finset.disjoint_of_subset_left hsub
          (Finset.disjoint_of_subset_right hxs (h2 s hs))
    · by_cases hhere : x = obj ∨ x ∈ all_objects first_child
      · -- this node itself overlaps the proposed cpuset partially
        have hxo : x.cpuset ⊆ obj.cpuset := by
          rcases hhere with hx | hx
          · rw [hx]
          · exact h1 x hx
        have hov_obj : partial_overlap proposed.cpuset obj.cpuset = true := by
          rw [partial_overlap_iff]
          refine ⟨?_, hsub, ?_⟩
          · intro hd
            exact hdis (Finset.disjoint_of_subset_right hxo hd)
          · intro hd
            exact hnsup (hxo.trans hd)
        have hnd : ¬ Disjoint proposed.cpuset obj.cpuset :=
          ((partial_overlap_iff _ _).mp hov_obj).1
        have hnone : descend proposed (hwloc_tree.node obj first_child next_sibling) = none := by
          rw [descend_none_iff]
          intro s hs
          simp only [siblings, List.mem_cons] at hs
          rcases hs with rfl | hs
          · exact hsub
          · intro hps
            exact hnd (Finset.disjoint_of_subset_left hps (h2 s hs).symm)
        unfold hwloc__insert_object_by_cpuset
        rw [hnone]
        apply insert_at_level_conflict
        rw [any_partial_overlap, hov_obj]
        rfl
      · have hx' : x ∈ all_objects next_sibling := by
          rcases hx with hx | hx | hx
          · exact absurd (Or.inl hx) hhere
          · exact absurd (Or.inr hx) hhere
          · exact hx
        have hc := ihs h4 ⟨x, hx', hov⟩
        unfold hwloc__insert_object_by_cpuset at hc ⊢
        rw [descend, if_neg hsub]
        cases hd : descend proposed next_sibling with
        | some beside =>
          rw [hd] at hc
          simp only at hc
          simp only [hc]
        | none =>
          rw [hd] at hc
          simp only at hc
          have hany := insert_at_level_conflict_inv proposed next_sibling hc
          apply insert_at_level_conflict
          rw [any_partial_overlap, hany]
          simp

theorem nested_insert_all (objects : List hwloc_obj) :
    nested_and_disjoint (insert_all objects) := by
  unfold insert_all
  have key : ∀ (l : List hwloc_obj) (tree : hwloc_tree), nested_and_disjoint tree →
      nested_and_disjoint
        (l.foldl (fun tree obj => (hwloc__insert_object_by_cpuset tree obj).2) tree) := by
    intro l
    induction l with
    | nil => intro tree h; exact h
    | cons o rest ih =>
      intro tree h
      rw [List.foldl_cons]
      exact ih _ (nested_insert tree o h)
  exact key objects hwloc_tree.nil trivial

/-! ## Insertion by cpuset -/

/-- C20: in a tree whose nodes are nested and whose siblings are disjoint, inserting through
`hwloc__insert_object_by_cpuset` an object whose cpuset partially overlaps the cpuset of an
existing node (they share a processor and neither contains the other) leaves the tree
unchanged and reports StructuralConflict; every insertion keeps the tree nested and
disjoint, so that after any sequence of insertions into the empty tree sibling cpusets are
pairwise disjoint and every node's cpuset is a subset of the cpusets of its ancestors. -/
theorem insertion_rejects_partial_overlap :
    (∀ (tree : hwloc_tree) (proposed : hwloc_obj), nested_and_disjoint tree →
        (∃ x ∈ all_objects tree, partial_overlap proposed.cpuset x.cpuset = true) →
        hwloc__insert_object_by_cpuset tree proposed
          = (insert_result.StructuralConflict, tree))
    ∧ (∀ (tree : hwloc_tree) (proposed : hwloc_obj), nested_and_disjoint tree →
        nested_and_disjoint (hwloc__insert_object_by_cpuset tree proposed).2)
    ∧ (∀ objects : List hwloc_obj, nested_and_disjoint (insert_all objects))
    ∧ (∀ (objects : List hwloc_obj) (proposed : hwloc_obj),
        (∃ x ∈ all_objects (insert_all objects),
          partial_overlap proposed.cpuset x.cpuset = true) →
        hwloc__insert_object_by_cpuset (insert_all objects) proposed
          = (insert_result.StructuralConflict, insert_all objects)) :=
  ⟨fun tree proposed h hex => conflict_detected proposed tree h hex,
    fun tree proposed h => nested_insert tree proposed h,
    nested_insert_all,
    fun objects proposed hex =>
      conflict_detected proposed (insert_all objects) (nested_insert_all objects) hex⟩

/-- Witness of C20: the tree of the two packages and four cores of the uniform machine
rejects an object whose cpuset `{3, 4}` straddles the two packages. -/
theorem insertion_rejects_partial_overlap_witness :
    nested_and_disjoint (insert_all uniform_objects)
    ∧ (∃ x ∈ all_objects (insert_all uniform_objects),
        partial_overlap straddling_obj.cpuset x.cpuset = true)
    ∧ hwloc__insert_object_by_cpuset (insert_all uniform_objects) straddling_obj
        = (insert_result.StructuralConflict, insert_all uniform_objects) :=
  ⟨insertion_rejects_partial_overlap.2.2.1 uniform_objects,
    ⟨package_obj snapshot_uniform 4 0, List.mem_cons_self _ _, by decide⟩,
    insertion_rejects_partial_overlap.1 (insert_all uniform_objects) straddling_obj
      (insertion_rejects_partial_overlap.2.2.1 uniform_objects)
      ⟨package_obj snapshot_uniform 4 0, List.mem_cons_self _ _, by decide⟩⟩

/-! ## Cores without packages -/

/-- C21, evaluated at the failing input: 4 logical processors in 1 package, with the
legacy values `logical_per_package = 16` and `cores_per_package = 8`. The package check
fails (4 is not 1 * 16) and no Package is built, yet 8 Core objects are built, with the
cpusets `{0,1}`, `{2,3}`, ..., `{14,15}`: the cores from index 2 on lie outside the set
`{0..3}` of the logical processors. -/
theorem cores_outside_processors :
    nprocs snapshot_family_maximum = some 4
    ∧ npackages snapshot_family_maximum = some 1
    ∧ logical_per_package snapshot_family_maximum 4 1 = some 16
    ∧ cores_per_package snapshot_family_maximum = 8
    ∧ ∃ d, hwloc_look_darwin topology_keep_all snapshot_family_maximum = some d
      ∧ d.packages = []
      ∧ d.cores.map (fun o => o.cpuset)
          = [Finset.Ico 0 2, Finset.Ico 2 4, Finset.Ico 4 6, Finset.Ico 6 8,
             Finset.Ico 8 10, Finset.Ico 10 12, Finset.Ico 12 14, Finset.Ico 14 16]
      ∧ ¬ (∀ o ∈ d.cores, o.cpuset ⊆ Finset.range 4) := by
  have h1 : nprocs snapshot_family_maximum = some 4 := by decide
  have h2 : npackages snapshot_family_maximum = some 1 := by decide
  have h3 : logical_per_package snapshot_family_maximum 4 1 = some 16 := by decide
  obtain ⟨d, hd⟩ := pass_with_packages topology_keep_all snapshot_family_maximum 4 1 16 rfl
    h1 h2 h3
  have hp : d.packages = [] := by
    rw [pass_packages topology_keep_all snapshot_family_maximum 4 1 16 d rfl h1 h2 h3 hd]
    rfl
  have hc : d.cores.map (fun o => o.cpuset)
      = [Finset.Ico 0 2, Finset.Ico 2 4, Finset.Ico 4 6, Finset.Ico 6 8,
         Finset.Ico 8 10, Finset.Ico 10 12, Finset.Ico 12 14, Finset.Ico 14 16] := by
    rw [pass_cores topology_keep_all snapshot_family_maximum 4 1 16 d rfl h1 h2 h3 hd]
    decide
  refine ⟨h1, h2, h3, by decide, d, hd, hp, hc, ?_⟩
  intro hall
  have hmem : Finset.Ico 14 16 ∈ d.cores.map (fun o => o.cpuset) := by
    rw [hc]; simp
  obtain ⟨o, ho, heq⟩ := List.mem_map.mp hmem
  have hsub := hall o ho
  rw [heq] at hsub
  have h14 : 14 ∈ Finset.Ico 14 16 := by decide
  have := hsub h14
  simp at this

/-! ## Share counts that do not divide the processor count -/

/-- C22: for every processor count `nprocs` and every level constructed by a pass that
returns, of share count
`c > 0` (whether or not `c` divides `nprocs`, and also when `c > nprocs`), the object of
group `j` has the cpuset `{j*c, ..., (j+1)*c - 1}`, which lies inside `{0..nprocs-1}` and is
disjoint from the cpuset of the object of every other group of the level; the processors
from `(nprocs / c) * c` on, the trailing `nprocs mod c` ones, belong to no object of the
level, and when `c > nprocs` the level has no object at all. -/
theorem level_groups_inside (topology : hwloc_topology) (s : PlatformSnapshot)
    (n : Nat) (raw : List Nat) (i c : Nat) (gs : List cache_group) (d : Discovery)
    (hn : nprocs s = some n) (hraw : s.hw_cacheconfig = some raw)
    (hd : hwloc_look_darwin topology s = some d)
    (hgs : d.levels[i]? = some gs)
    (hc : (cacheconfig s raw).getD i 0 = c) :
    0 < c
    ∧ gs.length = n / c
    ∧ (∀ (j : Nat) (g : cache_group), gs[j]? = some g →
        j < n / c
        ∧ g.obj.cpuset = Finset.Ico (j * c) ((j + 1) * c)
        ∧ g.obj.cpuset ⊆ Finset.range n
        ∧ (∀ (k : Nat) (g2 : cache_group), gs[k]? = some g2 → k ≠ j →
            Disjoint g.obj.cpuset g2.obj.cpuset))
    ∧ (∀ cpu, n / c * c ≤ cpu → ∀ g ∈ gs, cpu ∉ g.obj.cpuset)
    ∧ n - n / c * c = n % c
    ∧ (n < c → gs = []) := by
  obtain ⟨_, _, hroot, _, _, hmalloc⟩ := pass_level_inv topology s i gs d hd hgs
  obtain ⟨_, hne, hgroups⟩ :=
    pass_level_groups topology s n raw i gs d hroot hn hraw hmalloc hd hgs
  have hlt : n < UINT_MODULUS := nprocs_lt s n hn
  rw [hc] at hne hgroups
  have hc0 : 0 < c := Nat.pos_of_ne_zero hne
  have hlen : gs.length = n / c := by rw [hgroups]; simp
  have hcpu : ∀ (j : Nat) (g : cache_group), gs[j]? = some g →
      j < n / c ∧ g.obj.cpuset = Finset.Ico (j * c) ((j + 1) * c) := by
    intro j g hg
    rw [hgroups] at hg
    obtain ⟨hj, rfl⟩ := getElem?_map_range _ _ _ _ hg
    refine ⟨hj, ?_⟩
    have e : (look_group topology s (cacheconfig s raw)
        (cachesize s (cacheconfig_entries raw)) i j).obj.cpuset
        = cache_cpuset_range ((cacheconfig s raw).getD i 0) j := by
      simp only [look_group, level_obj]
      split <;> rfl
    rw [e, hc]
    exact cache_cpuset_range_eq n c j hlt hne hj
  refine ⟨hc0, hlen, ?_, ?_, ?_, ?_⟩
  · intro j g hg
    obtain ⟨hj, hset⟩ := hcpu j g hg
    refine ⟨hj, hset, ?_, ?_⟩
    · rw [hset]
      intro x hx
      rw [Finset.mem_Ico] at hx
      rw [Finset.mem_range]
      have h1 : (j + 1) * c ≤ n / c * c := Nat.mul_le_mul_right c hj
      have h2 : n / c * c ≤ n := Nat.div_mul_le_self n c
      omega
    · intro k g2 hg2 hkj
      obtain ⟨_, hset2⟩ := hcpu k g2 hg2
      rw [hset, hset2]
      rcases Nat.lt_or_gt_of_ne hkj with h | h
      · exact (ico_blocks_disjoint c k j h).symm
      · exact ico_blocks_disjoint c j k h
  · intro cpu hcpu_ge g hg hmem
    obtain ⟨j, hjlt, hj⟩ := List.getElem_of_mem hg
    have hj' : gs[j]? = some g := by
      rw [List.getElem?_eq_getElem hjlt, hj]
    obtain ⟨hjn, hset⟩ := hcpu j g hj'
    rw [hset, Finset.mem_Ico] at hmem
    have h1 : (j + 1) * c ≤ n / c * c := Nat.mul_le_mul_right c hjn
    omega
  · have h1 := Nat.div_add_mod n c
    have h2 : n / c * c = c * (n / c) := Nat.mul_comm _ _
    omega
  · intro hnc
    have h0 : n / c = 0 := Nat.div_eq_of_lt hnc
    rw [h0] at hlen
    exact List.length_eq_zero.mp hlen

/-- Witness of C22: 10 logical processors and a memory level shared by 4 give the two
objects `{0..3}` and `{4..7}`; the trailing `10 mod 4 = 2` processors are in neither. -/
theorem level_groups_inside_witness :
    nprocs snapshot_remainder = some 10
    ∧ (cacheconfig snapshot_remainder raw_remainder).getD 0 0 = 4
    ∧ (∃ d, hwloc_look_darwin topology_keep_all snapshot_remainder = some d
        ∧ d.levels[0]?
          = some (look_level topology_keep_all snapshot_remainder 10 [4, 0, 0, 0]
              (cachesize snapshot_remainder 4) 0))
    ∧ (look_level topology_keep_all snapshot_remainder 10 [4, 0, 0, 0]
        (cachesize snapshot_remainder 4) 0).length = 10 / 4
    ∧ (∀ cpu, 10 / 4 * 4 ≤ cpu →
        ∀ g ∈ look_level topology_keep_all snapshot_remainder 10 [4, 0, 0, 0]
          (cachesize snapshot_remainder 4) 0, cpu ∉ g.obj.cpuset) :=
  ⟨by decide, by decide, ⟨_, rfl, rfl⟩,
    (level_groups_inside topology_keep_all snapshot_remainder 10 raw_remainder 0 4
      (look_level topology_keep_all snapshot_remainder 10 [4, 0, 0, 0]
        (cachesize snapshot_remainder 4) 0) _
      (by decide) rfl rfl rfl (by decide)).2.1,
    (level_groups_inside topology_keep_all snapshot_remainder 10 raw_remainder 0 4
      (look_level topology_keep_all snapshot_remainder 10 [4, 0, 0, 0]
        (cachesize snapshot_remainder 4) 0) _
      (by decide) rfl rfl rfl (by decide)).2.2.2.1⟩

/-! ## The width of the share counts -/

theorem le_bytes_length (width v : Nat) : (le_bytes width v).length = width := by
  simp [le_bytes]

theorem le_buffer_length (width : Nat) (values : List Nat) :
    (le_buffer width values).length = width * values.length := by
  induction values with
  | nil => simp [le_buffer]
  | cons v rest ih =>
    simp only [le_buffer, List.length_append, le_bytes_length, ih, List.length_cons]
    ring

theorem le_buffer_getD (width : Nat) (values : List Nat) :
    ∀ (i k d : Nat), i < values.length → k < width →
      (le_buffer width values).getD (width * i + k) d = values.getD i 0 / 256 ^ k % 256 := by
  induction values with
  | nil => intro i k d hi; simp at hi
  | cons v rest ih =>
    intro i k d hi hk
    cases i with
    | zero =>
      simp only [le_buffer, Nat.mul_zero, Nat.zero_add, List.getD_eq_getElem?_getD]
      rw [List.getElem?_append_left (by rw [le_bytes_length]; exact hk)]
      simp [le_bytes, List.getElem?_range hk]
    | succ i =>
      have hi' : i < rest.length := by simpa using hi
      have hidx : width * (i + 1) + k = (le_bytes width v).length + (width * i + k) := by
        rw [le_bytes_length]; ring
      simp only [le_buffer, List.getD_eq_getElem?_getD]
      rw [hidx, List.getElem?_append_right (Nat.le_add_right _ _), Nat.add_sub_cancel_left]
      have := ih i k d hi' hk
      simp only [List.getD_eq_getElem?_getD] at this
      rw [this]
      simp

theorem sum_le_digits (v width : Nat) :
    ((List.range width).map (fun k => v / 256 ^ k % 256 * 256 ^ k)).sum = v % 256 ^ width := by
  induction width with
  | zero => simp [Nat.mod_one]
  | succ w ih =>
    rw [List.range_succ, List.map_append, List.sum_append, ih, Nat.mod_pow_succ]
    simp [Nat.mul_comm]

theorem le_word_of_buffer (s : PlatformSnapshot) (width : Nat) (values : List Nat)
    (i : Nat) (hi : i < values.length) :
    le_word (cacheconfig_byte s (le_buffer width values)) (width * i) width
      = values.getD i 0 % 256 ^ width := by
  unfold le_word
  rw [← sum_le_digits]
  congr 1
  apply List.map_congr_left
  intro k hk
  have hk' : k < width := List.mem_range.mp hk
  unfold cacheconfig_byte
  rw [le_buffer_getD width values i k _ hi hk', Nat.mod_mod]

theorem le_word_split (byte : Nat → Nat) :
    le_word byte 0 8 = le_word byte 0 4 + 4294967296 * le_word byte 4 4 := by
  simp [le_word, List.range_succ]
  ring

theorem getD_map_range (f : Nat → Nat) (n i : Nat) (h : i < n) :
    ((List.range n).map f).getD i 0 = f i := by
  rw [List.getD_eq_getElem?_getD, List.getElem?_map, List.getElem?_range h]
  rfl

theorem getD_lt_of_forall (values : List Nat) (bound i : Nat)
    (hall : ∀ v ∈ values, v < bound) (hi : i < values.length) : values.getD i 0 < bound := by
  rw [List.getD_eq_getElem?_getD, List.getElem?_eq_getElem hi]
  exact hall _ (List.getElem_mem hi)

theorem cacheconfig_entries_le_buffer (values : List Nat) :
    cacheconfig_entries (le_buffer 4 values) = values.length % UINT_MODULUS := by
  unfold cacheconfig_entries
  rw [le_buffer_length, Nat.mul_div_cancel_left _ (by decide : 0 < 4)]

/-- C23: the width normalisation of `hw.cacheconfig` recovers the share counts. When the
buffer holds the 32-bit little-endian integers `v0, v1, ...` with `v1` not zero, the first
64-bit word read exceeds `0xFFFFFFFF` and, after the normalisation, `cacheconfig[i]` is
`v_i` for every `i` below the entry count (so that the array is `v0, v1, ...` itself when
their number fits the `unsigned` entry count). When the first 64-bit word is at most
`0xFFFFFFFF` the array is left as the 64-bit integers that were read: for a buffer of 64-bit
little-endian integers `w0, w1, ...` with `w0` at most `0xFFFFFFFF`, `cacheconfig[i]` is
`w_i`. -/
theorem cacheconfig_width (s : PlatformSnapshot) :
    (∀ values : List Nat, (∀ v ∈ values, v < 4294967296) → values.getD 1 0 ≠ 0 →
        4294967295 < le_word (cacheconfig_byte s (le_buffer 4 values)) 0 8
        ∧ (cacheconfig s (le_buffer 4 values)).length
            = cacheconfig_entries (le_buffer 4 values)
        ∧ (∀ i, i < cacheconfig_entries (le_buffer 4 values) →
            (cacheconfig s (le_buffer 4 values)).getD i 0 = values.getD i 0)
        ∧ (values.length < UINT_MODULUS → cacheconfig s (le_buffer 4 values) = values))
    ∧ (∀ raw : List Nat, le_word (cacheconfig_byte s raw) 0 8 ≤ 4294967295 →
        cacheconfig s raw
          = (List.range (cacheconfig_entries raw)).map
              (fun i => le_word (cacheconfig_byte s raw) (8 * i) 8))
    ∧ (∀ values : List Nat, (∀ v ∈ values, v < 18446744073709551616) →
        values.getD 0 0 ≤ 4294967295 →
        ∀ i, i < values.length → i < cacheconfig_entries (le_buffer 8 values) →
          (cacheconfig s (le_buffer 8 values)).getD i 0 = values.getD i 0) := by
  refine ⟨?_, ?_, ?_⟩
  · intro values hall h1
    have hlen : 1 < values.length := by
      by_contra hnot
      apply h1
      rw [List.getD_eq_getElem?_getD, List.getElem?_eq_none (by omega)]
      rfl
    have hw0 := le_word_of_buffer s 4 values 0 (by omega)
    have hw1 := le_word_of_buffer s 4 values 1 hlen
    have hv1 := getD_lt_of_forall values 4294967296 1 hall hlen
    have hfirst : 4294967295 < le_word (cacheconfig_byte s (le_buffer 4 values)) 0 8 := by
      rw [le_word_split]
      simp only [Nat.mul_zero, Nat.mul_one] at hw0 hw1
      rw [hw1, Nat.mod_eq_of_lt (by simpa using hv1)]
      omega
    have hentry : ∀ i, i < cacheconfig_entries (le_buffer 4 values) →
        le_word (cacheconfig_byte s (le_buffer 4 values)) (4 * i) 4 = values.getD i 0 := by
      intro i hi
      rw [cacheconfig_entries_le_buffer] at hi
      have hil : i < values.length := lt_of_lt_of_le hi (Nat.mod_le _ _)
      rw [le_word_of_buffer s 4 values i hil]
      exact Nat.mod_eq_of_lt (by simpa using getD_lt_of_forall values 4294967296 i hall hil)
    have hcfg : cacheconfig s (le_buffer 4 values)
        = (List.range (cacheconfig_entries (le_buffer 4 values))).map
            (fun i => le_word (cacheconfig_byte s (le_buffer 4 values)) (4 * i) 4) := by
      unfold cacheconfig
      rw [if_pos hfirst]
    refine ⟨hfirst, by rw [hcfg]; simp, ?_, ?_⟩
    · intro i hi
      rw [hcfg, getD_map_range _ _ i hi]
      exact hentry i hi
    · intro hfit
      have hn : cacheconfig_entries (le_buffer 4 values) = values.length := by
        rw [cacheconfig_entries_le_buffer, Nat.mod_eq_of_lt hfit]
      apply List.ext_getElem
      · rw [hcfg]; simp [hn]
      · intro i h1 h2
        have hi : i < cacheconfig_entries (le_buffer 4 values) := by rw [hn]; exact h2
        have hg : (cacheconfig s (le_buffer 4 values)).getD i 0 = values.getD i 0 := by
          rw [hcfg, getD_map_range _ _ i hi]
          exact hentry i hi
        rw [List.getD_eq_getElem?_getD, List.getD_eq_getElem?_getD,
          List.getElem?_eq_getElem h1, List.getElem?_eq_getElem h2] at hg
        exact hg
  · intro raw hle
    unfold cacheconfig
    rw [if_neg (by omega)]
  · intro values hall h0 i hi hin
    have hw0 := le_word_of_buffer s 8 values 0 (by omega)
    have hv0 := getD_lt_of_forall values 18446744073709551616 0 hall (by omega)
    simp only [Nat.mul_zero] at hw0
    have hfirst : ¬ 4294967295 < le_word (cacheconfig_byte s (le_buffer 8 values)) 0 8 := by
      rw [hw0, Nat.mod_eq_of_lt (by simpa using hv0)]
      omega
    unfold cacheconfig
    rw [if_neg hfirst, getD_map_range _ _ i hin, le_word_of_buffer s 8 values i hi]
    exact Nat.mod_eq_of_lt (by simpa using getD_lt_of_forall values 18446744073709551616 i hall hi)

/-- Witness of C23: the 20 bytes of the 32-bit share counts `[4, 2, 8, 0, 3]`, whose second
entry is not zero, are normalised to `[4, 2, 8, 0, 3]`; the 16 bytes of the 64-bit share
counts `[4, 0]` are left as they are read. -/
theorem cacheconfig_width_witness :
    raw_share_counts = le_buffer 4 [4, 2, 8, 0, 3]
    ∧ cacheconfig snapshot_caches (le_buffer 4 [4, 2, 8, 0, 3]) = [4, 2, 8, 0, 3]
    ∧ raw_remainder = le_buffer 8 [4, 0]
    ∧ (cacheconfig snapshot_remainder (le_buffer 8 [4, 0])).getD 0 0 = 4 :=
  ⟨by decide,
    ((cacheconfig_width snapshot_caches).1 [4, 2, 8, 0, 3] (by decide) (by decide)).2.2.2
      (by decide),
    by decide,
    (cacheconfig_width snapshot_remainder).2.2 [4, 0] (by decide) (by decide) 0 (by decide)
      (by decide)⟩

end Darwin
